import Mathlib

/-!
# Placement engine of the vSphere CSI driver

Shallow embedding of `pkg/csi/service/common/placementengine` (`utils.go`,
`placement.go`).

Conventions of the embedding:

* a Go `map[string]T` is an association list `List (String × T)`; ranging over
  the map visits the entries in list order, so a statement quantified over all
  lists covers every iteration order the Go runtime may choose;
* a Go set `map[string]struct{}` is a `List String` (well formed when it has no
  duplicates);
* a Go function returning `(value, error)` returns a pair whose second
  component is `none` for a nil error; a nil slice is `[]`, a nil map is `none`;
* logging is dropped; every `LogNewErrorf` site is one constructor of
  `PlacementError`.
-/

namespace PlacementEngine

/-! ## Go maps as association lists -/

/-- Go `v, ok := m[k]`: the value stored under `k`, if any. -/
def mapGet {β : Type} : List (String × β) → String → Option β
  | [], _ => none
  | (k, v) :: rest, key => if k = key then some v else mapGet rest key

/-- Go `m[k] = v`: overwrite the entry of `k` if present, otherwise add it. -/
def mapSet {β : Type} : List (String × β) → String → β → List (String × β)
  | [], key, v => [(key, v)]
  | (k, w) :: rest, key, v =>
    if k = key then (k, v) :: rest else (k, w) :: mapSet rest key v

/-- The keys of a map, in iteration order. -/
def mapKeys {β : Type} (m : List (String × β)) : List String := m.map Prod.fst

/-- Go `map[string]string`, e.g. a set of topology segments. -/
abbrev Segments := List (String × String)

/-- Go `m[k]` on a `map[string]string`: the zero value `""` when `k` is absent. -/
def strMapIndex (m : Segments) (k : String) : String := (mapGet m k).getD ""

/-- Type of the cache `TopologyVCMap map[string]map[string]struct{}`:
topology tag to the set of vCenter hosts holding the tag. -/
abbrev TopologyVCMapT := List (String × List String)

/-- Well-formedness of a `TopologyVCMapT`: each inner `map[string]struct{}` is a
set, so its key list has no duplicates. -/
def TopologyVCMapT.WF (tvm : TopologyVCMapT) : Prop :=
  ∀ p ∈ tvm, p.2.Nodup

instance (tvm : TopologyVCMapT) : Decidable tvm.WF := by
  unfold TopologyVCMapT.WF; infer_instance

/-! ## Errors -/

/-- The error sites of the package, one constructor per `LogNewErrorf` call. -/
inductive PlacementError where
  /-- `No preferred segments specified in the accessibility requirements.` -/
  | noPreferredSegments
  /-- `failed to fetch VC associated with topology segments %+v` -/
  | failedToFetchVC (segments : Segments)
  /-- `Topology label %q not found in topology to VC mapping.` -/
  | labelNotFound (topologyKey label : String)
  /-- `Topology segment(s) %+v belong to more than one VC: %+v` -/
  | moreThanOneVC (segments : Segments)
  /-- `failed to find the VC associated with topology segments %+v` -/
  | noVCFound (segments : Segments)
  /-- `failed to convert unstructured object %+v to CSINodeTopology instance.` -/
  | convertFailed
  /-- `node %q not yet ready. Found CSINodeTopology instance status: %q ...` -/
  | nodeNotReady (name status errorMessage : String)
  /-- `failed to retrieve NodeVM %q. Error - %+v` -/
  | nodeVMNotRetrieved (nodeID cause : String)
  /-- `found compatible NodeVMs belonging to two different VCs: %q, %q` -/
  | twoDifferentVCs (vcHost found : String)
  /-- The error of `GetSharedDatastoresForVMs`, returned as it is. -/
  | sharedDatastoresForVMs (cause : String)
  /-- `failed to find datastore compatibility with storage policy ID %q. Error: %+v` -/
  | pbmCheckFailed (storagePolicyID cause : String)
  /-- `No compatible shared datastores found for storage policy %q` -/
  | noCompatibleDatastores (storagePolicyID : String)
  /-- `failed to fetch CNS config. Error: %+v` -/
  | configFailed (cause : String)
  /-- `failed to get VirtualCenterConfig from CNS config. Error: %+v` -/
  | vcConfigsFailed (cause : String)
  /-- `failed to get vCenter instance for host %q. Error: %+v` -/
  | vCenterInstanceFailed (host cause : String)
  /-- `failed to create tag manager. Error: %+v` -/
  | tagManagerFailed (cause : String)
  /-- `failed to retrieve objects with tags %v. Error: %+v` -/
  | attachedObjectsFailed (tagIds : List String) (cause : String)
  /-- `failed to retrieve summary from datastore: %+v. Error: %v` -/
  | datastoreSummaryFailed (cause : String)
  deriving DecidableEq

/-! ## `utils.go`: resolving the vCenter of topology segments -/

/-- The statement `vcCountMap[vc] = vcCountMap[vc] + 1`. -/
def incrCount : List (String × Nat) → String → List (String × Nat)
  | [], vc => [(vc, 1)]
  | (k, c) :: rest, vc =>
    if k = vc then (k, c + 1) :: rest else (k, c) :: incrCount rest vc

/-- The first loop of `getVCForTopologySegments`: for every `(topologyKey, label)`
of the segments, bump the count of every vCenter under `TopologyVCMap[label]`,
or stop with an error at the first label missing from the mapping. -/
def countVCs (tvm : TopologyVCMapT) :
    Segments → List (String × Nat) → Except PlacementError (List (String × Nat))
  | [], vcCountMap => .ok vcCountMap
  | (topologyKey, label) :: rest, vcCountMap =>
    match mapGet tvm label with
    | some vcList => countVCs tvm rest (vcList.foldl incrCount vcCountMap)
    | none => .error (.labelNotFound topologyKey label)

/-- The second loop of `getVCForTopologySegments`: the vCenters whose count
equals the number of labels. -/
def commonVCs (vcCountMap : List (String × Nat)) (numTopoLabels : Nat) : List String :=
  (vcCountMap.filter (fun p => p.2 == numTopoLabels)).map Prod.fst

/-- `getVCForTopologySegments`, with the cache `TopologyVCMap` as a parameter. -/
def getVCForTopologySegments (tvm : TopologyVCMapT) (topologySegments : Segments) :
    String × Option PlacementError :=
  match countVCs tvm topologySegments [] with
  | .error e => ("", some e)
  | .ok vcCountMap =>
    match commonVCs vcCountMap topologySegments.length with
    | [] => ("", some (.noVCFound topologySegments))
    | [vc] => (vc, none)
    | _ :: _ :: _ => ("", some (.moreThanOneVC topologySegments))

/-- The statement `vcTopoSegmentsMap[vcHost] = append(vcTopoSegmentsMap[vcHost], segments)`. -/
def appendSegments (m : List (String × List Segments)) (vcHost : String) (segments : Segments) :
    List (String × List Segments) :=
  mapSet m vcHost ((mapGet m vcHost).getD [] ++ [segments])

/-- The loop of `ClubAccessibilityRequirementsByVC` over the preferred
topologies, threading `vcTopoSegmentsMap`. -/
def clubLoop (tvm : TopologyVCMapT) :
    List Segments → List (String × List Segments) →
      Option (List (String × List Segments)) × Option PlacementError
  | [], vcTopoSegmentsMap => (some vcTopoSegmentsMap, none)
  | segments :: rest, vcTopoSegmentsMap =>
    match getVCForTopologySegments tvm segments with
    | (vcHost, none) => clubLoop tvm rest (appendSegments vcTopoSegmentsMap vcHost segments)
    | (_, some _) => (none, some (.failedToFetchVC segments))

/-- `ClubAccessibilityRequirementsByVC`. The argument is `topoReq.GetPreferred()`
with each topology replaced by its `GetSegments()`; `none` is the nil slice. -/
def ClubAccessibilityRequirementsByVC (tvm : TopologyVCMapT) (preferred : Option (List Segments)) :
    Option (List (String × List Segments)) × Option PlacementError :=
  match preferred with
  | none => (none, some .noPreferredSegments)
  | some topologies => clubLoop tvm topologies []

/-! ## `placement.go`: matching nodes against requested segments -/

/-- Modelled from the spec: the type `cnsvsphere.VirtualMachine` is declared
outside the placement engine; a node handle is the resolved node identity plus
the host of the vCenter that manages it (field `VirtualCenterHost`). -/
structure VirtualMachine where
  UUID : String
  VirtualCenterHost : String
  deriving DecidableEq

/-- One entry `{Key, Value}` of `Status.TopologyLabels`. -/
structure TopologyLabel where
  Key : String
  Value : String
  deriving DecidableEq

/-- The fields of a `CSINodeTopology` instance read by the placement engine:
`Name`, `Spec.NodeID`, `Spec.NodeUUID`, `Status.Status`, `Status.ErrorMessage`
and `Status.TopologyLabels`. -/
structure CSINodeTopology where
  Name : String
  NodeID : String
  NodeUUID : String
  Status : String
  ErrorMessage : String
  TopologyLabels : List TopologyLabel
  deriving DecidableEq

/-- The status constant `csinodetopologyv1alpha1.CSINodeTopologySuccess`. -/
def CSINodeTopologySuccess : String := "Success"

/-- The two lookups of `node.Manager` used by the matcher, as oracles: each
returns the node VM or the message of the error it failed with. -/
structure NodeManager where
  GetNode : String → Except String VirtualMachine
  GetNodeByName : String → Except String VirtualMachine

/-- The loop `topoLabelsMap[topoLabel.Key] = topoLabel.Value` over the labels of
a record, starting from the empty map. -/
def labelsToMap (labels : List TopologyLabel) : Segments :=
  labels.foldl (fun m topoLabel => mapSet m topoLabel.Key topoLabel.Value) []

/-- The loop computing `isMatch`: no requested `(key, value)` has
`topoLabelsMap[key] != value`. -/
def isMatch (requestedSegments topoLabelsMap : Segments) : Bool :=
  requestedSegments.all (fun p => strMapIndex topoLabelsMap p.1 == p.2)

/-- Go `reflect.DeepEqual` on two non-nil `map[string]string`: same number of
entries, and every key of the first is in the second with the same value. -/
def deepEqual (a b : Segments) : Bool :=
  a.length == b.length && a.all (fun p => mapGet b p.1 == some p.2)

/-- The local variables of `getTopologySegmentsWithMatchingNodes`. -/
structure MatchState where
  vcHost : String
  matchingNodeVMs : List VirtualMachine
  completeTopologySegments : List Segments
  deriving DecidableEq

/-- The hierarchy bookkeeping at the end of the loop body: append
`topoLabelsMap` unless a deeply equal map is already stored. -/
def recordSegments (completeTopologySegments : List Segments) (topoLabelsMap : Segments) :
    List Segments :=
  if completeTopologySegments.any (fun segs => deepEqual segs topoLabelsMap) then
    completeTopologySegments
  else completeTopologySegments ++ [topoLabelsMap]

/-- The node lookup selected by `isCSINodeIdFeatureEnabled`. -/
def lookupNodeVM (nodeMgr : NodeManager) (isCSINodeIdFeatureEnabled : Bool)
    (inst : CSINodeTopology) : Except String VirtualMachine :=
  if isCSINodeIdFeatureEnabled then nodeMgr.GetNode inst.NodeUUID
  else nodeMgr.GetNodeByName inst.NodeID

/-- One iteration of the loop of `getTopologySegmentsWithMatchingNodes` over the
informer cache. The cached object is given by the result of `FromUnstructured`
on it: `none` when the conversion fails. -/
def matchStep (requestedSegments : Segments) (nodeMgr : NodeManager)
    (isCSINodeIdFeatureEnabled : Bool) (st : MatchState) (val : Option CSINodeTopology) :
    Except PlacementError MatchState :=
  match val with
  | none => .error .convertFailed
  | some inst =>
    if inst.Status ≠ CSINodeTopologySuccess then
      .error (.nodeNotReady inst.Name inst.Status inst.ErrorMessage)
    else
      let topoLabelsMap := labelsToMap inst.TopologyLabels
      if isMatch requestedSegments topoLabelsMap then
        match lookupNodeVM nodeMgr isCSINodeIdFeatureEnabled inst with
        | .error cause => .error (.nodeVMNotRetrieved inst.NodeID cause)
        | .ok nodeVM =>
          if st.vcHost = "" then
            .ok { vcHost := nodeVM.VirtualCenterHost
                  matchingNodeVMs := st.matchingNodeVMs ++ [nodeVM]
                  completeTopologySegments :=
                    recordSegments st.completeTopologySegments topoLabelsMap }
          else if st.vcHost ≠ nodeVM.VirtualCenterHost then
            .error (.twoDifferentVCs st.vcHost nodeVM.VirtualCenterHost)
          else
            .ok { vcHost := st.vcHost
                  matchingNodeVMs := st.matchingNodeVMs ++ [nodeVM]
                  completeTopologySegments :=
                    recordSegments st.completeTopologySegments topoLabelsMap }
      else .ok st

/-- The loop of `getTopologySegmentsWithMatchingNodes`: run `matchStep` over the
cached objects in order, returning at the first error. -/
def matchLoop (requestedSegments : Segments) (nodeMgr : NodeManager)
    (isCSINodeIdFeatureEnabled : Bool) :
    List (Option CSINodeTopology) → MatchState → Except PlacementError MatchState
  | [], st => .ok st
  | val :: rest, st =>
    match matchStep requestedSegments nodeMgr isCSINodeIdFeatureEnabled st val with
    | .error e => .error e
    | .ok st' => matchLoop requestedSegments nodeMgr isCSINodeIdFeatureEnabled rest st'

/-- `getTopologySegmentsWithMatchingNodes`, with the list returned by
`GetCSINodeTopologyInstancesList()` as the parameter `instances`. Returns
`(matchingNodeVMs, completeTopologySegments, err)`. -/
def getTopologySegmentsWithMatchingNodes (instances : List (Option CSINodeTopology))
    (requestedSegments : Segments) (nodeMgr : NodeManager) (isCSINodeIdFeatureEnabled : Bool) :
    List VirtualMachine × List Segments × Option PlacementError :=
  match matchLoop requestedSegments nodeMgr isCSINodeIdFeatureEnabled instances
      { vcHost := "", matchingNodeVMs := [], completeTopologySegments := [] } with
  | .error e => ([], [], some e)
  | .ok st => (st.matchingNodeVMs, st.completeTopologySegments, none)

/-! ## `utils.go`: the preferred-datastore cache -/

/-- Type of the cache `preferredDatastoresMap map[string][]string`: topology
domain to the datastore URLs preferred in that domain. -/
abbrev PreferredDatastoresMapT := List (String × List String)

/-- The statement `set[x] = struct{}{}` on a Go set `map[string]struct{}`. -/
def setInsert (s : List String) (x : String) : List String :=
  if x ∈ s then s else s ++ [x]

/-- `GetPreferredDatastoresInSegments`, with the cache `preferredDatastoresMap`
as a parameter (the function only reads it). Returns `allPreferredDSURLs`. -/
def GetPreferredDatastoresInSegments (preferredDatastoresMap : PreferredDatastoresMapT)
    (segments : Segments) : List String :=
  if preferredDatastoresMap.length = 0 then []
  else
    segments.foldl (fun allPreferredDSURLs p =>
      match mapGet preferredDatastoresMap p.2 with
      | some preferredDS => preferredDS.foldl setInsert allPreferredDSURLs
      | none => allPreferredDSURLs) []

/-- The type `vimtypes.ManagedObjectReference`: a managed-object type (the
field `Type`, here `RefType`) and value. -/
structure ManagedObjectReference where
  RefType : String
  Value : String
  deriving DecidableEq

/-- One element of the result of `GetAttachedObjectsOnTags`: the name of the tag
(`Tag.Name`) and the references of the objects carrying it (`ObjectIDs`). -/
structure AttachedObjects where
  TagName : String
  ObjectIDs : List ManagedObjectReference
  deriving DecidableEq

/-- The collaborators of `RefreshPreferentialDatastores`, as oracles; each
returns its result or the message of the error it failed with. The vCenter and
its tag manager are named by the host of the vCenter configuration.
`DatastoreUrl` is `dsMo.Summary.Url` after `dsObj.Properties(..., "summary")`. -/
structure TagCollaborators where
  GetConfig : Except String Unit
  GetVirtualCenterConfigs : Except String (List String)
  GetVCenterFromVCHost : String → Except String Unit
  GetTagManager : String → Except String Unit
  ListTagsForCategory : String → Except String (List String)
  GetAttachedObjectsOnTags : String → List String → Except String (List AttachedObjects)
  DatastoreUrl : String → ManagedObjectReference → Except String String

/-- The loop over `attachedObj.ObjectIDs`: skip what is not a datastore, fetch
the URL of a datastore and append it under the name of the tag. -/
def scanObjectIDs (co : TagCollaborators) (host tagName : String) :
    List ManagedObjectReference → PreferredDatastoresMapT →
      Except PlacementError PreferredDatastoresMapT
  | [], prefDatastoresMap => .ok prefDatastoresMap
  | obj :: rest, prefDatastoresMap =>
    if obj.RefType ≠ "Datastore" then scanObjectIDs co host tagName rest prefDatastoresMap
    else
      match co.DatastoreUrl host obj with
      | .error cause => .error (.datastoreSummaryFailed cause)
      | .ok url =>
        scanObjectIDs co host tagName rest
          (mapSet prefDatastoresMap tagName
            ((mapGet prefDatastoresMap tagName).getD [] ++ [url]))

/-- The loop over `attachedObjs`. -/
def scanAttachedObjs (co : TagCollaborators) (host : String) :
    List AttachedObjects → PreferredDatastoresMapT →
      Except PlacementError PreferredDatastoresMapT
  | [], prefDatastoresMap => .ok prefDatastoresMap
  | attachedObj :: rest, prefDatastoresMap =>
    match scanObjectIDs co host attachedObj.TagName attachedObj.ObjectIDs prefDatastoresMap with
    | .error e => .error e
    | .ok m => scanAttachedObjs co host rest m

/-- How the loop of `RefreshPreferentialDatastores` over the vCenter
configurations ends: with a `return` inside the loop body (of an error, or of
nil), or by running to completion with the map built so far. -/
inductive ScanOutcome where
  | returned (err : Option PlacementError)
  | completed (prefDatastoresMap : PreferredDatastoresMapT)
  deriving DecidableEq

/-- The loop of `RefreshPreferentialDatastores` over `vcenterconfigs`. The check
of `err` right after `GetVirtualCenterManager` reads the nil error of
`GetVirtualCenterConfigs` and never fires. -/
def scanVCs (co : TagCollaborators) :
    List String → PreferredDatastoresMapT → ScanOutcome
  | [], prefDatastoresMap => .completed prefDatastoresMap
  | host :: rest, prefDatastoresMap =>
    match co.GetVCenterFromVCHost host with
    | .error cause => .returned (some (.vCenterInstanceFailed host cause))
    | .ok _ =>
      match co.GetTagManager host with
      | .error cause => .returned (some (.tagManagerFailed cause))
      | .ok _ =>
        match co.ListTagsForCategory host with
        | .error _ => .returned none
        | .ok tagIds =>
          if tagIds.length = 0 then .returned none
          else
            match co.GetAttachedObjectsOnTags host tagIds with
            | .error cause => .returned (some (.attachedObjectsFailed tagIds cause))
            | .ok attachedObjs =>
              match scanAttachedObjs co host attachedObjs prefDatastoresMap with
              | .error e => .returned (some e)
              | .ok m => scanVCs co rest m

/-- `RefreshPreferentialDatastores`, with the cache `preferredDatastoresMap`
before the call as a parameter. Returns the cache after the call and the error
of the call. -/
def RefreshPreferentialDatastores (co : TagCollaborators)
    (preferredDatastoresMap : PreferredDatastoresMapT) :
    PreferredDatastoresMapT × Option PlacementError :=
  match co.GetConfig with
  | .error cause => (preferredDatastoresMap, some (.configFailed cause))
  | .ok _ =>
    match co.GetVirtualCenterConfigs with
    | .error cause => (preferredDatastoresMap, some (.vcConfigsFailed cause))
    | .ok vcenterconfigs =>
      match scanVCs co vcenterconfigs [] with
      | .returned err => (preferredDatastoresMap, err)
      | .completed prefDatastoresMap =>
        if prefDatastoresMap.length ≠ 0 then (prefDatastoresMap, none)
        else (preferredDatastoresMap, none)

/-! ## `placement.go`: shared datastores of topology segments -/

/-- Modelled from the spec: the type `cnsvsphere.DatastoreInfo` is declared
outside the placement engine; a datastore is its identity (the managed-object
reference returned by `Reference()` and the URL `Info.Url`) plus metadata, of
which the name `Info.Name` is kept. -/
structure DatastoreInfo where
  Reference : ManagedObjectReference
  Url : String
  Name : String
  deriving DecidableEq

/-- The method of `cnsvsphere.VirtualCenter` used by the placement engine, as an
oracle: `PbmCheckCompatibility` of a list of datastore references against a
storage policy returns the `HubId`s of `compat.CompatibleDatastores()`, or the
message of the error it failed with. -/
structure VirtualCenter where
  PbmCheckCompatibility : List ManagedObjectReference → String → Except String (List String)

/-- What `GetSharedDatastores` reads besides its arguments: the informer cache
of node topology instances, the node manager, and the accessible-storage oracle
`cnsvsphere.GetSharedDatastoresForVMs`. -/
structure PlacementCollaborators where
  instances : List (Option CSINodeTopology)
  nodeMgr : NodeManager
  GetSharedDatastoresForVMs : List VirtualMachine → Except String (List DatastoreInfo)

/-- The storage policy block of the loop body of `GetSharedDatastores`. -/
def policyStep (vcenter : VirtualCenter) (storagePolicyID : String)
    (sharedDatastoresInTopology : List DatastoreInfo) :
    Except PlacementError (List DatastoreInfo) :=
  if storagePolicyID ≠ "" then
    let sharedDSMoRef := sharedDatastoresInTopology.map (fun ds => ds.Reference)
    match vcenter.PbmCheckCompatibility sharedDSMoRef storagePolicyID with
    | .error cause => .error (.pbmCheckFailed storagePolicyID cause)
    | .ok compat =>
      let compatibleDsMoids := compat.foldl setInsert []
      let compatibleDatastores :=
        sharedDatastoresInTopology.filter (fun ds => decide (ds.Reference.Value ∈ compatibleDsMoids))
      if compatibleDatastores.length = 0 then .error (.noCompatibleDatastores storagePolicyID)
      else .ok compatibleDatastores
  else .ok sharedDatastoresInTopology

/-- The preferential datastores block of the loop body of `GetSharedDatastores`. -/
def preferenceStep (isTopologyPreferentialDatastoresFSSEnabled : Bool)
    (preferredDatastoresMap : PreferredDatastoresMapT)
    (completeTopologySegments : List Segments)
    (sharedDatastoresInTopology : List DatastoreInfo) : List DatastoreInfo :=
  if isTopologyPreferentialDatastoresFSSEnabled ∧ preferredDatastoresMap.length ≠ 0 then
    let allPreferredDSURLs := completeTopologySegments.foldl (fun all topoSegs =>
      (GetPreferredDatastoresInSegments preferredDatastoresMap topoSegs).foldl setInsert all) []
    if allPreferredDSURLs.length ≠ 0 then
      let preferredDS :=
        sharedDatastoresInTopology.filter (fun dsInfo => decide (dsInfo.Url ∈ allPreferredDSURLs))
      if preferredDS.length ≠ 0 then preferredDS else sharedDatastoresInTopology
    else sharedDatastoresInTopology
  else sharedDatastoresInTopology

/-- The last block of the loop body of `GetSharedDatastores`: append to
`sharedDatastores` each received datastore whose URL is not in it yet. -/
def mergeDatastores (sharedDatastores sharedDatastoresInTopology : List DatastoreInfo) :
    List DatastoreInfo :=
  sharedDatastoresInTopology.foldl (fun shared ds =>
    if shared.any (fun sharedDS => sharedDS.Url == ds.Url) then shared else shared ++ [ds])
    sharedDatastores

/-- One iteration of the loop of `GetSharedDatastores`: the new value of
`sharedDatastores`, or the error the function returns with. -/
def sharedStep (co : PlacementCollaborators) (preferredDatastoresMap : PreferredDatastoresMapT)
    (storagePolicyID : String) (vcenter : VirtualCenter)
    (isCSINodeIdFeatureEnabled isTopologyPreferentialDatastoresFSSEnabled : Bool)
    (sharedDatastores : List DatastoreInfo) (segments : Segments) :
    Except PlacementError (List DatastoreInfo) :=
  match getTopologySegmentsWithMatchingNodes co.instances segments co.nodeMgr
      isCSINodeIdFeatureEnabled with
  | (_, _, some err) => .error err
  | (matchingNodeVMs, completeTopologySegments, none) =>
    if matchingNodeVMs.length = 0 then .ok sharedDatastores
    else
      match co.GetSharedDatastoresForVMs matchingNodeVMs with
      | .error cause => .error (.sharedDatastoresForVMs cause)
      | .ok sharedDatastoresInTopology =>
        match policyStep vcenter storagePolicyID sharedDatastoresInTopology with
        | .error e => .error e
        | .ok compatible =>
          .ok (mergeDatastores sharedDatastores
            (preferenceStep isTopologyPreferentialDatastoresFSSEnabled preferredDatastoresMap
              completeTopologySegments compatible))

/-- The loop of `GetSharedDatastores` over `topologySegmentsList`. -/
def sharedLoop (co : PlacementCollaborators) (preferredDatastoresMap : PreferredDatastoresMapT)
    (storagePolicyID : String) (vcenter : VirtualCenter)
    (isCSINodeIdFeatureEnabled isTopologyPreferentialDatastoresFSSEnabled : Bool) :
    List Segments → List DatastoreInfo → List DatastoreInfo × Option PlacementError
  | [], sharedDatastores => (sharedDatastores, none)
  | segments :: rest, sharedDatastores =>
    match sharedStep co preferredDatastoresMap storagePolicyID vcenter
        isCSINodeIdFeatureEnabled isTopologyPreferentialDatastoresFSSEnabled
        sharedDatastores segments with
    | .error e => ([], some e)
    | .ok shared =>
      sharedLoop co preferredDatastoresMap storagePolicyID vcenter
        isCSINodeIdFeatureEnabled isTopologyPreferentialDatastoresFSSEnabled rest shared

/-- `GetSharedDatastores`, with the collaborators and the cache
`preferredDatastoresMap` as parameters. -/
def GetSharedDatastores (co : PlacementCollaborators)
    (preferredDatastoresMap : PreferredDatastoresMapT)
    (topologySegmentsList : List Segments) (storagePolicyID : String) (vcenter : VirtualCenter)
    (isCSINodeIdFeatureEnabled isTopologyPreferentialDatastoresFSSEnabled : Bool) :
    List DatastoreInfo × Option PlacementError :=
  sharedLoop co preferredDatastoresMap storagePolicyID vcenter isCSINodeIdFeatureEnabled
    isTopologyPreferentialDatastoresFSSEnabled topologySegmentsList []

/-! ## `csinodetopology_controller.go`: discovery of existing topology labels -/

/-- The Kubernetes constant `corev1.LabelTopologyZone`. -/
def LabelTopologyZone : String := "topology.kubernetes.io/zone"

/-- The Kubernetes constant `corev1.LabelTopologyRegion`. -/
def LabelTopologyRegion : String := "topology.kubernetes.io/region"

/-- The Kubernetes constant `corev1.LabelFailureDomainBetaZone`. -/
def LabelFailureDomainBetaZone : String := "failure-domain.beta.kubernetes.io/zone"

/-- The Kubernetes constant `corev1.LabelFailureDomainBetaRegion`. -/
def LabelFailureDomainBetaRegion : String := "failure-domain.beta.kubernetes.io/region"

/-- The constant `csitypes.Name`, the name of the vSphere CSI driver. -/
def csitypesName : String := "csi.vsphere.vmware.com"

/-- The fields of `storagev1.CSINodeDriver` read by the controller. -/
structure CSINodeDriver where
  Name : String
  TopologyKeys : List String
  deriving DecidableEq

/-- The field `Spec.Drivers` of `storagev1.CSINode`. -/
structure CSINode where
  Drivers : List CSINodeDriver
  deriving DecidableEq

/-- The errors of the controller. -/
inductive ControllerError where
  /-- `found mixed set of topology keys on CSINode(s) in the cluster. ...` -/
  | mixedTopologyKeys
  deriving DecidableEq

/-- The map `labelMap` of `findExistingTopologyLabels`, which has the two keys
`"beta"` and `"GA"` throughout. -/
structure LabelMap where
  beta : Bool
  GA : Bool
  deriving DecidableEq

/-- The body of the loop over `driver.TopologyKeys`: the two `if` statements on
one topology key. -/
def markTopologyKey (labelMap : LabelMap) (topoKey : String) : LabelMap :=
  let lm1 : LabelMap :=
    if topoKey = LabelTopologyZone ∨ topoKey = LabelTopologyRegion then
      { labelMap with GA := true }
    else labelMap
  if topoKey = LabelFailureDomainBetaZone ∨ topoKey = LabelFailureDomainBetaRegion then
    { lm1 with beta := true }
  else lm1

/-- The loop over `driver.TopologyKeys`. -/
def scanTopologyKeys (labelMap : LabelMap) (topologyKeys : List String) : LabelMap :=
  topologyKeys.foldl markTopologyKey labelMap

/-- The loop over `csiNode.Spec.Drivers`, which ends with `break` at the first
driver named `csitypes.Name`. -/
def scanDrivers (labelMap : LabelMap) : List CSINodeDriver → LabelMap
  | [] => labelMap
  | driver :: rest =>
    if driver.Name = csitypesName then scanTopologyKeys labelMap driver.TopologyKeys
    else scanDrivers labelMap rest

/-- The loop of `findExistingTopologyLabels` over `csiNodeList`. -/
def scanCSINodes (labelMap : LabelMap) : List CSINode → Except ControllerError LabelMap
  | [] => .ok labelMap
  | csiNode :: rest =>
    let lm := scanDrivers labelMap csiNode.Drivers
    if lm.GA ∧ lm.beta then .error .mixedTopologyKeys
    else scanCSINodes lm rest

/-- `findExistingTopologyLabels`. Returns the zone label, the region label and
the error. -/
def findExistingTopologyLabels (csiNodeList : List CSINode) :
    String × String × Option ControllerError :=
  match scanCSINodes { beta := false, GA := false } csiNodeList with
  | .error e => ("", "", some e)
  | .ok labelMap =>
    if labelMap.GA then (LabelTopologyZone, LabelTopologyRegion, none)
    else if labelMap.beta then (LabelFailureDomainBetaZone, LabelFailureDomainBetaRegion, none)
    else ("", "", none)

/-! ## `csinodetopology_controller.go`: the reconciler and its backoff -/

/-- Go `int64` arithmetic: the value an integer result has after wrap-around to
64 bits, two's complement. -/
def wrapInt64 (x : Int) : Int := (x + 2 ^ 63) % 2 ^ 64 - 2 ^ 63

/-- The constant `time.Second`; a `time.Duration` is an `int64` count of
nanoseconds. -/
def timeSecond : Int := 1000000000

/-- The status constant `csinodetopologyv1alpha1.CSINodeTopologyError`. -/
def CSINodeTopologyError : String := "Error"

/-- The sentinel error `node.ErrNodeNotFound`; a node manager lookup that fails
with it returns this message, and the test `err == node.ErrNodeNotFound` is the
comparison with it. -/
def ErrNodeNotFound : String := "node wasn't found"

/-- The verb `%q` of `fmt.Sprintf` on a string that has no character to escape,
such as a node identifier or the name of an instance: the string between double
quotes. -/
def quoted (s : String) : String := "\"" ++ s ++ "\""

/-- Type of the map `backOffDuration map[string]time.Duration`: instance name to
the duration after which a request for the instance is requeued. -/
abbrev BackOffDurationT := List (String × Int)

/-- Go `delete(m, k)`. -/
def mapDelete {β : Type} : List (String × β) → String → List (String × β)
  | [], _ => []
  | (k, v) :: rest, key => if k = key then mapDelete rest key else (k, v) :: mapDelete rest key

/-- The outcome of `r.client.Get` for the request: the instance, a not-found
error (`apierrors.IsNotFound`), or another error. -/
inductive ClientGetResult where
  | found (inst : CSINodeTopology)
  | notFound
  | failed (cause : String)

/-- The fields of `r.configInfo.Cfg.Labels` read by the reconciler. -/
structure ConfigLabels where
  TopologyCategories : String
  Zone : String
  Region : String
  deriving DecidableEq

/-- The collaborators of `Reconcile`, as oracles: the outcome of `r.client.Get`,
the node manager, the `Labels` section of the configuration, the result of
`getNodeTopologyInfo` for a node VM (the reconciler only branches on whether it
failed; its vCenter, tag manager and Kubernetes client are not part of the
model) and the error, if any, of `r.client.Update` on an instance. -/
structure ReconcileCollaborators where
  clientGet : ClientGetResult
  nodeMgr : NodeManager
  Labels : ConfigLabels
  getNodeTopologyInfo : VirtualMachine → Except String (List TopologyLabel)
  clientUpdate : CSINodeTopology → Option String

/-- What `Reconcile` returns, `reconcile.Result{RequeueAfter}` and the error,
together with the instance it handed to `r.client.Update`, if it did. -/
structure ReconcileResult where
  RequeueAfter : Int
  err : Option String
  updated : Option CSINodeTopology
  deriving DecidableEq

/-- `updateCRStatus`: set the status of the instance; on Success clear the error
message; on Error double the backoff of the instance and set the error message;
then update the instance. Returns the backoff map, the instance as updated and
the error of the update. -/
def updateCRStatus (co : ReconcileCollaborators) (backOffDuration : BackOffDurationT)
    (inst : CSINodeTopology) (status eventMessage : String) :
    BackOffDurationT × CSINodeTopology × Option String :=
  let inst1 : CSINodeTopology := { inst with Status := status }
  if status = CSINodeTopologySuccess then
    let inst2 : CSINodeTopology := { inst1 with ErrorMessage := "" }
    (backOffDuration, inst2, co.clientUpdate inst2)
  else if status = CSINodeTopologyError then
    let backOff1 := mapSet backOffDuration inst.Name
      (wrapInt64 ((mapGet backOffDuration inst.Name).getD 0 * 2))
    let inst2 : CSINodeTopology := { inst1 with ErrorMessage := eventMessage }
    (backOff1, inst2, co.clientUpdate inst2)
  else (backOffDuration, inst1, co.clientUpdate inst1)

/-- The end of `Reconcile` on a failure that is recorded on the instance: call
`updateCRStatus` with the Error status, ignore its error, and requeue after
`timeout`. -/
def recordErrorAndRequeue (co : ReconcileCollaborators) (backOffDuration : BackOffDurationT)
    (inst : CSINodeTopology) (timeout : Int) (msg : String) :
    ReconcileResult × BackOffDurationT :=
  match updateCRStatus co backOffDuration inst CSINodeTopologyError msg with
  | (backOff1, inst1, _) => ({ RequeueAfter := timeout, err := none, updated := some inst1 }, backOff1)

/-- The end of `Reconcile` after the topology labels are known: call
`updateCRStatus` with the Success status; if the update fails requeue after
`timeout`, otherwise delete the instance from `backOffDuration`. -/
def recordSuccess (co : ReconcileCollaborators) (backOffDuration : BackOffDurationT)
    (inst : CSINodeTopology) (timeout : Int) (eventMessage : String) :
    ReconcileResult × BackOffDurationT :=
  match updateCRStatus co backOffDuration inst CSINodeTopologySuccess eventMessage with
  | (backOff1, inst1, some _) =>
    ({ RequeueAfter := timeout, err := none, updated := some inst1 }, backOff1)
  | (backOff1, inst1, none) =>
    ({ RequeueAfter := 0, err := none, updated := some inst1 }, mapDelete backOff1 inst1.Name)

/-- The block of `Reconcile` that initializes `backOffDuration` for the instance,
if required: an instance without an entry gets one second. -/
def initBackOff (backOffDuration : BackOffDurationT) (name : String) : BackOffDurationT :=
  if (mapGet backOffDuration name).isNone then mapSet backOffDuration name timeSecond
  else backOffDuration

/-- `Reconcile`, with the map `backOffDuration` before the call as a parameter.
Returns the result and the map after the call. -/
def Reconcile (co : ReconcileCollaborators) (useNodeUuid : Bool)
    (backOffDuration : BackOffDurationT) : ReconcileResult × BackOffDurationT :=
  match co.clientGet with
  | .notFound => ({ RequeueAfter := 0, err := none, updated := none }, backOffDuration)
  | .failed cause => ({ RequeueAfter := 0, err := some cause, updated := none }, backOffDuration)
  | .found inst =>
    let backOff1 := initBackOff backOffDuration inst.Name
    let timeout := (mapGet backOff1 inst.Name).getD 0
    let nodeID := inst.NodeID
    match (if useNodeUuid then co.nodeMgr.GetNode nodeID else co.nodeMgr.GetNodeByName nodeID) with
    | .error cause =>
      if cause = ErrNodeNotFound then
        ({ RequeueAfter := 0, err := some cause, updated := none }, backOff1)
      else
        recordErrorAndRequeue co backOff1 inst timeout
          ("failed to retrieve nodeVM " ++ quoted nodeID ++
            " using the node manager. Error: " ++ cause)
    | .ok nodeVM =>
      if co.Labels.TopologyCategories = "" ∧ co.Labels.Zone = "" ∧ co.Labels.Region = "" then
        recordSuccess co backOff1 { inst with TopologyLabels := [] } timeout
          "Not a topology aware cluster."
      else if co.Labels.TopologyCategories ≠ "" ∨
          (co.Labels.Zone ≠ "" ∧ co.Labels.Region ≠ "") then
        match co.getNodeTopologyInfo nodeVM with
        | .error cause =>
          recordErrorAndRequeue co backOff1 inst timeout
            ("failed to fetch topology information for the nodeVM " ++ quoted inst.Name ++
              ". Error: " ++ cause)
        | .ok topologyLabels =>
          recordSuccess co backOff1 { inst with TopologyLabels := topologyLabels } timeout
            ("Topology labels successfully updated for nodeVM " ++ quoted inst.Name)
      else
        recordErrorAndRequeue co backOff1 inst timeout
          "missing zone or region information in vSphere CSI config `Labels` section"

/-! ## Concurrent accesses to the preferred-datastore cache -/

/-- The places of the source that read the variable `preferredDatastoresMap`. -/
inductive ReadSite where
  /-- The test `len(preferredDatastoresMap) != 0` in `GetSharedDatastores`. -/
  | sharedLen
  /-- The test `len(preferredDatastoresMap) == 0` in
  `GetPreferredDatastoresInSegments`. -/
  | lookupLen
  /-- The lookup `preferredDatastoresMap[tag]` in
  `GetPreferredDatastoresInSegments`. -/
  | lookupIndex
  deriving DecidableEq

/-- What a goroutine does with the variable `preferredDatastoresMap` and with
`preferredDatastoresMapInstanceLock`, a `sync.RWMutex`, in program order: the
calls `Lock`, `Unlock`, `RLock` and `RUnlock` of the lock, a read of the
variable, on whose value the rest depends, and an assignment to the variable. -/
inductive CacheProg where
  | done
  | lock (k : CacheProg)
  | unlock (k : CacheProg)
  | rlock (k : CacheProg)
  | runlock (k : CacheProg)
  | read (site : ReadSite) (k : PreferredDatastoresMapT → CacheProg)
  | write (m : PreferredDatastoresMapT) (k : CacheProg)

/-- The accesses of `GetPreferredDatastoresInSegments`, followed by `k`: `Lock`
with the deferred `Unlock`, the test of the length, and one lookup per entry of
the segments. -/
def GetPreferredDatastoresInSegmentsAccesses (segments : Segments) (k : CacheProg) : CacheProg :=
  .lock (.read .lookupLen (fun preferredDatastoresMap =>
    if preferredDatastoresMap.length = 0 then .unlock k
    else segments.foldr (fun _ rest => .read .lookupIndex (fun _ => rest)) (.unlock k)))

/-- The accesses of the preferential datastores block of the loop body of
`GetSharedDatastores`, followed by `k`: the test of the length, made when the
feature is enabled, and one call of `GetPreferredDatastoresInSegments` per
element of `completeTopologySegments`. -/
def preferenceAccesses (isTopologyPreferentialDatastoresFSSEnabled : Bool)
    (completeTopologySegments : List Segments) (k : CacheProg) : CacheProg :=
  if isTopologyPreferentialDatastoresFSSEnabled then
    .read .sharedLen (fun preferredDatastoresMap =>
      if preferredDatastoresMap.length ≠ 0 then
        completeTopologySegments.foldr
          (fun topoSegs rest => GetPreferredDatastoresInSegmentsAccesses topoSegs rest) k
      else k)
  else k

/-- The accesses of `GetSharedDatastores`: those of the preferential datastores
block of each iteration of the loop over `topologySegmentsList` that reaches
it. -/
def GetSharedDatastoresAccesses (co : PlacementCollaborators) (storagePolicyID : String)
    (vcenter : VirtualCenter)
    (isCSINodeIdFeatureEnabled isTopologyPreferentialDatastoresFSSEnabled : Bool) :
    List Segments → CacheProg
  | [] => .done
  | segments :: rest =>
    match getTopologySegmentsWithMatchingNodes co.instances segments co.nodeMgr
        isCSINodeIdFeatureEnabled with
    | (_, _, some _) => .done
    | (matchingNodeVMs, completeTopologySegments, none) =>
      if matchingNodeVMs.length = 0 then
        GetSharedDatastoresAccesses co storagePolicyID vcenter isCSINodeIdFeatureEnabled
          isTopologyPreferentialDatastoresFSSEnabled rest
      else
        match co.GetSharedDatastoresForVMs matchingNodeVMs with
        | .error _ => .done
        | .ok sharedDatastoresInTopology =>
          match policyStep vcenter storagePolicyID sharedDatastoresInTopology with
          | .error _ => .done
          | .ok _ =>
            preferenceAccesses isTopologyPreferentialDatastoresFSSEnabled completeTopologySegments
              (GetSharedDatastoresAccesses co storagePolicyID vcenter isCSINodeIdFeatureEnabled
                isTopologyPreferentialDatastoresFSSEnabled rest)

/-- The accesses of `RefreshPreferentialDatastores`: when the scan of the
vCenters runs to completion with a non-empty map, `Lock` with the deferred
`Unlock` and the assignment of the map; none otherwise. -/
def RefreshPreferentialDatastoresAccesses (co : TagCollaborators) : CacheProg :=
  match co.GetConfig with
  | .error _ => .done
  | .ok _ =>
    match co.GetVirtualCenterConfigs with
    | .error _ => .done
    | .ok vcenterconfigs =>
      match scanVCs co vcenterconfigs [] with
      | .returned _ => .done
      | .completed prefDatastoresMap =>
        if prefDatastoresMap.length ≠ 0 then .lock (.write prefDatastoresMap (.unlock .done))
        else .done

/-- A read of `preferredDatastoresMap` as it happened: the goroutine, the place
in the source, whether the goroutine held the lock, the number of `Lock` calls
that had succeeded so far (the critical section the read belongs to when it is
made under `Lock`), and the map it saw. -/
structure CacheObservation where
  thread : Nat
  site : ReadSite
  underLock : Bool
  acquisition : Nat
  value : PreferredDatastoresMapT
  deriving DecidableEq

/-- The goroutines, the variable `preferredDatastoresMap` and the state of
`preferredDatastoresMapInstanceLock`: the goroutine that holds it after `Lock`,
the goroutines that hold it after `RLock`; with the number of `Lock` calls that
succeeded and the reads made so far. -/
structure CacheState where
  cache : PreferredDatastoresMapT
  holder : Option Nat
  readers : List Nat
  acquisitions : Nat
  threads : Nat → CacheProg
  log : List CacheObservation

/-- The read the goroutine `i` makes at `site` in the state `s`. -/
def observe (s : CacheState) (i : Nat) (site : ReadSite) : CacheObservation :=
  { thread := i
    site := site
    underLock := decide (s.holder = some i ∨ i ∈ s.readers)
    acquisition := s.acquisitions
    value := s.cache }

/-- One step of the goroutine `i`, or `none` when it has returned or waits for the
lock: `Lock` succeeds when nobody holds the lock, `RLock` when nobody holds it
after `Lock`. -/
def cacheStep (s : CacheState) (i : Nat) : Option CacheState :=
  match s.threads i with
  | .done => none
  | .lock k =>
    if s.holder = none ∧ s.readers = [] then
      some { s with holder := some i, acquisitions := s.acquisitions + 1,
                    threads := Function.update s.threads i k }
    else none
  | .unlock k =>
    if s.holder = some i then
      some { s with holder := none, threads := Function.update s.threads i k }
    else none
  | .rlock k =>
    if s.holder = none then
      some { s with readers := i :: s.readers, threads := Function.update s.threads i k }
    else none
  | .runlock k =>
    if i ∈ s.readers then
      some { s with readers := s.readers.erase i, threads := Function.update s.threads i k }
    else none
  | .read site k =>
    some { s with threads := Function.update s.threads i (k s.cache),
                  log := s.log ++ [observe s i site] }
  | .write m k =>
    some { s with cache := m, threads := Function.update s.threads i k }

/-- An interleaving: the scheduler picks the goroutines of the list in turn; a
goroutine picked while it waits, or after it returned, does nothing. -/
def runSchedule : List Nat → CacheState → CacheState
  | [], s => s
  | i :: rest, s => runSchedule rest ((cacheStep s i).getD s)

/-- The state before any goroutine ran. -/
def initialCacheState (preferredDatastoresMap : PreferredDatastoresMapT)
    (threads : Nat → CacheProg) : CacheState :=
  { cache := preferredDatastoresMap, holder := none, readers := [], acquisitions := 0,
    threads := threads, log := [] }

/-! ## Specification-side predicates -/

/-- The vCenter `vc` appears under every label value of the segments: `vc` is in
the set stored under each label (a label that is not a key of the mapping has
no vCenter under it). -/
def OwnsAll (tvm : TopologyVCMapT) (segments : Segments) (vc : String) : Prop :=
  ∀ p ∈ segments, vc ∈ (mapGet tvm p.2).getD []

instance (tvm : TopologyVCMapT) (segments : Segments) (vc : String) :
    Decidable (OwnsAll tvm segments vc) := by
  unfold OwnsAll; infer_instance

/-- Go `vcCountMap[vc]` on a `map[string]int`: `0` when `vc` is absent. -/
def vcCount (vcCountMap : List (String × Nat)) (vc : String) : Nat :=
  (mapGet vcCountMap vc).getD 0

/-- Number of entries of the segments whose label has `vc` in its set. -/
def hits (tvm : TopologyVCMapT) (segments : Segments) (vc : String) : Nat :=
  segments.countP (fun p => decide (vc ∈ (mapGet tvm p.2).getD []))

/-- The value a label list gives to `key`: that of its last label with this
key, if there is one. -/
def lastValue : List TopologyLabel → String → Option String
  | [], _ => none
  | topoLabel :: rest, key =>
    match lastValue rest key with
    | some v => some v
    | none => if topoLabel.Key = key then some topoLabel.Value else none

/-- A record satisfies the requested segments: for every requested
`(key, value)`, the value its label list gives to `key`, the empty string when
it has no label with this key, is `value`. -/
def SatisfiesRequest (requestedSegments : Segments) (inst : CSINodeTopology) : Prop :=
  ∀ p ∈ requestedSegments, (lastValue inst.TopologyLabels p.1).getD "" = p.2

instance (requestedSegments : Segments) (inst : CSINodeTopology) :
    Decidable (SatisfiesRequest requestedSegments inst) := by
  unfold SatisfiesRequest; infer_instance

/-- Keep of each datastore URL the first entry only, skipping the URLs already
`seen`. -/
def dedupByUrlAux (seen : List String) : List DatastoreInfo → List DatastoreInfo
  | [] => []
  | ds :: rest =>
    if ds.Url ∈ seen then dedupByUrlAux seen rest
    else ds :: dedupByUrlAux (seen ++ [ds.Url]) rest

/-- A list of datastores deduplicated by URL, first-seen entry kept. -/
def dedupByUrl (dss : List DatastoreInfo) : List DatastoreInfo := dedupByUrlAux [] dss

/-- The candidate datastores one set of topology segments contributes: none
when no node matches, otherwise the datastores shared by the matching nodes
after the storage policy and preference filters; or the error the set fails
with. -/
def candidatesOf (co : PlacementCollaborators) (preferredDatastoresMap : PreferredDatastoresMapT)
    (storagePolicyID : String) (vcenter : VirtualCenter)
    (isCSINodeIdFeatureEnabled isTopologyPreferentialDatastoresFSSEnabled : Bool)
    (segments : Segments) : Except PlacementError (List DatastoreInfo) :=
  match getTopologySegmentsWithMatchingNodes co.instances segments co.nodeMgr
      isCSINodeIdFeatureEnabled with
  | (_, _, some err) => .error err
  | ([], _, none) => .ok []
  | (vm :: vms, completeTopologySegments, none) =>
    match co.GetSharedDatastoresForVMs (vm :: vms) with
    | .error cause => .error (.sharedDatastoresForVMs cause)
    | .ok accessible =>
      match policyStep vcenter storagePolicyID accessible with
      | .error e => .error e
      | .ok compatible =>
        .ok (preferenceStep isTopologyPreferentialDatastoresFSSEnabled preferredDatastoresMap
          completeTopologySegments compatible)

/-- The candidates of a list of sets of topology segments, in order; or the
error of the first set that fails. -/
def allCandidates (co : PlacementCollaborators) (preferredDatastoresMap : PreferredDatastoresMapT)
    (storagePolicyID : String) (vcenter : VirtualCenter)
    (isCSINodeIdFeatureEnabled isTopologyPreferentialDatastoresFSSEnabled : Bool) :
    List Segments → Except PlacementError (List DatastoreInfo)
  | [] => .ok []
  | segments :: rest =>
    match candidatesOf co preferredDatastoresMap storagePolicyID vcenter
        isCSINodeIdFeatureEnabled isTopologyPreferentialDatastoresFSSEnabled segments with
    | .error e => .error e
    | .ok cands =>
      match allCandidates co preferredDatastoresMap storagePolicyID vcenter
          isCSINodeIdFeatureEnabled isTopologyPreferentialDatastoresFSSEnabled rest with
      | .error e => .error e
      | .ok more => .ok (cands ++ more)

/-- The set of topology segments matches no node: the matcher succeeds with an
empty node list. -/
def ZeroMatch (co : PlacementCollaborators) (isCSINodeIdFeatureEnabled : Bool)
    (segments : Segments) : Prop :=
  (getTopologySegmentsWithMatchingNodes co.instances segments co.nodeMgr
      isCSINodeIdFeatureEnabled).1 = [] ∧
    (getTopologySegmentsWithMatchingNodes co.instances segments co.nodeMgr
      isCSINodeIdFeatureEnabled).2.2 = none

instance (co : PlacementCollaborators) (isCSINodeIdFeatureEnabled : Bool) (segments : Segments) :
    Decidable (ZeroMatch co isCSINodeIdFeatureEnabled segments) := by
  unfold ZeroMatch; infer_instance

/-- The URL `url` is preferred for the complete topology segments: it is cached
under some label value of some of the segments. -/
def PreferredIn (preferredDatastoresMap : PreferredDatastoresMapT)
    (completeTopologySegments : List Segments) (url : String) : Prop :=
  ∃ topoSegs ∈ completeTopologySegments, ∃ p ∈ topoSegs,
    url ∈ (mapGet preferredDatastoresMap p.2).getD []

instance (preferredDatastoresMap : PreferredDatastoresMapT)
    (completeTopologySegments : List Segments) (url : String) :
    Decidable (PreferredIn preferredDatastoresMap completeTopologySegments url) := by
  unfold PreferredIn; infer_instance

/-- The vCenter `host` has nothing to contribute to a refresh: listing the tags
of the preferred-datastore category fails, or finds no tag, or the objects
carrying the tags are found and none of them is a datastore. -/
def NothingPreferredOn (co : TagCollaborators) (host : String) : Prop :=
  (∃ cause, co.ListTagsForCategory host = .error cause) ∨
    co.ListTagsForCategory host = .ok [] ∨
    ∃ tagIds attachedObjs, co.ListTagsForCategory host = .ok tagIds ∧
      co.GetAttachedObjectsOnTags host tagIds = .ok attachedObjs ∧
      ∀ attachedObj ∈ attachedObjs, ∀ obj ∈ attachedObj.ObjectIDs, obj.RefType ≠ "Datastore"

/-- The topology keys of the vSphere CSI driver entry of a CSINode: those of its
first driver named `csitypes.Name`, none when it has no such driver. -/
def driverTopologyKeys (csiNode : CSINode) : List String :=
  match csiNode.Drivers.find? (fun driver => driver.Name == csitypesName) with
  | some driver => driver.TopologyKeys
  | none => []

/-- A standard GA topology key occurs among the keys. -/
def HasGAKey (keys : List String) : Prop :=
  LabelTopologyZone ∈ keys ∨ LabelTopologyRegion ∈ keys

/-- A standard beta topology key occurs among the keys. -/
def HasBetaKey (keys : List String) : Prop :=
  LabelFailureDomainBetaZone ∈ keys ∨ LabelFailureDomainBetaRegion ∈ keys

instance (keys : List String) : Decidable (HasGAKey keys) := by
  unfold HasGAKey; infer_instance

instance (keys : List String) : Decidable (HasBetaKey keys) := by
  unfold HasBetaKey; infer_instance

/-- The topology keys of the vSphere CSI driver entries of all CSINodes. -/
def allTopologyKeys (csiNodeList : List CSINode) : List String :=
  (csiNodeList.map driverTopologyKeys).flatten

/-- A run of consecutive reconciles, one per element of the list (the controller
runs one reconcile at a time): the results in order and the map
`backOffDuration` after the last one. -/
def reconcileRun (useNodeUuid : Bool) :
    List ReconcileCollaborators → BackOffDurationT → List ReconcileResult × BackOffDurationT
  | [], backOffDuration => ([], backOffDuration)
  | co :: rest, backOffDuration =>
    ((Reconcile co useNodeUuid backOffDuration).1 ::
        (reconcileRun useNodeUuid rest (Reconcile co useNodeUuid backOffDuration).2).1,
      (reconcileRun useNodeUuid rest (Reconcile co useNodeUuid backOffDuration).2).2)

/-- The reconcile ended by recording the Error status on the instance `name`. -/
def RecordsError (r : ReconcileResult) (name : String) : Prop :=
  ∃ inst, r.updated = some inst ∧ inst.Name = name ∧ inst.Status = CSINodeTopologyError

instance (r : ReconcileResult) (name : String) : Decidable (RecordsError r name) :=
  match h : r.updated with
  | none => isFalse (fun ⟨_, h1, _⟩ => by rw [h] at h1; exact Option.noConfusion h1)
  | some inst =>
    if h2 : inst.Name = name ∧ inst.Status = CSINodeTopologyError then
      isTrue ⟨inst, h, h2.1, h2.2⟩
    else
      isFalse (fun ⟨i, h1, h3, h4⟩ => by
        rw [h] at h1
        cases h1
        exact h2 ⟨h3, h4⟩)

/-- The reconcile ended successfully for the instance `name`: it recorded the
Success status on the instance and the update of the instance went through. -/
def EndsSuccessfully (co : ReconcileCollaborators) (r : ReconcileResult) (name : String) :
    Prop :=
  ∃ inst, r.updated = some inst ∧ inst.Name = name ∧ inst.Status = CSINodeTopologySuccess ∧
    co.clientUpdate inst = none

/-- The duration `d` after `k` doublings in `int64` arithmetic. -/
def doubledBackOff (d : Int) : Nat → Int
  | 0 => d
  | k + 1 => doubledBackOff (wrapInt64 (d * 2)) k

/-- The accesses of a lookup as the specification words it, under a shared lock:
`RLock` and `RUnlock` in the place of `Lock` and `Unlock`. -/
def sharedModeLookupAccesses (segments : Segments) (k : CacheProg) : CacheProg :=
  .rlock (.read .lookupLen (fun preferredDatastoresMap =>
    if preferredDatastoresMap.length = 0 then .runlock k
    else segments.foldr (fun _ rest => .read .lookupIndex (fun _ => rest)) (.runlock k)))

/-- A call that runs next to the refresh: of `GetPreferredDatastoresInSegments`
or of `GetSharedDatastores`. -/
inductive CacheCall where
  | lookup (segments : Segments)
  | shared (co : PlacementCollaborators) (topologySegmentsList : List Segments)
      (storagePolicyID : String) (vcenter : VirtualCenter)
      (isCSINodeIdFeatureEnabled isTopologyPreferentialDatastoresFSSEnabled : Bool)

/-- The accesses of a call. -/
def CacheCall.accesses : CacheCall → CacheProg
  | .lookup segments => GetPreferredDatastoresInSegmentsAccesses segments .done
  | .shared co topologySegmentsList storagePolicyID vcenter f1 f2 =>
    GetSharedDatastoresAccesses co storagePolicyID vcenter f1 f2 topologySegmentsList

/-- One refresh, goroutine `0`, next to the calls of the list, goroutines `1`,
`2` and so on. -/
def refreshWithCalls (co : TagCollaborators) (calls : List CacheCall) : Nat → CacheProg
  | 0 => RefreshPreferentialDatastoresAccesses co
  | i + 1 => ((calls.get? i).map CacheCall.accesses).getD .done

/-- Where a goroutine stands with respect to the lock: it does not hold it; it
holds it after `Lock` and has not read the variable since; it holds it after
`Lock` and has read the variable since. -/
inductive LockMode where
  | out
  | fresh
  | observed
  deriving DecidableEq

/-- The locking discipline of a goroutine that may assign `new` only: `Lock` and
`Unlock` alternate, never `RLock`; outside the lock it reads the variable only at
the test of `GetSharedDatastores`; it assigns only under the lock and before any
read it makes there. -/
inductive Disciplined (new : PreferredDatastoresMapT) : LockMode → CacheProg → Prop where
  | done : Disciplined new .out .done
  | lock {k : CacheProg} : Disciplined new .fresh k → Disciplined new .out (.lock k)
  | unlockFresh {k : CacheProg} : Disciplined new .out k → Disciplined new .fresh (.unlock k)
  | unlockObserved {k : CacheProg} :
      Disciplined new .out k → Disciplined new .observed (.unlock k)
  | readOut {k : PreferredDatastoresMapT → CacheProg} :
      (∀ m, Disciplined new .out (k m)) → Disciplined new .out (.read .sharedLen k)
  | readFresh {site : ReadSite} {k : PreferredDatastoresMapT → CacheProg} :
      (∀ m, Disciplined new .observed (k m)) → Disciplined new .fresh (.read site k)
  | readObserved {site : ReadSite} {k : PreferredDatastoresMapT → CacheProg} :
      (∀ m, Disciplined new .observed (k m)) → Disciplined new .observed (.read site k)
  | write {k : CacheProg} : Disciplined new .fresh k → Disciplined new .fresh (.write new k)

/-- Some read was made under the lock since the last `Lock`. -/
def sectionObserved (s : CacheState) : Prop :=
  ∃ o ∈ s.log, o.underLock = true ∧ o.acquisition = s.acquisitions

instance (s : CacheState) : Decidable (sectionObserved s) := by
  unfold sectionObserved; infer_instance

/-- Where the goroutine `i` stands with respect to the lock in the state `s`. -/
def modeOf (s : CacheState) (i : Nat) : LockMode :=
  if s.holder = some i then (if sectionObserved s then .observed else .fresh) else .out

/-- What holds in every state of an interleaving of disciplined goroutines that
started with the map `old`. -/
structure CacheInv (old new : PreferredDatastoresMapT) (s : CacheState) : Prop where
  cache : s.cache = old ∨ s.cache = new
  readers : s.readers = []
  values : ∀ o ∈ s.log, o.value = old ∨ o.value = new
  bound : ∀ o ∈ s.log, o.acquisition ≤ s.acquisitions
  current : s.holder.isSome = true → ∀ o ∈ s.log, o.underLock = true →
    o.acquisition = s.acquisitions → o.value = s.cache
  agree : ∀ o ∈ s.log, ∀ o2 ∈ s.log, o.underLock = true → o2.underLock = true →
    o.acquisition = o2.acquisition → o.value = o2.value
  sites : ∀ o ∈ s.log, o.site ≠ .sharedLen → o.underLock = true
  progs : ∀ i, Disciplined new (modeOf s i) (s.threads i)

/-! ## Example data -/

/-- A node manager that finds every node: by UUID on vCenter `vc-a`; by name on
vCenter `vc-a` too, except `node-1`, whose handle has an empty
`VirtualCenterHost`. -/
def exampleNodeMgr : NodeManager where
  GetNode := fun nodeUUID => .ok { UUID := nodeUUID, VirtualCenterHost := "vc-a" }
  GetNodeByName := fun nodeName =>
    .ok { UUID := nodeName, VirtualCenterHost := if nodeName = "node-1" then "" else "vc-a" }

/-- A ready record of `node-1` labelled `zone = z1`. -/
def recordNode1 : CSINodeTopology :=
  { Name := "node-1", NodeID := "node-1", NodeUUID := "uuid-1", Status := "Success",
    ErrorMessage := "", TopologyLabels := [⟨"zone", "z1"⟩] }

/-- A ready record of `node-2` labelled `region = r1`, `zone = z1`. -/
def recordNode2 : CSINodeTopology :=
  { Name := "node-2", NodeID := "node-2", NodeUUID := "uuid-2", Status := "Success",
    ErrorMessage := "", TopologyLabels := [⟨"region", "r1"⟩, ⟨"zone", "z1"⟩] }

/-- A record of `node-3` labelled `zone = z2` whose status is still empty
(topology not yet resolved). -/
def recordNode3 : CSINodeTopology :=
  { Name := "node-3", NodeID := "node-3", NodeUUID := "uuid-3", Status := "",
    ErrorMessage := "", TopologyLabels := [⟨"zone", "z2"⟩] }

/-- Datastore `A`, at URL `ds:///a`. -/
def dsA : DatastoreInfo :=
  { Reference := { RefType := "Datastore", Value := "datastore-1" }, Url := "ds:///a", Name := "A" }

/-- Datastore `B`, at URL `ds:///b`. -/
def dsB : DatastoreInfo :=
  { Reference := { RefType := "Datastore", Value := "datastore-2" }, Url := "ds:///b", Name := "B" }

/-- A second entry for the URL `ds:///a`, with its own reference and name. -/
def dsACopy : DatastoreInfo :=
  { Reference := { RefType := "Datastore", Value := "datastore-9" }, Url := "ds:///a",
    Name := "A-copy" }

/-- Collaborators over the ready records of `node-1` and `node-2`: two nodes
share the datastores `A` and `B`; a single node sees the second entry of
`ds:///a`, then `B`; the lookup fails for more than two nodes. -/
def exampleCollaborators : PlacementCollaborators where
  instances := [some recordNode1, some recordNode2]
  nodeMgr := exampleNodeMgr
  GetSharedDatastoresForVMs := fun vms =>
    if vms.length = 2 then .ok [dsA, dsB]
    else if vms.length = 1 then .ok [dsACopy, dsB]
    else .error "no shared datastores"

/-- A vCenter whose policy oracle reports `datastore-1` compatible with
`policy-A`, nothing compatible with `policy-B`, and fails on any other policy. -/
def exampleVC : VirtualCenter where
  PbmCheckCompatibility := fun _ storagePolicyID =>
    if storagePolicyID = "policy-A" then .ok ["datastore-1"]
    else if storagePolicyID = "policy-B" then .ok []
    else .error "unknown policy"

/-- The collaborators of `exampleCollaborators`, except that the
accessible-storage oracle fails unless it is asked about two nodes. -/
def exampleCollaboratorsFailing : PlacementCollaborators where
  instances := [some recordNode1, some recordNode2]
  nodeMgr := exampleNodeMgr
  GetSharedDatastoresForVMs := fun vms =>
    if vms.length = 2 then .ok [dsA, dsB] else .error "no shared datastores"

/-- Tag collaborators over the configured vCenters `vc1` and `vc2`: on `vc1` the
tag `tag-1`, named `z1`, is carried by the datastore `datastore-1` at URL
`ds:///a` and by a folder; `vc2` has no tag of the category; a vCenter `vc3`
is not registered. -/
def exampleTagCollaborators : TagCollaborators where
  GetConfig := .ok ()
  GetVirtualCenterConfigs := .ok ["vc1", "vc2"]
  GetVCenterFromVCHost := fun host =>
    if host = "vc3" then .error "vCenter not registered" else .ok ()
  GetTagManager := fun _ => .ok ()
  ListTagsForCategory := fun host => if host = "vc1" then .ok ["tag-1"] else .ok []
  GetAttachedObjectsOnTags := fun _ _ =>
    .ok [{ TagName := "z1",
           ObjectIDs := [{ RefType := "Datastore", Value := "datastore-1" },
                         { RefType := "Folder", Value := "group-1" }] }]
  DatastoreUrl := fun _ _ => .ok "ds:///a"

/-- Reconcile collaborators for the instance of `node-1` in a cluster configured
with zone and region categories, whose node manager fails with an error other
than `ErrNodeNotFound`. -/
def exampleReconcileFailing : ReconcileCollaborators where
  clientGet := .found recordNode1
  nodeMgr := { GetNode := fun _ => .error "connection refused",
               GetNodeByName := fun _ => .error "connection refused" }
  Labels := { TopologyCategories := "", Zone := "k8s-zone", Region := "k8s-region" }
  getNodeTopologyInfo := fun _ => .ok [⟨"topology.csi.vmware.com/k8s-zone", "z1"⟩]
  clientUpdate := fun _ => none

/-- The collaborators of `exampleReconcileFailing` with a node manager in which
no node is registered yet. -/
def exampleReconcileUnregistered : ReconcileCollaborators :=
  { exampleReconcileFailing with
    nodeMgr := { GetNode := fun _ => .error ErrNodeNotFound,
                 GetNodeByName := fun _ => .error ErrNodeNotFound } }

/-- The collaborators of `exampleReconcileFailing` with a node manager that
finds every node. -/
def exampleReconcileOk : ReconcileCollaborators :=
  { exampleReconcileFailing with nodeMgr := exampleNodeMgr }

/-- The collaborators of `exampleReconcileOk` with a client whose updates of the
instance fail. -/
def exampleReconcileWriteFails : ReconcileCollaborators :=
  { exampleReconcileOk with clientUpdate := fun _ => some "conflict" }

/-- The tag collaborators of `exampleTagCollaborators` with `vc1` as the only
configured vCenter: the scan builds `z1 -> ds:///a`. -/
def exampleTagCollaboratorsVC1 : TagCollaborators :=
  { exampleTagCollaborators with GetVirtualCenterConfigs := .ok ["vc1"] }

/-- A cache in which `ds:///b` is preferred in `z1`. -/
def exampleCache : PreferredDatastoresMapT := [("z1", ["ds:///b"])]

/-- One refresh next to two calls of `GetPreferredDatastoresInSegments`. -/
def exampleTwoLookups : Nat → CacheProg :=
  refreshWithCalls exampleTagCollaboratorsVC1
    [.lookup [("zone", "z1")], .lookup [("zone", "z2")]]

/-- Two lookups under a shared lock, as goroutines `1` and `2`. -/
def exampleTwoSharedModeLookups : Nat → CacheProg := fun i =>
  if i = 1 then sharedModeLookupAccesses [("zone", "z1")] .done
  else if i = 2 then sharedModeLookupAccesses [("zone", "z2")] .done
  else .done

/-- One refresh next to one call of `GetSharedDatastores` for `zone = z1` with
the preferential datastores feature enabled; the nodes `node-1` and `node-2`
match, with the complete segments `zone = z1` and `region = r1, zone = z1`. -/
def exampleRefreshAndShared : Nat → CacheProg :=
  refreshWithCalls exampleTagCollaboratorsVC1
    [.shared exampleCollaborators [[("zone", "z1")]] "" exampleVC true true]

/-! ## Lemmas on the vCenter count map -/

theorem mapGet_mem {β : Type} (m : List (String × β)) (k : String) (v : β)
    (h : mapGet m k = some v) : (k, v) ∈ m := by
  induction m with
  | nil => simp [mapGet] at h
  | cons p rest ih =>
    obtain ⟨a, b⟩ := p
    by_cases hk : a = k
    · simp [mapGet, hk] at h
      simp [hk, h]
    · simp [mapGet, hk] at h
      exact List.mem_cons_of_mem _ (ih h)

theorem mapGet_of_mem {β : Type} (m : List (String × β)) (k : String) (v : β)
    (hnd : (mapKeys m).Nodup) (h : (k, v) ∈ m) : mapGet m k = some v := by
  induction m with
  | nil => simp at h
  | cons p rest ih =>
    obtain ⟨a, b⟩ := p
    simp only [mapKeys, List.map_cons, List.nodup_cons] at hnd
    rcases List.mem_cons.mp h with h1 | h1
    · cases h1; simp [mapGet]
    · have hne : a ≠ k := by
        intro e; subst e
        exact hnd.1 (List.mem_map.mpr ⟨(a, v), h1, rfl⟩)
      simp [mapGet, hne]
      exact ih hnd.2 h1

theorem vcCount_incrCount (m : List (String × Nat)) (vc w : String) :
    vcCount (incrCount m vc) w = vcCount m w + if w = vc then 1 else 0 := by
  induction m with
  | nil =>
    by_cases h : w = vc
    · simp [incrCount, vcCount, mapGet, h]
    · have h' : ¬ vc = w := fun e => h e.symm
      simp [incrCount, vcCount, mapGet, h, h']
  | cons p rest ih =>
    obtain ⟨k, c⟩ := p
    by_cases hk : k = vc
    · subst hk
      by_cases hw : w = k
      · subst hw; simp [incrCount, vcCount, mapGet]
      · have hw' : ¬ k = w := fun e => hw e.symm
        simp [incrCount, vcCount, mapGet, hw, hw']
    · by_cases hw : k = w
      · subst hw
        simp [incrCount, vcCount, mapGet, hk]
      · simp only [incrCount, hk, if_false, vcCount, mapGet, hw]
        exact ih

theorem mapKeys_incrCount (m : List (String × Nat)) (vc : String) :
    mapKeys (incrCount m vc) = if vc ∈ mapKeys m then mapKeys m else mapKeys m ++ [vc] := by
  induction m with
  | nil => simp [incrCount, mapKeys]
  | cons p rest ih =>
    obtain ⟨k, c⟩ := p
    by_cases hk : k = vc
    · subst hk; simp [incrCount, mapKeys]
    · have hk' : ¬ vc = k := fun e => hk e.symm
      simp only [mapKeys] at ih
      simp only [incrCount, hk, if_false, mapKeys, List.map_cons, List.mem_cons, hk', false_or, ih]
      split <;> simp

theorem nodup_incrCount (m : List (String × Nat)) (vc : String) (h : (mapKeys m).Nodup) :
    (mapKeys (incrCount m vc)).Nodup := by
  rw [mapKeys_incrCount]
  split
  · exact h
  · rename_i hn
    exact List.Nodup.append h (List.nodup_singleton _) (by simpa using hn)



theorem vcCount_foldl (vcs : List String) (m : List (String × Nat)) (w : String) :
    vcCount (vcs.foldl incrCount m) w = vcCount m w + vcs.count w := by
  induction vcs generalizing m with
  | nil => simp
  | cons a rest ih =>
    rw [List.foldl_cons, ih, vcCount_incrCount, List.count_cons]
    by_cases h : w = a
    · subst h; simp; omega
    · have h' : ¬ a = w := fun e => h e.symm
      simp [h, h']

theorem nodup_foldl (vcs : List String) (m : List (String × Nat)) (h : (mapKeys m).Nodup) :
    (mapKeys (vcs.foldl incrCount m)).Nodup := by
  induction vcs generalizing m with
  | nil => simpa using h
  | cons a rest ih => exact ih _ (nodup_incrCount m a h)

theorem countVCs_ok (tvm : TopologyVCMapT) (hwf : tvm.WF) (segs : Segments)
    (acc m : List (String × Nat)) (h : countVCs tvm segs acc = .ok m) :
    ((mapKeys acc).Nodup → (mapKeys m).Nodup) ∧
      (∀ w, vcCount m w = vcCount acc w + hits tvm segs w) ∧
      (acc = [] → segs = [] → m = []) := by
  induction segs generalizing acc with
  | nil =>
    simp only [countVCs, Except.ok.injEq] at h
    subst h
    simp [hits]
  | cons p rest ih =>
    obtain ⟨k, label⟩ := p
    simp only [countVCs] at h
    cases hg : mapGet tvm label with
    | none => simp [hg] at h
    | some vcList =>
      simp only [hg] at h
      obtain ⟨h1, h2, _⟩ := ih _ h
      refine ⟨fun hn => h1 (nodup_foldl _ _ hn), fun w => ?_, by simp⟩
      have hnd : vcList.Nodup := hwf _ (mapGet_mem _ _ _ hg)
      rw [h2, vcCount_foldl, hits, hits, List.countP_cons]
      simp only [hg, Option.getD_some]
      by_cases hw : w ∈ vcList
      · rw [List.count_eq_one_of_mem hnd hw]; simp [hw]; omega
      · rw [List.count_eq_zero_of_not_mem hw]; simp [hw]

theorem countVCs_isOk (tvm : TopologyVCMapT) (segs : Segments) (acc : List (String × Nat))
    (h : ∀ p ∈ segs, mapGet tvm p.2 ≠ none) : ∃ m, countVCs tvm segs acc = .ok m := by
  induction segs generalizing acc with
  | nil => exact ⟨acc, rfl⟩
  | cons p rest ih =>
    obtain ⟨k, label⟩ := p
    simp only [countVCs]
    cases hg : mapGet tvm label with
    | none => exact absurd hg (h (k, label) (List.mem_cons_self _ _))
    | some vcList =>
      exact ih _ (fun q hq => h q (List.mem_cons_of_mem _ hq))

theorem mem_commonVCs (m : List (String × Nat)) (hnd : (mapKeys m).Nodup) (n : Nat) (w : String) :
    w ∈ commonVCs m n ↔ mapGet m w = some n := by
  simp only [commonVCs, List.mem_map, List.mem_filter, beq_iff_eq]
  constructor
  · rintro ⟨⟨a, c⟩, ⟨hm, hc⟩, ha⟩
    simp only at hc ha
    subst hc; subst ha
    exact mapGet_of_mem _ _ _ hnd hm
  · intro h
    exact ⟨(w, n), ⟨mapGet_mem _ _ _ h, rfl⟩, rfl⟩

theorem nodup_commonVCs (m : List (String × Nat)) (hnd : (mapKeys m).Nodup) (n : Nat) :
    (commonVCs m n).Nodup := by
  unfold commonVCs
  exact List.Nodup.sublist (List.Sublist.map _ (List.filter_sublist _)) hnd

theorem ownsAll_iff_hits (tvm : TopologyVCMapT) (segs : Segments) (w : String) :
    OwnsAll tvm segs w ↔ hits tvm segs w = segs.length := by
  unfold OwnsAll hits
  rw [List.countP_eq_length]
  simp

/-- After a successful first loop on a non-empty segment map, the common list
holds exactly the vCenters that appear under every label. -/
theorem mem_commonVCs_iff_ownsAll (tvm : TopologyVCMapT) (hwf : tvm.WF) (segs : Segments)
    (hne : segs ≠ []) (m : List (String × Nat)) (h : countVCs tvm segs [] = .ok m) (w : String) :
    w ∈ commonVCs m segs.length ↔ OwnsAll tvm segs w := by
  obtain ⟨h1, h2, _⟩ := countVCs_ok tvm hwf segs [] m h
  have hnd : (mapKeys m).Nodup := h1 (by simp [mapKeys])
  rw [mem_commonVCs m hnd, ownsAll_iff_hits]
  have hc := h2 w
  simp only [vcCount, mapGet, Option.getD_none, Nat.zero_add] at hc
  have hpos : 0 < segs.length := List.length_pos.mpr hne
  constructor
  · intro hs; rw [hs] at hc; simpa using hc.symm
  · intro hh
    rw [hh] at hc
    cases hg : mapGet m w with
    | none => rw [hg] at hc; simp at hc; omega
    | some c => rw [hg] at hc; simp at hc; rw [hc]

theorem ownsAll_labels (tvm : TopologyVCMapT) (segs : Segments) (w : String)
    (h : OwnsAll tvm segs w) : ∀ p ∈ segs, mapGet tvm p.2 ≠ none := by
  intro p hp hn
  have := h p hp
  simp [hn] at this

theorem countVCs_labelNotFound (tvm : TopologyVCMapT) (segs : Segments)
    (acc : List (String × Nat)) (h : ∃ p ∈ segs, mapGet tvm p.2 = none) :
    ∃ p ∈ segs, mapGet tvm p.2 = none ∧
      countVCs tvm segs acc = .error (.labelNotFound p.1 p.2) := by
  induction segs generalizing acc with
  | nil => simp at h
  | cons p rest ih =>
    obtain ⟨k, label⟩ := p
    cases hg : mapGet tvm label with
    | none => exact ⟨(k, label), List.mem_cons_self _ _, hg, by simp [countVCs, hg]⟩
    | some vcList =>
      obtain ⟨q, hq, hn⟩ := h
      rcases List.mem_cons.mp hq with e | hq'
      · subst e; simp [hg] at hn
      · obtain ⟨r, hr, hrn, hre⟩ := ih (vcList.foldl incrCount acc) ⟨q, hq', hn⟩
        exact ⟨r, List.mem_cons_of_mem _ hr, hrn, by simp [countVCs, hg, hre]⟩

/-- Every return of `getVCForTopologySegments` is either a vCenter with a nil
error or the empty string with an error. -/
theorem getVC_cases (tvm : TopologyVCMapT) (segs : Segments) :
    (∃ v, getVCForTopologySegments tvm segs = (v, none)) ∨
      (∃ e, getVCForTopologySegments tvm segs = ("", some e)) := by
  unfold getVCForTopologySegments
  cases countVCs tvm segs [] with
  | error e => exact Or.inr ⟨e, rfl⟩
  | ok m =>
    simp only
    rcases commonVCs m segs.length with _ | ⟨a, _ | ⟨b, l⟩⟩
    · exact Or.inr ⟨_, rfl⟩
    · exact Or.inl ⟨a, rfl⟩
    · exact Or.inr ⟨_, rfl⟩

/-- The successful returns of `getVCForTopologySegments`: the segment map is not
empty and the returned vCenter is the only one under all of its labels. -/
theorem getVC_ok_iff (tvm : TopologyVCMapT) (hwf : tvm.WF) (segs : Segments) (v : String) :
    getVCForTopologySegments tvm segs = (v, none) ↔
      segs ≠ [] ∧ OwnsAll tvm segs v ∧ ∀ w, OwnsAll tvm segs w → w = v := by
  constructor
  · intro h
    unfold getVCForTopologySegments at h
    cases hc : countVCs tvm segs [] with
    | error e => simp [hc] at h
    | ok m =>
      simp only [hc] at h
      have hne : segs ≠ [] := by
        intro he
        have hm : m = [] := (countVCs_ok tvm hwf segs [] m hc).2.2 rfl he
        subst hm
        simp [commonVCs] at h
      have hmem := mem_commonVCs_iff_ownsAll tvm hwf segs hne m hc
      rcases hl : commonVCs m segs.length with _ | ⟨a, _ | ⟨b, l⟩⟩
      · simp [hl] at h
      · simp only [hl, Prod.mk.injEq, and_true] at h
        subst h
        refine ⟨hne, (hmem a).mp (by simp [hl]), fun w hw => ?_⟩
        have := (hmem w).mpr hw
        simpa [hl] using this
      · simp [hl] at h
  · rintro ⟨hne, hv, huniq⟩
    obtain ⟨m, hc⟩ := countVCs_isOk tvm segs [] (ownsAll_labels tvm segs v hv)
    have hmem := mem_commonVCs_iff_ownsAll tvm hwf segs hne m hc
    have hnd : (commonVCs m segs.length).Nodup :=
      nodup_commonVCs m ((countVCs_ok tvm hwf segs [] m hc).1 (by simp [mapKeys])) _
    unfold getVCForTopologySegments
    simp only [hc]
    rcases hl : commonVCs m segs.length with _ | ⟨a, _ | ⟨b, l⟩⟩
    · have := (hmem v).mpr hv
      simp [hl] at this
    · have ha : a = v := huniq a ((hmem a).mp (by simp [hl]))
      simp [ha]
    · exfalso
      have ha : a = v := huniq a ((hmem a).mp (by simp [hl]))
      have hb : b = v := huniq b ((hmem b).mp (by simp [hl]))
      rw [hl, ha, hb] at hnd
      simp at hnd

/-! ## Theorems on `getVCForTopologySegments` -/

/-- C1: for a well-formed `TopologyVCMap` and any segment map, if exactly one
vCenter appears under every label value of the segments then
`getVCForTopologySegments` returns that vCenter with a nil error; and whenever
it returns a vCenter `v` with a nil error, `v` appears under every label of the
segments and no other vCenter does. -/
theorem getVCForTopologySegments_unique_owner (tvm : TopologyVCMapT) (segs : Segments)
    (hwf : tvm.WF) :
    (∀ v, OwnsAll tvm segs v → (∀ w, OwnsAll tvm segs w → w = v) →
        getVCForTopologySegments tvm segs = (v, none)) ∧
      (∀ v, getVCForTopologySegments tvm segs = (v, none) →
        OwnsAll tvm segs v ∧ ∀ w, OwnsAll tvm segs w → w = v) := by
  refine ⟨fun v hv huniq => ?_, fun v h => ((getVC_ok_iff tvm hwf segs v).mp h).2⟩
  refine (getVC_ok_iff tvm hwf segs v).mpr ⟨?_, hv, huniq⟩
  intro he
  subst he
  have h1 : "a" = v := huniq "a" (by simp [OwnsAll])
  have h2 : "b" = v := huniq "b" (by simp [OwnsAll])
  exact absurd (h1.trans h2.symm) (by decide)

/-- Witness of C1 on the example of the source comment: region-1 is held by vc1
and vc2, zone-2 by vc2 only, and the segments region-1, zone-2 resolve to vc2. -/
theorem getVCForTopologySegments_unique_owner_witness :
    getVCForTopologySegments
        [("region-1", ["vc1", "vc2"]), ("zone-1", ["vc1"]), ("zone-2", ["vc2"])]
        [("topology.csi.vmware.com/k8s-region", "region-1"),
          ("topology.csi.vmware.com/k8s-zone", "zone-2")] = ("vc2", none) ∧
      OwnsAll [("region-1", ["vc1", "vc2"]), ("zone-1", ["vc1"]), ("zone-2", ["vc2"])]
        [("topology.csi.vmware.com/k8s-region", "region-1"),
          ("topology.csi.vmware.com/k8s-zone", "zone-2")] "vc2" :=
  ⟨by decide,
    ((getVCForTopologySegments_unique_owner
        [("region-1", ["vc1", "vc2"]), ("zone-1", ["vc1"]), ("zone-2", ["vc2"])]
        [("topology.csi.vmware.com/k8s-region", "region-1"),
          ("topology.csi.vmware.com/k8s-zone", "zone-2")] (by decide)).2 "vc2" (by decide)).1⟩

/-- C2: for a well-formed `TopologyVCMap`, when two distinct vCenters both
appear under every label of the segment map, `getVCForTopologySegments` returns
the empty string together with an error. -/
theorem getVCForTopologySegments_ambiguous (tvm : TopologyVCMapT) (segs : Segments)
    (hwf : tvm.WF) (v w : String) (hvw : v ≠ w) (hv : OwnsAll tvm segs v)
    (hw : OwnsAll tvm segs w) :
    ∃ e, getVCForTopologySegments tvm segs = ("", some e) := by
  rcases getVC_cases tvm segs with ⟨x, hx⟩ | h
  · obtain ⟨_, _, huniq⟩ := (getVC_ok_iff tvm hwf segs x).mp hx
    exact absurd ((huniq v hv).trans (huniq w hw).symm) hvw
  · exact h

/-- Witness of C2: region-1 alone is held by both vc1 and vc2. -/
theorem getVCForTopologySegments_ambiguous_witness :
    ∃ e, getVCForTopologySegments
        [("region-1", ["vc1", "vc2"]), ("zone-1", ["vc1"]), ("zone-2", ["vc2"])]
        [("topology.csi.vmware.com/k8s-region", "region-1")] = ("", some e) :=
  getVCForTopologySegments_ambiguous
    [("region-1", ["vc1", "vc2"]), ("zone-1", ["vc1"]), ("zone-2", ["vc2"])]
    [("topology.csi.vmware.com/k8s-region", "region-1")] (by decide) "vc1" "vc2"
    (by decide) (by decide) (by decide)

/-- C3: when some label value of the segment map is not a key of
`TopologyVCMap`, `getVCForTopologySegments` returns the empty string and the
label-not-found error of such a label, whatever the other labels resolve to. -/
theorem getVCForTopologySegments_label_not_found (tvm : TopologyVCMapT) (segs : Segments)
    (h : ∃ p ∈ segs, mapGet tvm p.2 = none) :
    ∃ p ∈ segs, mapGet tvm p.2 = none ∧
      getVCForTopologySegments tvm segs = ("", some (.labelNotFound p.1 p.2)) := by
  obtain ⟨p, hp, hn, he⟩ := countVCs_labelNotFound tvm segs [] h
  exact ⟨p, hp, hn, by simp [getVCForTopologySegments, he]⟩

/-- Witness of C3: zone-3 is not a key of the mapping, region-1 is. -/
theorem getVCForTopologySegments_label_not_found_witness :
    ∃ p ∈ [("r", "region-1"), ("z", "zone-3")],
      mapGet [("region-1", ["vc1", "vc2"]), ("zone-1", ["vc1"])] p.2 = none ∧
      getVCForTopologySegments [("region-1", ["vc1", "vc2"]), ("zone-1", ["vc1"])]
        [("r", "region-1"), ("z", "zone-3")] = ("", some (.labelNotFound p.1 p.2)) :=
  getVCForTopologySegments_label_not_found [("region-1", ["vc1", "vc2"]), ("zone-1", ["vc1"])]
    [("r", "region-1"), ("z", "zone-3")] ⟨("z", "zone-3"), by decide, by decide⟩

/-! ## Lemmas on `mapSet` and the grouping loop -/

theorem mapGet_mapSet {β : Type} (m : List (String × β)) (k k' : String) (v : β) :
    mapGet (mapSet m k v) k' = if k = k' then some v else mapGet m k' := by
  induction m with
  | nil => simp [mapSet, mapGet]
  | cons p rest ih =>
    obtain ⟨a, b⟩ := p
    by_cases ha : a = k
    · subst ha
      by_cases hk : a = k' <;> simp [mapSet, mapGet, hk]
    · by_cases hk : a = k'
      · subst hk; simp [mapSet, mapGet, ha, Ne.symm ha]
      · simp only [mapSet, ha, if_false, mapGet, hk, ih]

theorem mapKeys_mapSet {β : Type} (m : List (String × β)) (k : String) (v : β) :
    mapKeys (mapSet m k v) = if k ∈ mapKeys m then mapKeys m else mapKeys m ++ [k] := by
  induction m with
  | nil => simp [mapSet, mapKeys]
  | cons p rest ih =>
    obtain ⟨a, b⟩ := p
    by_cases ha : a = k
    · subst ha; simp [mapSet, mapKeys]
    · have ha' : ¬ k = a := fun e => ha e.symm
      simp only [mapKeys] at ih
      simp only [mapSet, ha, if_false, mapKeys, List.map_cons, List.mem_cons, ha', false_or, ih]
      split <;> simp

theorem nodup_mapSet {β : Type} (m : List (String × β)) (k : String) (v : β)
    (h : (mapKeys m).Nodup) : (mapKeys (mapSet m k v)).Nodup := by
  rw [mapKeys_mapSet]
  split
  · exact h
  · rename_i hn
    exact List.Nodup.append h (List.nodup_singleton _) (by simpa using hn)

theorem mem_mapKeys_mapSet {β : Type} (m : List (String × β)) (k k' : String) (v : β) :
    k' ∈ mapKeys (mapSet m k v) ↔ k' ∈ mapKeys m ∨ k' = k := by
  rw [mapKeys_mapSet]
  split
  · rename_i h
    constructor
    · exact Or.inl
    · rintro (h1 | h1)
      · exact h1
      · subst h1; exact h
  · simp

theorem mem_mapKeys_iff {β : Type} (m : List (String × β)) (k : String) :
    k ∈ mapKeys m ↔ ∃ v, mapGet m k = some v := by
  induction m with
  | nil => simp [mapKeys, mapGet]
  | cons p rest ih =>
    obtain ⟨a, b⟩ := p
    simp only [mapKeys] at ih
    by_cases ha : a = k
    · subst ha; simp [mapKeys, mapGet]
    · have ha' : ¬ k = a := fun e => ha e.symm
      simp [mapKeys, mapGet, ha, ha', ih]

/-- Total number of segment sets stored in a grouping. -/
theorem sum_appendSegments (m : List (String × List Segments)) (vc : String) (s : Segments) :
    ((appendSegments m vc s).map (fun p => p.2.length)).sum
      = (m.map (fun p => p.2.length)).sum + 1 := by
  unfold appendSegments
  induction m with
  | nil => simp [mapSet, mapGet]
  | cons p rest ih =>
    obtain ⟨a, b⟩ := p
    by_cases ha : a = vc
    · subst ha; simp [mapSet, mapGet]; omega
    · simp only [mapSet, ha, if_false, mapGet, List.map_cons, List.sum_cons, ih]
      omega

theorem clubLoop_ok (tvm : TopologyVCMapT) (l : List Segments)
    (acc : List (String × List Segments))
    (hall : ∀ s ∈ l, (getVCForTopologySegments tvm s).2 = none) :
    ∃ m, clubLoop tvm l acc = (some m, none) ∧
      ((mapKeys acc).Nodup → (mapKeys m).Nodup) ∧
      (∀ vc, vc ∈ mapKeys m ↔
        vc ∈ mapKeys acc ∨ ∃ s ∈ l, (getVCForTopologySegments tvm s).1 = vc) ∧
      (∀ vc, (mapGet m vc).getD [] = (mapGet acc vc).getD [] ++
        l.filter (fun s => (getVCForTopologySegments tvm s).1 == vc)) ∧
      (m.map (fun p => p.2.length)).sum = (acc.map (fun p => p.2.length)).sum + l.length := by
  induction l generalizing acc with
  | nil => exact ⟨acc, rfl, id, by simp, by simp, by simp⟩
  | cons s rest ih =>
    have hs : (getVCForTopologySegments tvm s).2 = none := hall s (List.mem_cons_self _ _)
    obtain ⟨m, hm, h1, h2, h3, h4⟩ :=
      ih (appendSegments acc (getVCForTopologySegments tvm s).1 s)
        (fun t ht => hall t (List.mem_cons_of_mem _ ht))
    refine ⟨m, ?_, ?_, ?_, ?_, ?_⟩
    · rw [← hm]
      cases hg : getVCForTopologySegments tvm s with
      | mk vc e =>
        rw [hg] at hs
        simp only at hs
        subst hs
        simp [clubLoop, hg]
    · intro hn
      exact h1 (nodup_mapSet _ _ _ hn)
    · intro vc
      rw [h2 vc, appendSegments, mem_mapKeys_mapSet]
      constructor
      · rintro ((h | h) | ⟨t, ht, he⟩)
        · exact Or.inl h
        · exact Or.inr ⟨s, List.mem_cons_self _ _, h.symm⟩
        · exact Or.inr ⟨t, List.mem_cons_of_mem _ ht, he⟩
      · rintro (h | ⟨t, ht, he⟩)
        · exact Or.inl (Or.inl h)
        · rcases List.mem_cons.mp ht with e | ht'
          · subst e; exact Or.inl (Or.inr he.symm)
          · exact Or.inr ⟨t, ht', he⟩
    · intro vc
      rw [h3 vc, appendSegments, mapGet_mapSet, List.filter_cons]
      by_cases hv : (getVCForTopologySegments tvm s).1 = vc
      · simp [hv]
      · simp [hv]
    · rw [h4, sum_appendSegments, List.length_cons]
      omega

theorem clubLoop_error (tvm : TopologyVCMapT) (l : List Segments)
    (acc : List (String × List Segments))
    (h : ∃ s ∈ l, (getVCForTopologySegments tvm s).2 ≠ none) :
    ∃ s ∈ l, (getVCForTopologySegments tvm s).2 ≠ none ∧
      clubLoop tvm l acc = (none, some (.failedToFetchVC s)) := by
  induction l generalizing acc with
  | nil => simp at h
  | cons s rest ih =>
    cases hg : getVCForTopologySegments tvm s with
    | mk vc e =>
      cases e with
      | some e =>
        exact ⟨s, List.mem_cons_self _ _, by simp [hg], by simp [clubLoop, hg]⟩
      | none =>
        obtain ⟨t, ht, hne⟩ := h
        rcases List.mem_cons.mp ht with e | ht'
        · subst e; simp [hg] at hne
        · obtain ⟨r, hr, hrn, hre⟩ := ih (appendSegments acc vc s) ⟨t, ht', hne⟩
          exact ⟨r, List.mem_cons_of_mem _ hr, hrn, by simp [clubLoop, hg, hre]⟩

/-! ## Theorems on `ClubAccessibilityRequirementsByVC` -/

/-- C4: when every preferred segment set of the request resolves to a vCenter,
`ClubAccessibilityRequirementsByVC` returns a map and a nil error; the keys of
the map are distinct and are exactly the resolved vCenters; the list under each
key is the sub-list, in request order, of the preferred segment sets resolving
to it; and the lengths of the lists sum to the number of preferred segment
sets. -/
theorem ClubAccessibilityRequirementsByVC_groups (tvm : TopologyVCMapT)
    (topologies : List Segments)
    (hall : ∀ s ∈ topologies, (getVCForTopologySegments tvm s).2 = none) :
    ∃ m, ClubAccessibilityRequirementsByVC tvm (some topologies) = (some m, none) ∧
      (mapKeys m).Nodup ∧
      (∀ vc, vc ∈ mapKeys m ↔ ∃ s ∈ topologies, (getVCForTopologySegments tvm s).1 = vc) ∧
      (∀ vc ∈ mapKeys m, mapGet m vc =
        some (topologies.filter (fun s => (getVCForTopologySegments tvm s).1 == vc))) ∧
      (m.map (fun p => p.2.length)).sum = topologies.length := by
  obtain ⟨m, hm, h1, h2, h3, h4⟩ := clubLoop_ok tvm topologies [] hall
  refine ⟨m, by simp [ClubAccessibilityRequirementsByVC, hm], h1 (by simp [mapKeys]), ?_, ?_, ?_⟩
  · intro vc
    rw [h2 vc]
    simp [mapKeys]
  · intro vc hvc
    obtain ⟨x, hx⟩ := (mem_mapKeys_iff m vc).mp hvc
    have := h3 vc
    rw [hx] at this
    simp only [Option.getD_some, mapGet, Option.getD_none, List.nil_append] at this
    rw [hx, this]
  · simpa using h4

/-- Witness of C4: three preferred segment sets, two resolving to vc1 and one
to vc2. -/
theorem ClubAccessibilityRequirementsByVC_groups_witness :
    ∃ m, ClubAccessibilityRequirementsByVC
        [("region-1", ["vc1", "vc2"]), ("zone-1", ["vc1"]), ("zone-2", ["vc2"])]
        (some [[("z", "zone-1")], [("z", "zone-2")], [("r", "region-1"), ("z", "zone-1")]])
          = (some m, none) ∧
      (m.map (fun p => p.2.length)).sum = 3 := by
  obtain ⟨m, hm, _, _, _, hsum⟩ := ClubAccessibilityRequirementsByVC_groups
    [("region-1", ["vc1", "vc2"]), ("zone-1", ["vc1"]), ("zone-2", ["vc2"])]
    [[("z", "zone-1")], [("z", "zone-2")], [("r", "region-1"), ("z", "zone-1")]] (by decide)
  exact ⟨m, hm, hsum⟩

/-- C5: if at least one preferred segment set of the request fails
owning-vCenter resolution, `ClubAccessibilityRequirementsByVC` returns a nil
map and an error (the one raised for a failing segment set), however many other
segment sets resolve. -/
theorem ClubAccessibilityRequirementsByVC_fail_fast (tvm : TopologyVCMapT)
    (topologies : List Segments)
    (h : ∃ s ∈ topologies, (getVCForTopologySegments tvm s).2 ≠ none) :
    ∃ s ∈ topologies, (getVCForTopologySegments tvm s).2 ≠ none ∧
      ClubAccessibilityRequirementsByVC tvm (some topologies)
        = (none, some (.failedToFetchVC s)) := by
  obtain ⟨s, hs, hn, he⟩ := clubLoop_error tvm topologies [] h
  exact ⟨s, hs, hn, by simp [ClubAccessibilityRequirementsByVC, he]⟩

/-- Witness of C5: the second of three segment sets names the unknown label
zone-3; the two others resolve. -/
theorem ClubAccessibilityRequirementsByVC_fail_fast_witness :
    ∃ s ∈ [[("z", "zone-1")], [("z", "zone-3")], [("z", "zone-2")]],
      (getVCForTopologySegments
        [("region-1", ["vc1", "vc2"]), ("zone-1", ["vc1"]), ("zone-2", ["vc2"])] s).2 ≠ none ∧
      ClubAccessibilityRequirementsByVC
        [("region-1", ["vc1", "vc2"]), ("zone-1", ["vc1"]), ("zone-2", ["vc2"])]
        (some [[("z", "zone-1")], [("z", "zone-3")], [("z", "zone-2")]])
          = (none, some (.failedToFetchVC s)) :=
  ClubAccessibilityRequirementsByVC_fail_fast
    [("region-1", ["vc1", "vc2"]), ("zone-1", ["vc1"]), ("zone-2", ["vc2"])]
    [[("z", "zone-1")], [("z", "zone-3")], [("z", "zone-2")]]
    ⟨[("z", "zone-3")], by decide, by decide⟩

/-! ## Lemmas on the node matcher -/

theorem mapGet_foldl_labels (labels : List TopologyLabel) (acc : Segments) (k : String) :
    mapGet (labels.foldl (fun m topoLabel => mapSet m topoLabel.Key topoLabel.Value) acc) k
      = match lastValue labels k with
        | some v => some v
        | none => mapGet acc k := by
  induction labels generalizing acc with
  | nil => simp [lastValue]
  | cons l rest ih =>
    rw [List.foldl_cons, ih, mapGet_mapSet]
    simp only [lastValue]
    cases lastValue rest k with
    | some v => rfl
    | none =>
      by_cases hk : l.Key = k <;> simp [hk]

theorem mapGet_labelsToMap (labels : List TopologyLabel) (k : String) :
    mapGet (labelsToMap labels) k = lastValue labels k := by
  unfold labelsToMap
  rw [mapGet_foldl_labels]
  cases lastValue labels k <;> simp [mapGet]

theorem isMatch_iff (req : Segments) (inst : CSINodeTopology) :
    isMatch req (labelsToMap inst.TopologyLabels) = true ↔ SatisfiesRequest req inst := by
  simp [isMatch, SatisfiesRequest, strMapIndex, mapGet_labelsToMap]

/-- What a successful iteration of the loop body did to the local variables. -/
theorem matchStep_ok (req : Segments) (nm : NodeManager) (flag : Bool) (st st1 : MatchState)
    (val : Option CSINodeTopology) (h : matchStep req nm flag st val = .ok st1) :
    ∃ inst, val = some inst ∧ inst.Status = CSINodeTopologySuccess ∧
      ((isMatch req (labelsToMap inst.TopologyLabels) = false ∧ st1 = st) ∨
        (isMatch req (labelsToMap inst.TopologyLabels) = true ∧
          ∃ vm, lookupNodeVM nm flag inst = .ok vm ∧
            (st.vcHost = "" ∨ st.vcHost = vm.VirtualCenterHost) ∧
            st1.vcHost = vm.VirtualCenterHost ∧
            st1.matchingNodeVMs = st.matchingNodeVMs ++ [vm] ∧
            st1.completeTopologySegments =
              recordSegments st.completeTopologySegments (labelsToMap inst.TopologyLabels))) := by
  cases val with
  | none => simp [matchStep] at h
  | some inst =>
    refine ⟨inst, rfl, ?_⟩
    unfold matchStep at h
    simp only at h
    by_cases hs : inst.Status = CSINodeTopologySuccess
    · refine ⟨hs, ?_⟩
      simp only [hs, ne_eq, not_true_eq_false, if_false] at h
      cases hm : isMatch req (labelsToMap inst.TopologyLabels) with
      | false =>
        simp only [hm, Bool.false_eq_true, if_false, Except.ok.injEq] at h
        exact Or.inl ⟨rfl, h.symm⟩
      | true =>
        simp only [hm, if_true] at h
        cases hl : lookupNodeVM nm flag inst with
        | error c => simp [hl] at h
        | ok vm =>
          simp only [hl] at h
          refine Or.inr ⟨rfl, vm, rfl, ?_⟩
          by_cases hv : st.vcHost = ""
          · simp only [hv, if_true, Except.ok.injEq] at h
            subst h
            exact ⟨Or.inl hv, rfl, rfl, rfl⟩
          · simp only [hv, if_false] at h
            by_cases hd : st.vcHost = vm.VirtualCenterHost
            · simp only [hd, ne_eq, not_true_eq_false, if_false, Except.ok.injEq] at h
              subst h
              exact ⟨Or.inr hd, rfl, rfl, rfl⟩
            · simp [hd] at h
    · simp [hs] at h

theorem matchLoop_ok (req : Segments) (nm : NodeManager) (flag : Bool)
    (items : List (Option CSINodeTopology)) (st st1 : MatchState)
    (h : matchLoop req nm flag items st = .ok st1) :
    ∃ (records : List CSINodeTopology) (vms : List VirtualMachine), items = records.map some ∧
      (∀ r ∈ records, r.Status = CSINodeTopologySuccess) ∧
      (records.filter (fun r => isMatch req (labelsToMap r.TopologyLabels))).map
          (lookupNodeVM nm flag) = vms.map Except.ok ∧
      st1.matchingNodeVMs = st.matchingNodeVMs ++ vms ∧
      st1.completeTopologySegments =
        ((records.filter (fun r => isMatch req (labelsToMap r.TopologyLabels))).map
          (fun r => labelsToMap r.TopologyLabels)).foldl recordSegments
            st.completeTopologySegments := by
  induction items generalizing st with
  | nil =>
    simp only [matchLoop, Except.ok.injEq] at h
    subst h
    exact ⟨[], [], rfl, by simp, by simp, by simp, by simp⟩
  | cons val rest ih =>
    unfold matchLoop at h
    cases hstep : matchStep req nm flag st val with
    | error e => simp [hstep] at h
    | ok st2 =>
      simp only [hstep] at h
      obtain ⟨records, vms, hitems, hsucc, hvms, hnodes, hsegs⟩ := ih st2 h
      obtain ⟨inst, hval, hst, hcase⟩ := matchStep_ok req nm flag st st2 val hstep
      rcases hcase with ⟨hm, he⟩ | ⟨hm, vm, hl, _, _, hn2, hs2⟩
      · subst he
        refine ⟨inst :: records, vms, by simp [hval, hitems], ?_, ?_, hnodes, ?_⟩
        · intro r hr
          rcases List.mem_cons.mp hr with e | hr'
          · rw [e]; exact hst
          · exact hsucc r hr'
        · simpa [List.filter_cons, hm] using hvms
        · simpa [List.filter_cons, hm] using hsegs
      · refine ⟨inst :: records, vm :: vms, by simp [hval, hitems], ?_, ?_, ?_, ?_⟩
        · intro r hr
          rcases List.mem_cons.mp hr with e | hr'
          · rw [e]; exact hst
          · exact hsucc r hr'
        · simp [List.filter_cons, hm, hl, hvms]
        · rw [hnodes, hn2]; simp
        · rw [hsegs, hs2]; simp [List.filter_cons, hm]

/-- A record that is not ready fails the loop from every state. -/
theorem matchLoop_notReady (req : Segments) (nm : NodeManager) (flag : Bool)
    (items : List (Option CSINodeTopology)) (st : MatchState)
    (h : ∃ inst, some inst ∈ items ∧ inst.Status ≠ CSINodeTopologySuccess) :
    ∃ e, matchLoop req nm flag items st = .error e := by
  induction items generalizing st with
  | nil => simp at h
  | cons val rest ih =>
    unfold matchLoop
    cases hstep : matchStep req nm flag st val with
    | error e => exact ⟨e, rfl⟩
    | ok st2 =>
      simp only
      obtain ⟨inst, hmem, hne⟩ := h
      rcases List.mem_cons.mp hmem with e | hmem'
      · subst e
        simp [matchStep, hne] at hstep
      · exact ih st2 ⟨inst, hmem', hne⟩

theorem lastValue_none_of_no_key (labels : List TopologyLabel) (k : String)
    (h : ∀ l ∈ labels, l.Key ≠ k) : lastValue labels k = none := by
  induction labels with
  | nil => rfl
  | cons l rest ih =>
    have h1 := ih (fun x hx => h x (List.mem_cons_of_mem _ hx))
    have h2 := h l (List.mem_cons_self _ _)
    simp [lastValue, h1, h2]

theorem lastValue_append (labels extra : List TopologyLabel) (k : String)
    (h : ∀ l ∈ extra, l.Key ≠ k) : lastValue (labels ++ extra) k = lastValue labels k := by
  induction labels with
  | nil => simpa [lastValue] using lastValue_none_of_no_key extra k h
  | cons l rest ih => simp [lastValue, ih]

theorem matchLoop_empty_request (nm : NodeManager) (flag : Bool) (host : String)
    (records : List CSINodeTopology) (vms : List VirtualMachine) (st : MatchState)
    (hready : ∀ r ∈ records, r.Status = CSINodeTopologySuccess)
    (hlookup : records.map (lookupNodeVM nm flag) = vms.map Except.ok)
    (hhost : ∀ vm ∈ vms, vm.VirtualCenterHost = host)
    (hst : st.vcHost = "" ∨ st.vcHost = host) :
    ∃ st1, matchLoop [] nm flag (records.map some) st = .ok st1 ∧
      st1.matchingNodeVMs = st.matchingNodeVMs ++ vms := by
  induction records generalizing vms st with
  | nil =>
    cases vms with
    | nil => exact ⟨st, rfl, by simp⟩
    | cons v vs => simp at hlookup
  | cons r rest ih =>
    cases vms with
    | nil => simp at hlookup
    | cons v vs =>
      simp only [List.map_cons, List.cons.injEq] at hlookup
      obtain ⟨hl, hrest⟩ := hlookup
      have hr : r.Status = CSINodeTopologySuccess := hready r (List.mem_cons_self _ _)
      have hv : v.VirtualCenterHost = host := hhost v (List.mem_cons_self _ _)
      have hstep : ∃ st2, matchStep [] nm flag st (some r) = .ok st2 ∧
          st2.matchingNodeVMs = st.matchingNodeVMs ++ [v] ∧
          (st2.vcHost = "" ∨ st2.vcHost = host) := by
        by_cases h0 : st.vcHost = ""
        · refine ⟨{ vcHost := v.VirtualCenterHost
                    matchingNodeVMs := st.matchingNodeVMs ++ [v]
                    completeTopologySegments :=
                      recordSegments st.completeTopologySegments
                        (labelsToMap r.TopologyLabels) }, ?_, rfl, Or.inr hv⟩
          simp [matchStep, hr, isMatch, hl, h0]
        · have h1 : st.vcHost = host := hst.resolve_left h0
          have h2 : st.vcHost = v.VirtualCenterHost := h1.trans hv.symm
          refine ⟨{ vcHost := st.vcHost
                    matchingNodeVMs := st.matchingNodeVMs ++ [v]
                    completeTopologySegments :=
                      recordSegments st.completeTopologySegments
                        (labelsToMap r.TopologyLabels) }, ?_, rfl, Or.inr h1⟩
          simp [matchStep, hr, isMatch, hl, h0, h2]
      obtain ⟨st2, hs2, hn2, hh2⟩ := hstep
      obtain ⟨st3, hs3, hn3⟩ := ih vs st2
        (fun x hx => hready x (List.mem_cons_of_mem _ hx)) hrest
        (fun x hx => hhost x (List.mem_cons_of_mem _ hx)) hh2
      refine ⟨st3, ?_, ?_⟩
      · simp only [List.map_cons, matchLoop, hs2, hs3]
      · rw [hn3, hn2]; simp

/-! ## Theorems on `getTopologySegmentsWithMatchingNodes` -/

/-- C6: for every requested segment map and every snapshot that contains a
record whose status is not Success, `getTopologySegmentsWithMatchingNodes`
returns nil results and an error, whether or not the labels of that record
match the request and wherever the record sits in the snapshot. -/
theorem getTopologySegmentsWithMatchingNodes_not_ready
    (instances : List (Option CSINodeTopology)) (req : Segments) (nm : NodeManager)
    (flag : Bool)
    (h : ∃ inst, some inst ∈ instances ∧ inst.Status ≠ CSINodeTopologySuccess) :
    ∃ e, getTopologySegmentsWithMatchingNodes instances req nm flag = ([], [], some e) := by
  obtain ⟨e, he⟩ := matchLoop_notReady req nm flag instances
    { vcHost := "", matchingNodeVMs := [], completeTopologySegments := [] } h
  exact ⟨e, by simp [getTopologySegmentsWithMatchingNodes, he]⟩

/-- Witness of C6: the last record of the snapshot is not ready and does not
match the request. -/
theorem getTopologySegmentsWithMatchingNodes_not_ready_witness :
    ∃ e, getTopologySegmentsWithMatchingNodes
      [some recordNode1, some recordNode2, some recordNode3] [("zone", "z1")]
      exampleNodeMgr true = ([], [], some e) :=
  getTopologySegmentsWithMatchingNodes_not_ready
    [some recordNode1, some recordNode2, some recordNode3] [("zone", "z1")]
    exampleNodeMgr true ⟨recordNode3, by decide, by decide⟩

/-- Counterexample to C7 as stated: `node-1` has no label with key `region`,
yet the request `region = ""` matches it and its node is returned. -/
theorem getTopologySegmentsWithMatchingNodes_missing_key_matched :
    (∀ l ∈ recordNode1.TopologyLabels, l.Key ≠ "region") ∧
      getTopologySegmentsWithMatchingNodes [some recordNode1] [("region", "")]
        exampleNodeMgr true
        = ([{ UUID := "uuid-1", VirtualCenterHost := "vc-a" }], [[("zone", "z1")]], none) := by
  decide

/-- C7, amended: on a successful call the returned nodes are exactly the
resolved nodes, in snapshot order, of the records that satisfy the request,
where a record satisfies the request when for every requested key the value of
its last label with that key (the empty string if it has no such label) equals
the requested value. A record that lacks a requested key whose requested value
is not the empty string is not matched, and labels with keys that are not
requested do not change whether a record is matched. -/
theorem getTopologySegmentsWithMatchingNodes_matched_nodes
    (instances : List (Option CSINodeTopology)) (req : Segments) (nm : NodeManager)
    (flag : Bool) (nodes : List VirtualMachine) (segs : List Segments)
    (h : getTopologySegmentsWithMatchingNodes instances req nm flag = (nodes, segs, none)) :
    (∃ records : List CSINodeTopology, instances = records.map some ∧
      (records.filter (fun r => decide (SatisfiesRequest req r))).map (lookupNodeVM nm flag)
        = nodes.map Except.ok) ∧
    (∀ labels : List TopologyLabel, ∀ p ∈ req, p.2 ≠ "" →
      (∀ l ∈ labels, l.Key ≠ p.1) → isMatch req (labelsToMap labels) = false) ∧
    (∀ labels extra : List TopologyLabel, (∀ l ∈ extra, ∀ p ∈ req, l.Key ≠ p.1) →
      isMatch req (labelsToMap (labels ++ extra)) = isMatch req (labelsToMap labels)) := by
  refine ⟨?_, ?_, ?_⟩
  · unfold getTopologySegmentsWithMatchingNodes at h
    cases hl : matchLoop req nm flag instances
        { vcHost := "", matchingNodeVMs := [], completeTopologySegments := [] } with
    | error e => simp [hl] at h
    | ok st =>
      simp only [hl, Prod.mk.injEq, and_true] at h
      obtain ⟨records, vms, hitems, _, hvms, hnodes, _⟩ := matchLoop_ok req nm flag instances _ st hl
      refine ⟨records, hitems, ?_⟩
      have hn : nodes = vms := by rw [← h.1, hnodes]; simp
      rw [hn, ← hvms]
      congr 1
      apply List.filter_congr
      intro r _
      rw [Bool.eq_iff_iff]
      simpa using (isMatch_iff req r).symm
  · intro labels p hp hne hkeys
    rw [← Bool.not_eq_true]
    intro hm
    simp only [isMatch, List.all_eq_true, beq_iff_eq] at hm
    have := hm p hp
    rw [strMapIndex, mapGet_labelsToMap, lastValue_none_of_no_key labels p.1 hkeys] at this
    exact hne this.symm
  · intro labels extra hextra
    rw [Bool.eq_iff_iff]
    simp only [isMatch, List.all_eq_true, beq_iff_eq, strMapIndex, mapGet_labelsToMap]
    constructor
    · intro hm p hp
      rw [← lastValue_append labels extra p.1 (fun l hl => hextra l hl p hp)]
      exact hm p hp
    · intro hm p hp
      rw [lastValue_append labels extra p.1 (fun l hl => hextra l hl p hp)]
      exact hm p hp

/-- Witness of C7, amended: the request `region = r1` on two ready records
returns the node of the second one only. -/
theorem getTopologySegmentsWithMatchingNodes_matched_nodes_witness :
    ∃ records : List CSINodeTopology,
      [some recordNode1, some recordNode2] = records.map some ∧
      (records.filter (fun r => decide (SatisfiesRequest [("region", "r1")] r))).map
          (lookupNodeVM exampleNodeMgr true)
        = [({ UUID := "uuid-2", VirtualCenterHost := "vc-a" } : VirtualMachine)].map Except.ok :=
  (getTopologySegmentsWithMatchingNodes_matched_nodes [some recordNode1, some recordNode2]
    [("region", "r1")] exampleNodeMgr true [{ UUID := "uuid-2", VirtualCenterHost := "vc-a" }]
    [[("region", "r1"), ("zone", "z1")]] (by decide)).1

/-- C8, the code at the failing input: both records match `zone = z1`; looked
up by name, `node-1` has an empty `VirtualCenterHost` and `node-2` is on
`vc-a`; the call succeeds and returns both nodes. -/
theorem getTopologySegmentsWithMatchingNodes_empty_host_first :
    getTopologySegmentsWithMatchingNodes [some recordNode1, some recordNode2]
        [("zone", "z1")] exampleNodeMgr false
      = ([{ UUID := "node-1", VirtualCenterHost := "" },
          { UUID := "node-2", VirtualCenterHost := "vc-a" }],
         [[("zone", "z1")], [("region", "r1"), ("zone", "z1")]], none) := by
  decide

/-- C9, the code at the failing input: the snapshot of two matching records
succeeds in one order and fails in the other. -/
theorem getTopologySegmentsWithMatchingNodes_order_dependent :
    (getTopologySegmentsWithMatchingNodes [some recordNode1, some recordNode2]
        [("zone", "z1")] exampleNodeMgr false).2.2 = none ∧
      getTopologySegmentsWithMatchingNodes [some recordNode2, some recordNode1]
        [("zone", "z1")] exampleNodeMgr false
        = ([], [], some (.twoDifferentVCs "vc-a" "")) ∧
      List.Perm [some recordNode2, some recordNode1] [some recordNode1, some recordNode2] := by
  refine ⟨by decide, by decide, List.Perm.swap _ _ _⟩

/-- C10: with an empty requested segment map, if all records of the snapshot
have status Success, every node lookup succeeds and all nodes are on one
vCenter, `getTopologySegmentsWithMatchingNodes` succeeds and returns the node
of every record of the snapshot, in snapshot order. -/
theorem getTopologySegmentsWithMatchingNodes_empty_request
    (records : List CSINodeTopology) (nm : NodeManager) (flag : Bool)
    (vms : List VirtualMachine) (host : String)
    (hready : ∀ r ∈ records, r.Status = CSINodeTopologySuccess)
    (hlookup : records.map (lookupNodeVM nm flag) = vms.map Except.ok)
    (hhost : ∀ vm ∈ vms, vm.VirtualCenterHost = host) :
    vms.length = records.length ∧
      ∃ segs, getTopologySegmentsWithMatchingNodes (records.map some) [] nm flag
        = (vms, segs, none) := by
  refine ⟨by simpa using (congrArg List.length hlookup).symm, ?_⟩
  obtain ⟨st, hst, hn⟩ := matchLoop_empty_request nm flag host records vms
    { vcHost := "", matchingNodeVMs := [], completeTopologySegments := [] }
    hready hlookup hhost (Or.inl rfl)
  exact ⟨st.completeTopologySegments, by
    simp only [getTopologySegmentsWithMatchingNodes, hst, hn, List.nil_append]⟩

/-- Witness of C10: two ready records whose nodes are both on `vc-a`. -/
theorem getTopologySegmentsWithMatchingNodes_empty_request_witness :
    [({ UUID := "uuid-1", VirtualCenterHost := "vc-a" } : VirtualMachine),
        { UUID := "uuid-2", VirtualCenterHost := "vc-a" }].length
        = [recordNode1, recordNode2].length ∧
      ∃ segs, getTopologySegmentsWithMatchingNodes ([recordNode1, recordNode2].map some) []
        exampleNodeMgr true
        = ([{ UUID := "uuid-1", VirtualCenterHost := "vc-a" },
            { UUID := "uuid-2", VirtualCenterHost := "vc-a" }], segs, none) :=
  getTopologySegmentsWithMatchingNodes_empty_request [recordNode1, recordNode2]
    exampleNodeMgr true _ "vc-a" (by decide) rfl (by decide)

/-! ## The vCenter check away from the empty host -/

theorem matchLoop_hosts (req : Segments) (nm : NodeManager) (flag : Bool)
    (items : List (Option CSINodeTopology)) (st st1 : MatchState)
    (h : matchLoop req nm flag items st = .ok st1)
    (hinv : ∀ vm ∈ st.matchingNodeVMs,
      vm.VirtualCenterHost = "" ∨ vm.VirtualCenterHost = st.vcHost) :
    ∀ vm ∈ st1.matchingNodeVMs,
      vm.VirtualCenterHost = "" ∨ vm.VirtualCenterHost = st1.vcHost := by
  induction items generalizing st with
  | nil =>
    simp only [matchLoop, Except.ok.injEq] at h
    subst h
    exact hinv
  | cons val rest ih =>
    unfold matchLoop at h
    cases hstep : matchStep req nm flag st val with
    | error e => simp [hstep] at h
    | ok st2 =>
      simp only [hstep] at h
      refine ih st2 h ?_
      obtain ⟨inst, _, _, hcase⟩ := matchStep_ok req nm flag st st2 val hstep
      rcases hcase with ⟨_, he⟩ | ⟨_, v, _, hor, hh, hn, _⟩
      · subst he; exact hinv
      · intro vm hvm
        rw [hn] at hvm
        rcases List.mem_append.mp hvm with hold | hnew
        · rcases hinv vm hold with h0 | h0
          · exact Or.inl h0
          · rcases hor with h1 | h1
            · exact Or.inl (h0.trans h1)
            · exact Or.inr (h0.trans (h1.trans hh.symm))
        · simp only [List.mem_singleton] at hnew
          subst hnew
          exact Or.inr hh.symm

/-- Whenever `getTopologySegmentsWithMatchingNodes` succeeds, any two returned
nodes whose `VirtualCenterHost` is not the empty string have the same
`VirtualCenterHost`. -/
theorem getTopologySegmentsWithMatchingNodes_nonempty_hosts_agree
    (instances : List (Option CSINodeTopology)) (req : Segments) (nm : NodeManager)
    (flag : Bool) (nodes : List VirtualMachine) (segs : List Segments)
    (h : getTopologySegmentsWithMatchingNodes instances req nm flag = (nodes, segs, none)) :
    ∀ a ∈ nodes, ∀ b ∈ nodes, a.VirtualCenterHost ≠ "" → b.VirtualCenterHost ≠ "" →
      a.VirtualCenterHost = b.VirtualCenterHost := by
  unfold getTopologySegmentsWithMatchingNodes at h
  cases hl : matchLoop req nm flag instances
      { vcHost := "", matchingNodeVMs := [], completeTopologySegments := [] } with
  | error e => simp [hl] at h
  | ok st =>
    simp only [hl, Prod.mk.injEq, and_true] at h
    have hinv := matchLoop_hosts req nm flag instances _ st hl (by simp)
    rw [h.1] at hinv
    intro a ha b hb hane hbne
    exact ((hinv a ha).resolve_left hane).trans ((hinv b hb).resolve_left hbne).symm

/-! ## Lemmas on the complete topology segments -/

theorem nodup_labelsToMap (labels : List TopologyLabel) : (mapKeys (labelsToMap labels)).Nodup := by
  unfold labelsToMap
  have key : ∀ (acc : Segments), (mapKeys acc).Nodup →
      (mapKeys (labels.foldl (fun m topoLabel => mapSet m topoLabel.Key topoLabel.Value)
        acc)).Nodup := by
    induction labels with
    | nil => intro acc h; simpa using h
    | cons l rest ih =>
      intro acc h
      rw [List.foldl_cons]
      exact ih _ (nodup_mapSet acc l.Key l.Value h)
  exact key [] (by simp [mapKeys])

theorem nodup_of_nodup_keys {β : Type} (m : List (String × β)) (h : (mapKeys m).Nodup) :
    m.Nodup := List.Nodup.of_map _ h

theorem deepEqual_refl (a : Segments) (h : (mapKeys a).Nodup) : deepEqual a a = true := by
  simp only [deepEqual, beq_self_eq_true, Bool.true_and, List.all_eq_true, beq_iff_eq]
  intro p hp
  exact mapGet_of_mem a p.1 p.2 h hp

theorem deepEqual_symm (a b : Segments) (ha : (mapKeys a).Nodup)
    (h : deepEqual a b = true) : deepEqual b a = true := by
  simp only [deepEqual, Bool.and_eq_true, beq_iff_eq, List.all_eq_true] at h ⊢
  obtain ⟨hlen, hall⟩ := h
  refine ⟨hlen.symm, ?_⟩
  have hsub : a ⊆ b := fun p hp => mapGet_mem b p.1 p.2 (hall p hp)
  have hperm : a.Perm b :=
    (List.subperm_of_subset (nodup_of_nodup_keys a ha) hsub).perm_of_length_le (le_of_eq hlen.symm)
  intro p hp
  exact mapGet_of_mem a p.1 p.2 ha (hperm.mem_iff.mpr hp)

theorem mem_recordSegments (acc : List Segments) (x s : Segments)
    (h : s ∈ recordSegments acc x) : s ∈ acc ∨ s = x := by
  unfold recordSegments at h
  split at h
  · exact Or.inl h
  · simpa using h

theorem subset_recordSegments (acc : List Segments) (x : Segments) :
    acc ⊆ recordSegments acc x := by
  unfold recordSegments
  split
  · exact fun _ h => h
  · exact List.subset_append_left _ _

theorem exists_deepEqual_recordSegments (acc : List Segments) (x : Segments)
    (hx : (mapKeys x).Nodup) : ∃ s ∈ recordSegments acc x, deepEqual s x = true := by
  unfold recordSegments
  split
  · rename_i h
    simpa using h
  · exact ⟨x, by simp, deepEqual_refl x hx⟩

theorem pairwise_recordSegments (acc : List Segments) (x : Segments)
    (h : acc.Pairwise (fun a b => deepEqual a b = false)) :
    (recordSegments acc x).Pairwise (fun a b => deepEqual a b = false) := by
  unfold recordSegments
  split
  · exact h
  · rename_i hn
    rw [List.pairwise_append]
    refine ⟨h, by simp, ?_⟩
    intro a ha b hb
    simp only [List.mem_singleton] at hb
    subst hb
    simp only [List.any_eq_true, not_exists, not_and, Bool.not_eq_true] at hn
    exact hn a ha

theorem foldl_recordSegments (xs : List Segments) (acc : List Segments)
    (hnd : ∀ x ∈ xs, (mapKeys x).Nodup)
    (hp : acc.Pairwise (fun a b => deepEqual a b = false)) :
    (xs.foldl recordSegments acc).Pairwise (fun a b => deepEqual a b = false) ∧
      acc ⊆ xs.foldl recordSegments acc ∧
      (∀ s ∈ xs.foldl recordSegments acc, s ∈ acc ∨ s ∈ xs) ∧
      (∀ x ∈ xs, ∃ s ∈ xs.foldl recordSegments acc, deepEqual s x = true) := by
  induction xs generalizing acc with
  | nil => exact ⟨hp, fun _ h => h, fun s h => Or.inl h, by simp⟩
  | cons x rest ih =>
    rw [List.foldl_cons]
    obtain ⟨h1, h2, h3, h4⟩ := ih (recordSegments acc x)
      (fun y hy => hnd y (List.mem_cons_of_mem _ hy)) (pairwise_recordSegments acc x hp)
    refine ⟨h1, fun s hs => h2 (subset_recordSegments acc x hs), ?_, ?_⟩
    · intro s hs
      rcases h3 s hs with h | h
      · rcases mem_recordSegments acc x s h with h' | h'
        · exact Or.inl h'
        · exact Or.inr (by simp [h'])
      · exact Or.inr (List.mem_cons_of_mem _ h)
    · intro y hy
      rcases List.mem_cons.mp hy with e | hy'
      · subst e
        obtain ⟨s, hs, hd⟩ := exists_deepEqual_recordSegments acc y (hnd y (List.mem_cons_self _ _))
        exact ⟨s, h2 hs, hd⟩
      · exact h4 y hy'

/-- Counterexample to C11 as stated: the request `region = ""` matches `node-1`,
whose label map `zone = z1` is returned as a complete topology segment and has
no entry for the requested key `region`. -/
theorem getTopologySegmentsWithMatchingNodes_segment_lacks_requested_key :
    getTopologySegmentsWithMatchingNodes [some recordNode1] [("region", "")]
        exampleNodeMgr true
        = ([{ UUID := "uuid-1", VirtualCenterHost := "vc-a" }], [[("zone", "z1")]], none) ∧
      mapGet ([("zone", "z1")] : Segments) "region" = none ∧
      mapGet ([("zone", "z1")] : Segments) "region" ≠ some "" := by
  decide

/-- C11, amended: on success the returned list of complete topology segments has
no two entries that are deeply equal (in either direction), holds for every
matched record a map deeply equal to the full label map of the record, holds
nothing but full label maps of matched records, and every map in it holds each
requested key with the requested value, except that a requested key whose
requested value is the empty string may be absent from the map. -/
theorem getTopologySegmentsWithMatchingNodes_complete_segments
    (instances : List (Option CSINodeTopology)) (req : Segments) (nm : NodeManager)
    (flag : Bool) (nodes : List VirtualMachine) (segs : List Segments)
    (h : getTopologySegmentsWithMatchingNodes instances req nm flag = (nodes, segs, none)) :
    ∃ records : List CSINodeTopology, instances = records.map some ∧
      segs.Pairwise (fun a b => deepEqual a b = false ∧ deepEqual b a = false) ∧
      (∀ r ∈ records, SatisfiesRequest req r →
        ∃ s ∈ segs, deepEqual s (labelsToMap r.TopologyLabels) = true) ∧
      (∀ s ∈ segs, ∃ r ∈ records, SatisfiesRequest req r ∧ s = labelsToMap r.TopologyLabels) ∧
      (∀ s ∈ segs, ∀ p ∈ req,
        mapGet s p.1 = some p.2 ∨ (p.2 = "" ∧ mapGet s p.1 = none)) := by
  unfold getTopologySegmentsWithMatchingNodes at h
  cases hl : matchLoop req nm flag instances
      { vcHost := "", matchingNodeVMs := [], completeTopologySegments := [] } with
  | error e => simp [hl] at h
  | ok st =>
    simp only [hl, Prod.mk.injEq, and_true] at h
    obtain ⟨records, vms, hitems, _, _, _, hsegs⟩ := matchLoop_ok req nm flag instances _ st hl
    rw [h.2] at hsegs
    have hnd : ∀ x ∈ (records.filter (fun r => isMatch req (labelsToMap r.TopologyLabels))).map
        (fun r => labelsToMap r.TopologyLabels), (mapKeys x).Nodup := by
      intro x hx
      obtain ⟨r, _, rfl⟩ := List.mem_map.mp hx
      exact nodup_labelsToMap _
    obtain ⟨h1, _, h3, h4⟩ := foldl_recordSegments _ [] hnd List.Pairwise.nil
    rw [← hsegs] at h1 h3 h4
    have hfrom : ∀ s ∈ segs, ∃ r ∈ records, SatisfiesRequest req r ∧
        s = labelsToMap r.TopologyLabels := by
      intro s hs
      rcases h3 s hs with h0 | h0
      · simp at h0
      · obtain ⟨r, hr, rfl⟩ := List.mem_map.mp h0
        rw [List.mem_filter] at hr
        exact ⟨r, hr.1, (isMatch_iff req r).mp hr.2, rfl⟩
    refine ⟨records, hitems, ?_, ?_, hfrom, ?_⟩
    · refine List.Pairwise.imp_of_mem ?_ h1
      intro a b _ hb hab
      refine ⟨hab, ?_⟩
      rw [← Bool.not_eq_true]
      intro hba
      obtain ⟨r, _, _, rfl⟩ := hfrom b hb
      have := deepEqual_symm _ a (nodup_labelsToMap _) hba
      rw [hab] at this
      exact Bool.noConfusion this
    · intro r hr hsat
      exact h4 _ (List.mem_map.mpr ⟨r, List.mem_filter.mpr ⟨hr, (isMatch_iff req r).mpr hsat⟩, rfl⟩)
    · intro s hs p hp
      obtain ⟨r, _, hsat, rfl⟩ := hfrom s hs
      have hv := hsat p hp
      rw [mapGet_labelsToMap]
      cases hlv : lastValue r.TopologyLabels p.1 with
      | none =>
        rw [hlv] at hv
        exact Or.inr ⟨hv.symm, rfl⟩
      | some v =>
        rw [hlv] at hv
        exact Or.inl (congrArg some hv)

/-- Witness of C11, amended: `node-1` and a second record of the same zone share
one entry; `node-2` adds its own; both entries hold the requested key `zone`
with the requested value. -/
theorem getTopologySegmentsWithMatchingNodes_complete_segments_witness :
    ∃ records : List CSINodeTopology,
      [some recordNode1, some recordNode2, some recordNode1] = records.map some ∧
      [[("zone", "z1")], [("region", "r1"), ("zone", "z1")]].Pairwise
        (fun a b => deepEqual a b = false ∧ deepEqual b a = false) ∧
      (∀ s ∈ ([[("zone", "z1")], [("region", "r1"), ("zone", "z1")]] : List Segments),
        ∀ p ∈ ([("zone", "z1")] : Segments),
          mapGet s p.1 = some p.2 ∨ (p.2 = "" ∧ mapGet s p.1 = none)) :=
  let ⟨records, h1, h2, _, _, h5⟩ := getTopologySegmentsWithMatchingNodes_complete_segments
    [some recordNode1, some recordNode2, some recordNode1] [("zone", "z1")] exampleNodeMgr true
    [{ UUID := "uuid-1", VirtualCenterHost := "vc-a" },
      { UUID := "uuid-2", VirtualCenterHost := "vc-a" },
      { UUID := "uuid-1", VirtualCenterHost := "vc-a" }]
    [[("zone", "z1")], [("region", "r1"), ("zone", "z1")]] (by decide)
  ⟨records, h1, h2, h5⟩

/-! ## Lemmas on the merge of datastores by URL -/

theorem any_url_iff (shared : List DatastoreInfo) (u : String) :
    shared.any (fun sharedDS => sharedDS.Url == u) = true ↔ u ∈ shared.map (fun d => d.Url) := by
  simp only [List.any_eq_true, beq_iff_eq, List.mem_map]

theorem mergeDatastores_eq (shared new : List DatastoreInfo) :
    mergeDatastores shared new
      = shared ++ dedupByUrlAux (shared.map (fun d => d.Url)) new := by
  unfold mergeDatastores
  induction new generalizing shared with
  | nil => simp [dedupByUrlAux]
  | cons d rest ih =>
    rw [List.foldl_cons]
    by_cases h : d.Url ∈ shared.map (fun d => d.Url)
    · have h' := (any_url_iff shared d.Url).mpr h
      simp only [h', if_true, ih, dedupByUrlAux, h]
    · have h' : ¬ (shared.any (fun sharedDS => sharedDS.Url == d.Url) = true) :=
        fun hc => h ((any_url_iff shared d.Url).mp hc)
      simp only [h', if_false, ih, dedupByUrlAux, h]
      simp

theorem mergeDatastores_append (shared a b : List DatastoreInfo) :
    mergeDatastores shared (a ++ b) = mergeDatastores (mergeDatastores shared a) b := by
  simp [mergeDatastores, List.foldl_append]

theorem mergeDatastores_nil (shared : List DatastoreInfo) : mergeDatastores shared [] = shared :=
  rfl

theorem dedupByUrlAux_not_seen (seen : List String) (dss : List DatastoreInfo) :
    ∀ d ∈ dedupByUrlAux seen dss, d.Url ∉ seen := by
  induction dss generalizing seen with
  | nil => simp [dedupByUrlAux]
  | cons x rest ih =>
    intro d hd
    by_cases hx : x.Url ∈ seen
    · simp only [dedupByUrlAux, hx, if_true] at hd
      exact ih seen d hd
    · simp only [dedupByUrlAux, hx, if_false, List.mem_cons] at hd
      rcases hd with e | hd
      · rw [e]; exact hx
      · have := ih (seen ++ [x.Url]) d hd
        exact fun hc => this (List.mem_append_left _ hc)

theorem dedupByUrlAux_nodup (seen : List String) (dss : List DatastoreInfo) :
    ((dedupByUrlAux seen dss).map (fun d => d.Url)).Nodup := by
  induction dss generalizing seen with
  | nil => simp [dedupByUrlAux]
  | cons x rest ih =>
    by_cases hx : x.Url ∈ seen
    · simp only [dedupByUrlAux, hx, if_true]
      exact ih seen
    · simp only [dedupByUrlAux, hx, if_false, List.map_cons, List.nodup_cons]
      refine ⟨?_, ih _⟩
      intro hc
      obtain ⟨d, hd, he⟩ := List.mem_map.mp hc
      have := dedupByUrlAux_not_seen (seen ++ [x.Url]) rest d hd
      rw [he] at this
      exact this (by simp)

theorem dedupByUrlAux_sublist (seen : List String) (dss : List DatastoreInfo) :
    (dedupByUrlAux seen dss).Sublist dss := by
  induction dss generalizing seen with
  | nil => simp [dedupByUrlAux]
  | cons x rest ih =>
    by_cases hx : x.Url ∈ seen
    · simp only [dedupByUrlAux, hx, if_true]
      exact (ih seen).cons x
    · simp only [dedupByUrlAux, hx, if_false]
      exact (ih _).cons₂ x

/-- The entries of a URL in the deduplicated list: the first-seen entry alone. -/
theorem dedupByUrlAux_filter (seen : List String) (dss : List DatastoreInfo) (u : String)
    (hu : u ∉ seen) :
    (dedupByUrlAux seen dss).filter (fun d => d.Url == u)
      = (dss.find? (fun d => d.Url == u)).toList := by
  induction dss generalizing seen with
  | nil => simp [dedupByUrlAux]
  | cons x rest ih =>
    by_cases hx : x.Url ∈ seen
    · have hb : (x.Url == u) = false := by
        simp only [beq_eq_false_iff_ne, ne_eq]
        exact fun e => hu (e ▸ hx)
      simp only [dedupByUrlAux, hx, if_true, List.find?_cons, hb]
      exact ih seen hu
    · simp only [dedupByUrlAux, hx, if_false]
      by_cases hxu : x.Url = u
      · have hnone : (dedupByUrlAux (seen ++ [x.Url]) rest).filter (fun d => d.Url == u) = [] := by
          rw [List.filter_eq_nil_iff]
          intro d hd
          have := dedupByUrlAux_not_seen (seen ++ [x.Url]) rest d hd
          simp only [beq_iff_eq]
          intro e
          exact this (by simp [e, hxu])
        have hb : (x.Url == u) = true := by simp [hxu]
        simp only [List.filter_cons, List.find?_cons, hb, if_true, hnone, Option.toList]
      · have hu' : u ∉ seen ++ [x.Url] := by
          simp only [List.mem_append, List.mem_singleton, not_or]
          exact ⟨hu, fun e => hxu e.symm⟩
        have hb : (x.Url == u) = false := by simp [hxu]
        simp only [List.filter_cons, hb, List.find?_cons]
        simpa using ih (seen ++ [x.Url]) hu'

theorem mergeDatastores_nil_left (dss : List DatastoreInfo) :
    mergeDatastores [] dss = dedupByUrl dss := by
  rw [mergeDatastores_eq]
  simp [dedupByUrl]

/-! ## Lemmas on the loop of `GetSharedDatastores` -/

theorem sharedStep_eq (co : PlacementCollaborators) (pm : PreferredDatastoresMapT)
    (policy : String) (vc : VirtualCenter) (flag pref : Bool) (shared : List DatastoreInfo)
    (s : Segments) :
    sharedStep co pm policy vc flag pref shared s
      = match candidatesOf co pm policy vc flag pref s with
        | .error e => .error e
        | .ok cands => .ok (mergeDatastores shared cands) := by
  unfold sharedStep candidatesOf
  rcases hm : getTopologySegmentsWithMatchingNodes co.instances s co.nodeMgr flag with
    ⟨nodes, complete, err⟩
  cases err with
  | some e => cases nodes <;> rfl
  | none =>
    cases nodes with
    | nil => simp [mergeDatastores]
    | cons vm vms =>
      simp only [List.length_cons, Nat.add_one_ne_zero, if_false]
      cases co.GetSharedDatastoresForVMs (vm :: vms) with
      | error c => rfl
      | ok acc =>
        simp only
        cases policyStep vc policy acc with
        | error e => rfl
        | ok compatible => rfl

theorem sharedLoop_eq (co : PlacementCollaborators) (pm : PreferredDatastoresMapT)
    (policy : String) (vc : VirtualCenter) (flag pref : Bool) (l : List Segments)
    (shared : List DatastoreInfo) :
    sharedLoop co pm policy vc flag pref l shared
      = match allCandidates co pm policy vc flag pref l with
        | .error e => ([], some e)
        | .ok cands => (mergeDatastores shared cands, none) := by
  induction l generalizing shared with
  | nil => simp [sharedLoop, allCandidates, mergeDatastores]
  | cons s rest ih =>
    unfold sharedLoop allCandidates
    rw [sharedStep_eq]
    cases candidatesOf co pm policy vc flag pref s with
    | error e => rfl
    | ok cands =>
      simp only
      rw [ih]
      cases allCandidates co pm policy vc flag pref rest with
      | error e => rfl
      | ok more => simp [mergeDatastores_append]

theorem allCandidates_append (co : PlacementCollaborators) (pm : PreferredDatastoresMapT)
    (policy : String) (vc : VirtualCenter) (flag pref : Bool) (l1 l2 : List Segments) :
    allCandidates co pm policy vc flag pref (l1 ++ l2)
      = match allCandidates co pm policy vc flag pref l1 with
        | .error e => .error e
        | .ok c1 =>
          match allCandidates co pm policy vc flag pref l2 with
          | .error e => .error e
          | .ok c2 => .ok (c1 ++ c2) := by
  induction l1 with
  | nil =>
    simp only [List.nil_append, allCandidates]
    cases allCandidates co pm policy vc flag pref l2 <;> simp
  | cons s rest ih =>
    rw [List.cons_append]
    simp only [allCandidates]
    rw [ih]
    cases candidatesOf co pm policy vc flag pref s with
    | error e => rfl
    | ok cands =>
      simp only
      cases allCandidates co pm policy vc flag pref rest with
      | error e => rfl
      | ok c1 =>
        simp only
        cases allCandidates co pm policy vc flag pref l2 with
        | error e => rfl
        | ok c2 => simp

theorem mem_foldl_setInsert (l acc : List String) (x : String) :
    x ∈ l.foldl setInsert acc ↔ x ∈ acc ∨ x ∈ l := by
  induction l generalizing acc with
  | nil => simp
  | cons a rest ih =>
    rw [List.foldl_cons, ih]
    unfold setInsert
    split
    · rename_i h
      constructor
      · rintro (h1 | h1)
        · exact Or.inl h1
        · exact Or.inr (List.mem_cons_of_mem _ h1)
      · rintro (h1 | h1)
        · exact Or.inl h1
        · rcases List.mem_cons.mp h1 with e | h2
          · subst e; exact Or.inl h
          · exact Or.inr h2
    · simp only [List.mem_append, List.mem_singleton, List.mem_cons]
      tauto

theorem GetSharedDatastores_eq (co : PlacementCollaborators) (pm : PreferredDatastoresMapT)
    (l : List Segments) (policy : String) (vc : VirtualCenter) (flag pref : Bool) :
    GetSharedDatastores co pm l policy vc flag pref
      = match allCandidates co pm policy vc flag pref l with
        | .error e => ([], some e)
        | .ok cands => (dedupByUrl cands, none) := by
  unfold GetSharedDatastores
  rw [sharedLoop_eq]
  cases allCandidates co pm policy vc flag pref l with
  | error e => rfl
  | ok cands => simp [mergeDatastores_nil_left]

theorem allCandidates_of_ok (co : PlacementCollaborators) (pm : PreferredDatastoresMapT)
    (l : List Segments) (policy : String) (vc : VirtualCenter) (flag pref : Bool)
    (shared : List DatastoreInfo)
    (h : GetSharedDatastores co pm l policy vc flag pref = (shared, none)) :
    ∃ cands, allCandidates co pm policy vc flag pref l = .ok cands ∧ shared = dedupByUrl cands := by
  rw [GetSharedDatastores_eq] at h
  cases hc : allCandidates co pm policy vc flag pref l with
  | error e => simp [hc] at h
  | ok cands =>
    simp only [hc, Prod.mk.injEq, and_true] at h
    exact ⟨cands, rfl, h.symm⟩

theorem GetSharedDatastores_error_at (co : PlacementCollaborators) (pm : PreferredDatastoresMapT)
    (pre post : List Segments) (s : Segments) (policy : String) (vc : VirtualCenter)
    (flag pref : Bool) (shared : List DatastoreInfo) (e : PlacementError)
    (hpre : GetSharedDatastores co pm pre policy vc flag pref = (shared, none))
    (hs : candidatesOf co pm policy vc flag pref s = .error e) :
    GetSharedDatastores co pm (pre ++ s :: post) policy vc flag pref = ([], some e) := by
  obtain ⟨cands, hc, _⟩ := allCandidates_of_ok co pm pre policy vc flag pref shared hpre
  rw [GetSharedDatastores_eq, allCandidates_append, hc]
  simp [allCandidates, hs]

theorem candidatesOf_matcher_error (co : PlacementCollaborators) (pm : PreferredDatastoresMapT)
    (policy : String) (vc : VirtualCenter) (flag pref : Bool) (s : Segments) (e : PlacementError)
    (h : (getTopologySegmentsWithMatchingNodes co.instances s co.nodeMgr flag).2.2 = some e) :
    candidatesOf co pm policy vc flag pref s = .error e := by
  unfold candidatesOf
  rcases hm : getTopologySegmentsWithMatchingNodes co.instances s co.nodeMgr flag with
    ⟨nodes, complete, err⟩
  rw [hm] at h
  simp only at h
  subst h
  cases nodes <;> rfl

theorem candidatesOf_zeroMatch (co : PlacementCollaborators) (pm : PreferredDatastoresMapT)
    (policy : String) (vc : VirtualCenter) (flag pref : Bool) (s : Segments)
    (h : ZeroMatch co flag s) : candidatesOf co pm policy vc flag pref s = .ok [] := by
  unfold candidatesOf
  unfold ZeroMatch at h
  rcases hm : getTopologySegmentsWithMatchingNodes co.instances s co.nodeMgr flag with
    ⟨nodes, complete, err⟩
  rw [hm] at h
  simp only at h
  obtain ⟨h1, h2⟩ := h
  subst h1; subst h2
  rfl

theorem candidatesOf_matched (co : PlacementCollaborators) (pm : PreferredDatastoresMapT)
    (policy : String) (vc : VirtualCenter) (flag pref : Bool) (s : Segments)
    (nodes : List VirtualMachine) (complete : List Segments)
    (hm : getTopologySegmentsWithMatchingNodes co.instances s co.nodeMgr flag
      = (nodes, complete, none))
    (hn : nodes ≠ []) :
    candidatesOf co pm policy vc flag pref s
      = match co.GetSharedDatastoresForVMs nodes with
        | .error cause => .error (.sharedDatastoresForVMs cause)
        | .ok accessible =>
          match policyStep vc policy accessible with
          | .error e => .error e
          | .ok compatible => .ok (preferenceStep pref pm complete compatible) := by
  unfold candidatesOf
  rw [hm]
  cases nodes with
  | nil => exact absurd rfl hn
  | cons vm vms => rfl

theorem policyStep_checked (vc : VirtualCenter) (policy : String)
    (accessible : List DatastoreInfo) (compat : List String) (hp : policy ≠ "")
    (hpbm : vc.PbmCheckCompatibility (accessible.map (fun ds => ds.Reference)) policy
      = .ok compat) :
    policyStep vc policy accessible
      = if accessible.filter (fun ds => decide (ds.Reference.Value ∈ compat)) = [] then
          .error (.noCompatibleDatastores policy)
        else .ok (accessible.filter (fun ds => decide (ds.Reference.Value ∈ compat))) := by
  unfold policyStep
  have hf : accessible.filter (fun ds => decide (ds.Reference.Value ∈ compat.foldl setInsert []))
      = accessible.filter (fun ds => decide (ds.Reference.Value ∈ compat)) := by
    apply List.filter_congr
    intro d _
    simp [mem_foldl_setInsert]
  simp only [hp, ne_eq, not_false_eq_true, if_true, hpbm, hf, List.length_eq_zero]

theorem preferenceStep_disabled (pm : PreferredDatastoresMapT) (complete : List Segments)
    (dss : List DatastoreInfo) : preferenceStep false pm complete dss = dss := by
  simp [preferenceStep]

/-! ## Lemmas on the preferred datastores of topology segments -/

theorem mem_foldl_preferred (pm : PreferredDatastoresMapT) (segs : Segments)
    (acc : List String) (x : String) :
    x ∈ segs.foldl (fun allPreferredDSURLs p =>
        match mapGet pm p.2 with
        | some preferredDS => preferredDS.foldl setInsert allPreferredDSURLs
        | none => allPreferredDSURLs) acc
      ↔ x ∈ acc ∨ ∃ p ∈ segs, x ∈ (mapGet pm p.2).getD [] := by
  induction segs generalizing acc with
  | nil => simp
  | cons q rest ih =>
    rw [List.foldl_cons, ih]
    cases hg : mapGet pm q.2 with
    | none =>
      simp only [List.mem_cons, exists_eq_or_imp, hg, Option.getD_none, List.not_mem_nil,
        false_or]
    | some urls =>
      simp only [mem_foldl_setInsert, List.mem_cons, exists_eq_or_imp, hg, Option.getD_some]
      tauto

theorem mem_GetPreferredDatastoresInSegments (pm : PreferredDatastoresMapT) (segs : Segments)
    (x : String) :
    x ∈ GetPreferredDatastoresInSegments pm segs ↔ ∃ p ∈ segs, x ∈ (mapGet pm p.2).getD [] := by
  unfold GetPreferredDatastoresInSegments
  split
  · rename_i h
    have hnil : pm = [] := List.length_eq_zero.mp h
    subst hnil
    simp [mapGet]
  · rw [mem_foldl_preferred]
    simp

theorem mem_allPreferred (pm : PreferredDatastoresMapT) (complete : List Segments)
    (acc : List String) (x : String) :
    x ∈ complete.foldl (fun all topoSegs =>
        (GetPreferredDatastoresInSegments pm topoSegs).foldl setInsert all) acc
      ↔ x ∈ acc ∨ PreferredIn pm complete x := by
  unfold PreferredIn
  induction complete generalizing acc with
  | nil => simp
  | cons ts rest ih =>
    rw [List.foldl_cons, ih, mem_foldl_setInsert, mem_GetPreferredDatastoresInSegments]
    simp only [List.mem_cons, exists_eq_or_imp]
    exact or_assoc

theorem preferenceStep_enabled (pm : PreferredDatastoresMapT) (hpm : pm ≠ [])
    (complete : List Segments) (dss : List DatastoreInfo) :
    preferenceStep true pm complete dss
      = if dss.filter (fun d => decide (PreferredIn pm complete d.Url)) = [] then dss
        else dss.filter (fun d => decide (PreferredIn pm complete d.Url)) := by
  unfold preferenceStep
  have hlen : pm.length ≠ 0 := fun h => hpm (List.length_eq_zero.mp h)
  have hf : dss.filter (fun dsInfo => decide (dsInfo.Url ∈ complete.foldl (fun all topoSegs =>
        (GetPreferredDatastoresInSegments pm topoSegs).foldl setInsert all) []))
      = dss.filter (fun d => decide (PreferredIn pm complete d.Url)) := by
    apply List.filter_congr
    intro d _
    simp [mem_allPreferred]
  simp only [hlen, ne_eq, not_false_eq_true, and_self, if_true, hf, List.length_eq_zero]
  by_cases hall : complete.foldl (fun all topoSegs =>
        (GetPreferredDatastoresInSegments pm topoSegs).foldl setInsert all) [] = []
  · have hnone : dss.filter (fun d => decide (PreferredIn pm complete d.Url)) = [] := by
      rw [List.filter_eq_nil_iff]
      intro d _
      simp only [decide_eq_true_eq]
      intro hp
      have := (mem_allPreferred pm complete [] d.Url).mpr (Or.inr hp)
      rw [hall] at this
      simp at this
    simp [hall, hnone]
  · simp only [hall, not_false_eq_true, if_true]
    by_cases hfl : dss.filter (fun d => decide (PreferredIn pm complete d.Url)) = []
    · simp [hfl]
    · simp [hfl]

/-! ## Theorems on `GetSharedDatastores` -/

/-- C12: whatever the collaborators answer, a successful result of
`GetSharedDatastores` has no two datastores with the same URL, is a sub-list of
the candidates of the segment sets taken in order, and for every candidate
holds exactly one entry with the URL of the candidate: the first-seen one. -/
theorem GetSharedDatastores_dedup (co : PlacementCollaborators) (pm : PreferredDatastoresMapT)
    (l : List Segments) (policy : String) (vc : VirtualCenter) (flag pref : Bool)
    (shared : List DatastoreInfo)
    (h : GetSharedDatastores co pm l policy vc flag pref = (shared, none)) :
    ∃ cands, allCandidates co pm policy vc flag pref l = .ok cands ∧
      (shared.map (fun d => d.Url)).Nodup ∧
      shared.Sublist cands ∧
      ∀ c ∈ cands, shared.filter (fun d => d.Url == c.Url)
        = (cands.find? (fun d => d.Url == c.Url)).toList := by
  obtain ⟨cands, hc, hs⟩ := allCandidates_of_ok co pm l policy vc flag pref shared h
  subst hs
  exact ⟨cands, hc, dedupByUrlAux_nodup [] cands, dedupByUrlAux_sublist [] cands,
    fun c _ => dedupByUrlAux_filter [] cands c.Url (by simp)⟩

/-- Witness of C12: the sets `zone = z1` and `region = r1` overlap; the URL
`ds:///a` comes first as `A` and then as a second entry, `ds:///b` twice. -/
theorem GetSharedDatastores_dedup_witness :
    GetSharedDatastores exampleCollaborators [] [[("zone", "z1")], [("region", "r1")]] ""
        exampleVC true false = ([dsA, dsB], none) ∧
      ∃ cands, allCandidates exampleCollaborators [] "" exampleVC true false
          [[("zone", "z1")], [("region", "r1")]] = .ok cands ∧
        ([dsA, dsB].map (fun d => d.Url)).Nodup :=
  ⟨by decide,
    let ⟨cands, h1, h2, _⟩ := GetSharedDatastores_dedup exampleCollaborators []
      [[("zone", "z1")], [("region", "r1")]] "" exampleVC true false [dsA, dsB] (by decide)
    ⟨cands, h1, h2⟩⟩

/-- C13: for a single segment set with at least one matched node, a non-empty
storage policy and preference filtering disabled, the datastores returned by
`GetSharedDatastores` are the accessible datastores, in oracle order and
deduplicated by URL, whose reference value is among the hub ids the policy
oracle reports compatible; the error is nil when there is such a datastore. -/
theorem GetSharedDatastores_policy_filter (co : PlacementCollaborators)
    (pm : PreferredDatastoresMapT) (s : Segments) (policy : String) (vc : VirtualCenter)
    (flag : Bool) (nodes : List VirtualMachine) (complete : List Segments)
    (accessible : List DatastoreInfo) (compat : List String)
    (hm : getTopologySegmentsWithMatchingNodes co.instances s co.nodeMgr flag
      = (nodes, complete, none))
    (hn : nodes ≠ []) (hp : policy ≠ "")
    (hacc : co.GetSharedDatastoresForVMs nodes = .ok accessible)
    (hpbm : vc.PbmCheckCompatibility (accessible.map (fun ds => ds.Reference)) policy
      = .ok compat) :
    (GetSharedDatastores co pm [s] policy vc flag false).1
        = dedupByUrl (accessible.filter (fun ds => decide (ds.Reference.Value ∈ compat))) ∧
      (accessible.filter (fun ds => decide (ds.Reference.Value ∈ compat)) ≠ [] →
        (GetSharedDatastores co pm [s] policy vc flag false).2 = none) := by
  rw [GetSharedDatastores_eq]
  simp only [allCandidates]
  rw [candidatesOf_matched co pm policy vc flag false s nodes complete hm hn, hacc]
  simp only
  rw [policyStep_checked vc policy accessible compat hp hpbm]
  by_cases hf : accessible.filter (fun ds => decide (ds.Reference.Value ∈ compat)) = []
  · simp [hf, dedupByUrl, dedupByUrlAux]
  · simp [hf, preferenceStep_disabled]

/-- Witness of C13, the scenario of the specification: accessible `A`, `B`,
compatible `A` only, result `A`. -/
theorem GetSharedDatastores_policy_filter_witness :
    (GetSharedDatastores exampleCollaborators [] [[("zone", "z1")]] "policy-A" exampleVC
        true false).1 = dedupByUrl ([dsA, dsB].filter
          (fun ds => decide (ds.Reference.Value ∈ ["datastore-1"]))) ∧
      dedupByUrl ([dsA, dsB].filter
          (fun ds => decide (ds.Reference.Value ∈ ["datastore-1"]))) = [dsA] :=
  ⟨(GetSharedDatastores_policy_filter exampleCollaborators [] [("zone", "z1")] "policy-A"
      exampleVC true
      [{ UUID := "uuid-1", VirtualCenterHost := "vc-a" },
        { UUID := "uuid-2", VirtualCenterHost := "vc-a" }]
      [[("zone", "z1")], [("region", "r1"), ("zone", "z1")]] [dsA, dsB] ["datastore-1"]
      (by decide) (by decide) (by decide) rfl rfl).1, by decide⟩

/-- C14: with a non-empty storage policy, if a segment set is reached (the sets
before it went through without error), has at least one matched node and none
of its accessible datastores is reported compatible, `GetSharedDatastores`
returns a nil list and the incompatibility error, whatever the earlier sets
had contributed and whatever follows. -/
theorem GetSharedDatastores_policy_fatal (co : PlacementCollaborators)
    (pm : PreferredDatastoresMapT) (pre post : List Segments) (s : Segments) (policy : String)
    (vc : VirtualCenter) (flag pref : Bool) (shared : List DatastoreInfo)
    (nodes : List VirtualMachine) (complete : List Segments)
    (accessible : List DatastoreInfo) (compat : List String)
    (hpre : GetSharedDatastores co pm pre policy vc flag pref = (shared, none))
    (hm : getTopologySegmentsWithMatchingNodes co.instances s co.nodeMgr flag
      = (nodes, complete, none))
    (hn : nodes ≠ []) (hp : policy ≠ "")
    (hacc : co.GetSharedDatastoresForVMs nodes = .ok accessible)
    (hpbm : vc.PbmCheckCompatibility (accessible.map (fun ds => ds.Reference)) policy
      = .ok compat)
    (hnone : ∀ ds ∈ accessible, ds.Reference.Value ∉ compat) :
    GetSharedDatastores co pm (pre ++ s :: post) policy vc flag pref
      = ([], some (.noCompatibleDatastores policy)) := by
  apply GetSharedDatastores_error_at co pm pre post s policy vc flag pref shared _ hpre
  rw [candidatesOf_matched co pm policy vc flag pref s nodes complete hm hn, hacc]
  simp only
  rw [policyStep_checked vc policy accessible compat hp hpbm]
  have hf : accessible.filter (fun ds => decide (ds.Reference.Value ∈ compat)) = [] := by
    rw [List.filter_eq_nil_iff]
    intro d hd
    simpa using hnone d hd
  simp [hf]

/-- Witness of C14: under `policy-A` the set `zone = z1` contributes `A`; the
next set `region = r1` sees only the second entry of `ds:///a` and `B`, none of
them compatible, and the call fails with a nil list. -/
theorem GetSharedDatastores_policy_fatal_witness :
    GetSharedDatastores exampleCollaborators [] [[("zone", "z1")]] "policy-A" exampleVC
        true false = ([dsA], none) ∧
      GetSharedDatastores exampleCollaborators []
        ([[("zone", "z1")]] ++ [("region", "r1")] :: [[("zone", "z1")]]) "policy-A" exampleVC
        true false = ([], some (.noCompatibleDatastores "policy-A")) :=
  ⟨by decide,
    GetSharedDatastores_policy_fatal exampleCollaborators [] [[("zone", "z1")]]
      [[("zone", "z1")]] [("region", "r1")] "policy-A" exampleVC true false [dsA]
      [{ UUID := "uuid-2", VirtualCenterHost := "vc-a" }] [[("region", "r1"), ("zone", "z1")]]
      [dsACopy, dsB] ["datastore-1"] (by decide) (by decide) (by decide) (by decide) rfl rfl
      (by decide)⟩

/-- C15: with preference filtering enabled and a non-empty preference cache, in
an iteration for a segment set with matched nodes whose accessible datastores
passed the storage policy block as `compatible`, the candidates merged into the
result are those of `compatible` whose URL is cached under a label value of a
complete topology segment discovered by the matcher when there is such a
candidate, and all of `compatible` otherwise; a non-empty candidate list is
never emptied by the step. -/
theorem GetSharedDatastores_preference_advisory (co : PlacementCollaborators)
    (pm : PreferredDatastoresMapT) (s : Segments) (policy : String) (vc : VirtualCenter)
    (flag : Bool) (shared : List DatastoreInfo) (nodes : List VirtualMachine)
    (complete : List Segments) (accessible compatible : List DatastoreInfo)
    (hpm : pm ≠ [])
    (hm : getTopologySegmentsWithMatchingNodes co.instances s co.nodeMgr flag
      = (nodes, complete, none))
    (hn : nodes ≠ [])
    (hacc : co.GetSharedDatastoresForVMs nodes = .ok accessible)
    (hpol : policyStep vc policy accessible = .ok compatible) :
    sharedStep co pm policy vc flag true shared s
        = .ok (mergeDatastores shared
            (if compatible.filter (fun d => decide (PreferredIn pm complete d.Url)) = [] then
              compatible
            else compatible.filter (fun d => decide (PreferredIn pm complete d.Url)))) ∧
      (compatible ≠ [] → preferenceStep true pm complete compatible ≠ []) := by
  refine ⟨?_, ?_⟩
  · rw [sharedStep_eq, candidatesOf_matched co pm policy vc flag true s nodes complete hm hn,
      hacc]
    simp only [hpol]
    rw [preferenceStep_enabled pm hpm]
  · intro hne
    rw [preferenceStep_enabled pm hpm]
    split
    · exact hne
    · rename_i h; exact h

/-- Witness of C15, the scenarios of the specification: with the cache
`z1 -> ds:///b` the candidates `A`, `B` become `B`; with the cache
`z1 -> ds:///c` they stay `A`, `B`. -/
theorem GetSharedDatastores_preference_advisory_witness :
    sharedStep exampleCollaborators [("z1", ["ds:///b"])] "" exampleVC true true []
        [("zone", "z1")] = .ok [dsB] ∧
      sharedStep exampleCollaborators [("z1", ["ds:///c"])] "" exampleVC true true []
        [("zone", "z1")] = .ok [dsA, dsB] := by
  have h1 := (GetSharedDatastores_preference_advisory exampleCollaborators
    [("z1", ["ds:///b"])] [("zone", "z1")] "" exampleVC true []
    [{ UUID := "uuid-1", VirtualCenterHost := "vc-a" },
      { UUID := "uuid-2", VirtualCenterHost := "vc-a" }]
    [[("zone", "z1")], [("region", "r1"), ("zone", "z1")]] [dsA, dsB] [dsA, dsB]
    (by decide) (by decide) (by decide) rfl rfl).1
  have h2 := (GetSharedDatastores_preference_advisory exampleCollaborators
    [("z1", ["ds:///c"])] [("zone", "z1")] "" exampleVC true []
    [{ UUID := "uuid-1", VirtualCenterHost := "vc-a" },
      { UUID := "uuid-2", VirtualCenterHost := "vc-a" }]
    [[("zone", "z1")], [("region", "r1"), ("zone", "z1")]] [dsA, dsB] [dsA, dsB]
    (by decide) (by decide) (by decide) rfl rfl).1
  exact ⟨h1.trans (congrArg Except.ok (by decide)), h2.trans (congrArg Except.ok (by decide))⟩

theorem allCandidates_filter_zeroMatch (co : PlacementCollaborators)
    (pm : PreferredDatastoresMapT) (policy : String) (vc : VirtualCenter) (flag pref : Bool)
    (l : List Segments) :
    allCandidates co pm policy vc flag pref (l.filter (fun s => decide (¬ ZeroMatch co flag s)))
      = allCandidates co pm policy vc flag pref l := by
  induction l with
  | nil => rfl
  | cons s rest ih =>
    by_cases hz : ZeroMatch co flag s
    · simp only [List.filter_cons, hz, not_true_eq_false, decide_False, Bool.false_eq_true,
        if_false, ih, allCandidates, candidatesOf_zeroMatch co pm policy vc flag pref s hz]
      cases allCandidates co pm policy vc flag pref rest <;> simp
    · simp only [List.filter_cons, hz, not_false_eq_true, decide_True, if_true, allCandidates,
        ih]

theorem allCandidates_all_zeroMatch (co : PlacementCollaborators)
    (pm : PreferredDatastoresMapT) (policy : String) (vc : VirtualCenter) (flag pref : Bool)
    (l : List Segments) (h : ∀ s ∈ l, ZeroMatch co flag s) :
    allCandidates co pm policy vc flag pref l = .ok [] := by
  induction l with
  | nil => rfl
  | cons s rest ih =>
    simp only [allCandidates,
      candidatesOf_zeroMatch co pm policy vc flag pref s (h s (List.mem_cons_self _ _)),
      ih (fun t ht => h t (List.mem_cons_of_mem _ ht)), List.append_nil]

/-- C16: `GetSharedDatastores` returns on a list of segment sets what it
returns on the list without the sets that match no node; when every set matches
no node (or the list is empty) it returns an empty list and a nil error,
whatever the storage policy; and an iteration for a set that matches no node
leaves `sharedDatastores` as it is whatever the accessible-storage and policy
oracles would answer. -/
theorem GetSharedDatastores_zero_match (co : PlacementCollaborators)
    (pm : PreferredDatastoresMapT) (l : List Segments) (policy : String) (vc : VirtualCenter)
    (flag pref : Bool) :
    GetSharedDatastores co pm l policy vc flag pref
        = GetSharedDatastores co pm (l.filter (fun s => decide (¬ ZeroMatch co flag s)))
            policy vc flag pref ∧
      ((∀ s ∈ l, ZeroMatch co flag s) →
        GetSharedDatastores co pm l policy vc flag pref = ([], none)) ∧
      (∀ (oracle : List VirtualMachine → Except String (List DatastoreInfo))
          (vc1 : VirtualCenter) (shared : List DatastoreInfo) (s : Segments),
        ZeroMatch co flag s →
          sharedStep { co with GetSharedDatastoresForVMs := oracle } pm policy vc1 flag pref
            shared s = .ok shared) := by
  refine ⟨?_, ?_, ?_⟩
  · rw [GetSharedDatastores_eq, GetSharedDatastores_eq, allCandidates_filter_zeroMatch]
  · intro h
    rw [GetSharedDatastores_eq, allCandidates_all_zeroMatch co pm policy vc flag pref l h]
    rfl
  · intro oracle vc1 shared s hz
    rw [sharedStep_eq,
      candidatesOf_zeroMatch { co with GetSharedDatastoresForVMs := oracle } pm policy vc1 flag
        pref s hz]
    rfl

/-- Witness of C16: no node is in zone `z9`; with a storage policy the lone set
`zone = z9` gives an empty list and a nil error, and dropping it from a list
does not change the result. -/
theorem GetSharedDatastores_zero_match_witness :
    GetSharedDatastores exampleCollaborators [] [[("zone", "z9")]] "policy-B" exampleVC
        true false = ([], none) ∧
      GetSharedDatastores exampleCollaborators [] [[("zone", "z9")], [("zone", "z1")]]
        "policy-A" exampleVC true false
        = GetSharedDatastores exampleCollaborators []
            ([[("zone", "z9")], [("zone", "z1")]].filter
              (fun s => decide (¬ ZeroMatch exampleCollaborators true s)))
            "policy-A" exampleVC true false :=
  ⟨(GetSharedDatastores_zero_match exampleCollaborators [] [[("zone", "z9")]] "policy-B"
      exampleVC true false).2.1 (by decide),
    (GetSharedDatastores_zero_match exampleCollaborators [] [[("zone", "z9")], [("zone", "z1")]]
      "policy-A" exampleVC true false).1⟩

/-- C17: `GetSharedDatastores` never returns a non-nil list together with an
error; and at the first segment set where something fails (the sets before it
went through without error), an error of the node matcher, of the
accessible-storage oracle or of the policy oracle makes the call return a nil
list and that error, whatever the earlier sets had accumulated. -/
theorem GetSharedDatastores_fail_fast (co : PlacementCollaborators)
    (pm : PreferredDatastoresMapT) (pre post : List Segments) (s : Segments) (policy : String)
    (vc : VirtualCenter) (flag pref : Bool) (shared : List DatastoreInfo)
    (hpre : GetSharedDatastores co pm pre policy vc flag pref = (shared, none)) :
    (∀ l, (GetSharedDatastores co pm l policy vc flag pref).2 ≠ none →
        (GetSharedDatastores co pm l policy vc flag pref).1 = []) ∧
      (∀ e, (getTopologySegmentsWithMatchingNodes co.instances s co.nodeMgr flag).2.2 = some e →
        GetSharedDatastores co pm (pre ++ s :: post) policy vc flag pref = ([], some e)) ∧
      (∀ nodes complete cause,
        getTopologySegmentsWithMatchingNodes co.instances s co.nodeMgr flag
          = (nodes, complete, none) →
        nodes ≠ [] → co.GetSharedDatastoresForVMs nodes = .error cause →
        GetSharedDatastores co pm (pre ++ s :: post) policy vc flag pref
          = ([], some (.sharedDatastoresForVMs cause))) ∧
      (∀ nodes complete accessible cause,
        getTopologySegmentsWithMatchingNodes co.instances s co.nodeMgr flag
          = (nodes, complete, none) →
        nodes ≠ [] → co.GetSharedDatastoresForVMs nodes = .ok accessible → policy ≠ "" →
        vc.PbmCheckCompatibility (accessible.map (fun ds => ds.Reference)) policy
          = .error cause →
        GetSharedDatastores co pm (pre ++ s :: post) policy vc flag pref
          = ([], some (.pbmCheckFailed policy cause))) := by
  refine ⟨?_, ?_, ?_, ?_⟩
  · intro l h
    rw [GetSharedDatastores_eq] at h ⊢
    cases hc : allCandidates co pm policy vc flag pref l with
    | error e => rfl
    | ok cands => simp [hc] at h
  · intro e he
    exact GetSharedDatastores_error_at co pm pre post s policy vc flag pref shared e hpre
      (candidatesOf_matcher_error co pm policy vc flag pref s e he)
  · intro nodes complete cause hm hn hacc
    apply GetSharedDatastores_error_at co pm pre post s policy vc flag pref shared _ hpre
    rw [candidatesOf_matched co pm policy vc flag pref s nodes complete hm hn, hacc]
  · intro nodes complete accessible cause hm hn hacc hp hpbm
    apply GetSharedDatastores_error_at co pm pre post s policy vc flag pref shared _ hpre
    rw [candidatesOf_matched co pm policy vc flag pref s nodes complete hm hn, hacc]
    simp only [policyStep, hp, ne_eq, not_false_eq_true, if_true, hpbm]

/-- Witness of C17: the set `zone = z1` contributes `A` and `B`; at the next
set the accessible-storage oracle fails, and the call returns a nil list with
that error. -/
theorem GetSharedDatastores_fail_fast_witness :
    GetSharedDatastores exampleCollaboratorsFailing [] [[("zone", "z1")]] "" exampleVC
        true false = ([dsA, dsB], none) ∧
      GetSharedDatastores exampleCollaboratorsFailing []
        ([[("zone", "z1")]] ++ [("region", "r1")] :: []) "" exampleVC true false
        = ([], some (.sharedDatastoresForVMs "no shared datastores")) :=
  ⟨by decide,
    (GetSharedDatastores_fail_fast exampleCollaboratorsFailing [] [[("zone", "z1")]] []
      [("region", "r1")] "" exampleVC true false [dsA, dsB] (by decide)).2.2.1
      [{ UUID := "uuid-2", VirtualCenterHost := "vc-a" }] [[("region", "r1"), ("zone", "z1")]]
      "no shared datastores" (by decide) (by decide) rfl⟩

/-! ## Lemmas on the scan of `RefreshPreferentialDatastores` -/

theorem scanObjectIDs_no_datastore (co : TagCollaborators) (host tagName : String)
    (objs : List ManagedObjectReference) (m : PreferredDatastoresMapT)
    (h : ∀ obj ∈ objs, obj.RefType ≠ "Datastore") :
    scanObjectIDs co host tagName objs m = .ok m := by
  induction objs with
  | nil => rfl
  | cons obj rest ih =>
    have h1 := h obj (List.mem_cons_self _ _)
    simp only [scanObjectIDs, h1, ne_eq, not_false_eq_true, if_true]
    exact ih (fun o ho => h o (List.mem_cons_of_mem _ ho))

theorem scanAttachedObjs_no_datastore (co : TagCollaborators) (host : String)
    (attachedObjs : List AttachedObjects) (m : PreferredDatastoresMapT)
    (h : ∀ attachedObj ∈ attachedObjs, ∀ obj ∈ attachedObj.ObjectIDs,
      obj.RefType ≠ "Datastore") :
    scanAttachedObjs co host attachedObjs m = .ok m := by
  induction attachedObjs with
  | nil => rfl
  | cons a rest ih =>
    simp only [scanAttachedObjs,
      scanObjectIDs_no_datastore co host a.TagName a.ObjectIDs m (h a (List.mem_cons_self _ _))]
    exact ih (fun o ho => h o (List.mem_cons_of_mem _ ho))

theorem scanVCs_nothing_preferred (co : TagCollaborators) (hosts : List String)
    (m : PreferredDatastoresMapT)
    (h : ∀ host ∈ hosts, co.GetVCenterFromVCHost host = .ok () ∧
      co.GetTagManager host = .ok () ∧ NothingPreferredOn co host) :
    scanVCs co hosts m = .returned none ∨ scanVCs co hosts m = .completed m := by
  induction hosts with
  | nil => exact Or.inr rfl
  | cons host rest ih =>
    obtain ⟨h1, h2, h3⟩ := h host (List.mem_cons_self _ _)
    simp only [scanVCs, h1, h2]
    rcases h3 with ⟨cause, hc⟩ | hc | ⟨tagIds, attachedObjs, hc, ha, hno⟩
    · simp [hc]
    · simp [hc]
    · simp only [hc, ha, scanAttachedObjs_no_datastore co host attachedObjs m hno]
      split
      · exact Or.inl rfl
      · exact ih (fun x hx => h x (List.mem_cons_of_mem _ hx))

/-! ## Theorems on `RefreshPreferentialDatastores` -/

/-- C18: when the configuration and every configured vCenter and tag manager
are obtained, and every configured vCenter has nothing to contribute (listing
the tags fails, there is no tag, no tagged object, or only tagged objects that
are not datastores), `RefreshPreferentialDatastores` returns nil and the cache
after the call is the cache before it, whatever that cache held. -/
theorem RefreshPreferentialDatastores_empty_scan (co : TagCollaborators)
    (preferredDatastoresMap : PreferredDatastoresMapT) (hosts : List String)
    (hcfg : co.GetConfig = .ok ()) (hvcs : co.GetVirtualCenterConfigs = .ok hosts)
    (h : ∀ host ∈ hosts, co.GetVCenterFromVCHost host = .ok () ∧
      co.GetTagManager host = .ok () ∧ NothingPreferredOn co host) :
    RefreshPreferentialDatastores co preferredDatastoresMap = (preferredDatastoresMap, none) := by
  unfold RefreshPreferentialDatastores
  simp only [hcfg, hvcs]
  rcases scanVCs_nothing_preferred co hosts [] h with hs | hs
  · simp [hs]
  · simp [hs]

/-- Witness of C18: the only configured vCenter is `vc2`, which has no tag; the
cache `z1 -> ds:///b` is left as it was. -/
theorem RefreshPreferentialDatastores_empty_scan_witness :
    RefreshPreferentialDatastores
        { exampleTagCollaborators with GetVirtualCenterConfigs := .ok ["vc2"] }
        [("z1", ["ds:///b"])] = ([("z1", ["ds:///b"])], none) :=
  RefreshPreferentialDatastores_empty_scan
    { exampleTagCollaborators with GetVirtualCenterConfigs := .ok ["vc2"] }
    [("z1", ["ds:///b"])] ["vc2"] rfl rfl (by
      intro host hh
      simp only [List.mem_singleton] at hh
      subst hh
      exact ⟨rfl, rfl, Or.inr (Or.inl rfl)⟩)

/-- C19: whenever `RefreshPreferentialDatastores` returns a non-nil error, the
cache after the call is the cache before it. -/
theorem RefreshPreferentialDatastores_atomic_on_failure (co : TagCollaborators)
    (preferredDatastoresMap : PreferredDatastoresMapT) (e : PlacementError)
    (h : (RefreshPreferentialDatastores co preferredDatastoresMap).2 = some e) :
    (RefreshPreferentialDatastores co preferredDatastoresMap).1 = preferredDatastoresMap := by
  unfold RefreshPreferentialDatastores at h ⊢
  cases hc : co.GetConfig with
  | error c => rfl
  | ok u =>
    cases hv : co.GetVirtualCenterConfigs with
    | error c => rfl
    | ok hosts =>
      cases hs : scanVCs co hosts [] with
      | returned err => simp only [hs]
      | completed m =>
        simp only [hc, hv, hs] at h
        split at h <;> simp at h

/-- Witness of C19: `vc1` is scanned successfully and yields `z1 -> ds:///a`,
then the vCenter `vc3` is not found; the call returns that error and the cache
`z1 -> ds:///b` is left as it was. -/
theorem RefreshPreferentialDatastores_atomic_on_failure_witness :
    (RefreshPreferentialDatastores
        { exampleTagCollaborators with GetVirtualCenterConfigs := .ok ["vc1", "vc3"] }
        [("z1", ["ds:///b"])]).2 = some (.vCenterInstanceFailed "vc3" "vCenter not registered") ∧
      (RefreshPreferentialDatastores
        { exampleTagCollaborators with GetVirtualCenterConfigs := .ok ["vc1", "vc3"] }
        [("z1", ["ds:///b"])]).1 = [("z1", ["ds:///b"])] :=
  ⟨by decide,
    RefreshPreferentialDatastores_atomic_on_failure
      { exampleTagCollaborators with GetVirtualCenterConfigs := .ok ["vc1", "vc3"] }
      [("z1", ["ds:///b"])] (.vCenterInstanceFailed "vc3" "vCenter not registered")
      (by decide)⟩

/-- C20, the code at the failing input: `vc1` has the datastore at `ds:///a`
under the tag named `z1`, and scanned alone it puts `z1 -> ds:///a` in the
cache; with `vc2`, which has no tag, configured after it or before it, the call
returns nil and leaves the empty cache empty. -/
theorem RefreshPreferentialDatastores_stops_at_untagged_vcenter :
    RefreshPreferentialDatastores
        { exampleTagCollaborators with GetVirtualCenterConfigs := .ok ["vc1"] } []
        = ([("z1", ["ds:///a"])], none) ∧
      RefreshPreferentialDatastores exampleTagCollaborators [] = ([], none) ∧
      RefreshPreferentialDatastores
        { exampleTagCollaborators with GetVirtualCenterConfigs := .ok ["vc2", "vc1"] } []
        = ([], none) := by
  decide

/-! ## The refresh when no vCenter ends the scan early -/

theorem mem_append_url (m : PreferredDatastoresMapT) (t t1 u u1 : String)
    (h : u ∈ (mapGet m t).getD []) :
    u ∈ (mapGet (mapSet m t1 ((mapGet m t1).getD [] ++ [u1])) t).getD [] := by
  rw [mapGet_mapSet]
  by_cases ht : t1 = t
  · subst ht
    simp only [if_true, Option.getD_some, List.mem_append]
    exact Or.inl h
  · simpa [ht] using h

theorem mem_append_url_self (m : PreferredDatastoresMapT) (t u : String) :
    u ∈ (mapGet (mapSet m t ((mapGet m t).getD [] ++ [u])) t).getD [] := by
  rw [mapGet_mapSet]
  simp

theorem scanObjectIDs_ok (co : TagCollaborators) (host tagName : String)
    (objs : List ManagedObjectReference) (m m1 : PreferredDatastoresMapT)
    (h : scanObjectIDs co host tagName objs m = .ok m1) :
    (∀ t u, u ∈ (mapGet m t).getD [] → u ∈ (mapGet m1 t).getD []) ∧
      ∀ obj ∈ objs, obj.RefType = "Datastore" → ∀ url, co.DatastoreUrl host obj = .ok url →
        url ∈ (mapGet m1 tagName).getD [] := by
  induction objs generalizing m with
  | nil =>
    simp only [scanObjectIDs, Except.ok.injEq] at h
    subst h
    exact ⟨fun _ _ hu => hu, by simp⟩
  | cons obj rest ih =>
    unfold scanObjectIDs at h
    by_cases ht : obj.RefType = "Datastore"
    · simp only [ht, ne_eq, not_true_eq_false, if_false] at h
      cases hu : co.DatastoreUrl host obj with
      | error c => simp [hu] at h
      | ok url =>
        simp only [hu] at h
        obtain ⟨h1, h2⟩ := ih _ h
        refine ⟨fun t u hin => h1 t u (mem_append_url m t tagName u url hin), ?_⟩
        intro o ho hto url1 hurl1
        rcases List.mem_cons.mp ho with e | ho'
        · subst e
          rw [hu] at hurl1
          cases hurl1
          exact h1 tagName url (mem_append_url_self m tagName url)
        · exact h2 o ho' hto url1 hurl1
    · simp only [ht, ne_eq, not_false_eq_true, if_true] at h
      obtain ⟨h1, h2⟩ := ih _ h
      refine ⟨h1, ?_⟩
      intro o ho hto url1 hurl1
      rcases List.mem_cons.mp ho with e | ho'
      · subst e; exact absurd hto ht
      · exact h2 o ho' hto url1 hurl1

theorem scanAttachedObjs_ok (co : TagCollaborators) (host : String)
    (attachedObjs : List AttachedObjects) (m m1 : PreferredDatastoresMapT)
    (h : scanAttachedObjs co host attachedObjs m = .ok m1) :
    (∀ t u, u ∈ (mapGet m t).getD [] → u ∈ (mapGet m1 t).getD []) ∧
      ∀ a ∈ attachedObjs, ∀ obj ∈ a.ObjectIDs, obj.RefType = "Datastore" →
        ∀ url, co.DatastoreUrl host obj = .ok url → url ∈ (mapGet m1 a.TagName).getD [] := by
  induction attachedObjs generalizing m with
  | nil =>
    simp only [scanAttachedObjs, Except.ok.injEq] at h
    subst h
    exact ⟨fun _ _ hu => hu, by simp⟩
  | cons a rest ih =>
    unfold scanAttachedObjs at h
    cases hs : scanObjectIDs co host a.TagName a.ObjectIDs m with
    | error e => simp [hs] at h
    | ok m2 =>
      simp only [hs] at h
      obtain ⟨h1, h2⟩ := scanObjectIDs_ok co host a.TagName a.ObjectIDs m m2 hs
      obtain ⟨h3, h4⟩ := ih m2 h
      refine ⟨fun t u hin => h3 t u (h1 t u hin), ?_⟩
      intro b hb obj ho hto url hurl
      rcases List.mem_cons.mp hb with e | hb'
      · subst e
        exact h3 _ _ (h2 obj ho hto url hurl)
      · exact h4 b hb' obj ho hto url hurl

theorem scanVCs_completed (co : TagCollaborators) (hosts : List String)
    (m m1 : PreferredDatastoresMapT) (h : scanVCs co hosts m = .completed m1) :
    (∀ t u, u ∈ (mapGet m t).getD [] → u ∈ (mapGet m1 t).getD []) ∧
      ∀ host ∈ hosts, ∀ tagIds attachedObjs, co.ListTagsForCategory host = .ok tagIds →
        co.GetAttachedObjectsOnTags host tagIds = .ok attachedObjs →
        ∀ a ∈ attachedObjs, ∀ obj ∈ a.ObjectIDs, obj.RefType = "Datastore" →
          ∀ url, co.DatastoreUrl host obj = .ok url → url ∈ (mapGet m1 a.TagName).getD [] := by
  induction hosts generalizing m with
  | nil =>
    simp only [scanVCs, ScanOutcome.completed.injEq] at h
    subst h
    exact ⟨fun _ _ hu => hu, by simp⟩
  | cons host rest ih =>
    unfold scanVCs at h
    cases h1 : co.GetVCenterFromVCHost host with
    | error c => simp [h1] at h
    | ok u1 =>
      cases h2 : co.GetTagManager host with
      | error c => simp [h1, h2] at h
      | ok u2 =>
        cases h3 : co.ListTagsForCategory host with
        | error c => simp [h1, h2, h3] at h
        | ok tagIds =>
          by_cases hlen : tagIds.length = 0
          · simp [h1, h2, h3, hlen] at h
          · cases h4 : co.GetAttachedObjectsOnTags host tagIds with
            | error c => simp [h1, h2, h3, hlen, h4] at h
            | ok attachedObjs =>
              cases h5 : scanAttachedObjs co host attachedObjs m with
              | error e => simp [h1, h2, h3, hlen, h4, h5] at h
              | ok m2 =>
                simp only [h1, h2, h3, hlen, if_false, h4, h5] at h
                obtain ⟨k1, k2⟩ := scanAttachedObjs_ok co host attachedObjs m m2 h5
                obtain ⟨k3, k4⟩ := ih m2 h
                refine ⟨fun t u hin => k3 t u (k1 t u hin), ?_⟩
                intro x hx tagIds1 attached1 ht1 ha1 a ha obj ho hto url hurl
                rcases List.mem_cons.mp hx with e | hx'
                · subst e
                  rw [h3] at ht1
                  cases ht1
                  rw [h4] at ha1
                  cases ha1
                  exact k3 _ _ (k2 a ha obj ho hto url hurl)
                · exact k4 x hx' tagIds1 attached1 ht1 ha1 a ha obj ho hto url hurl

/-- When the loop over the configured vCenters runs to completion (no vCenter
ends it with a `return`), `RefreshPreferentialDatastores` returns nil and the
cache after the call holds, under the name of its tag, the URL of every
datastore carrying a tag of the category on a configured vCenter. -/
theorem RefreshPreferentialDatastores_completed_scan (co : TagCollaborators)
    (preferredDatastoresMap m : PreferredDatastoresMapT) (hosts : List String)
    (hcfg : co.GetConfig = .ok ()) (hvcs : co.GetVirtualCenterConfigs = .ok hosts)
    (hscan : scanVCs co hosts [] = .completed m)
    (host : String) (hhost : host ∈ hosts) (tagIds : List String)
    (attachedObjs : List AttachedObjects) (a : AttachedObjects) (obj : ManagedObjectReference)
    (url : String) (htags : co.ListTagsForCategory host = .ok tagIds)
    (hatt : co.GetAttachedObjectsOnTags host tagIds = .ok attachedObjs)
    (ha : a ∈ attachedObjs) (ho : obj ∈ a.ObjectIDs) (hds : obj.RefType = "Datastore")
    (hurl : co.DatastoreUrl host obj = .ok url) :
    (RefreshPreferentialDatastores co preferredDatastoresMap).2 = none ∧
      url ∈ (mapGet (RefreshPreferentialDatastores co preferredDatastoresMap).1 a.TagName).getD
        [] := by
  have hin := (scanVCs_completed co hosts [] m hscan).2 host hhost tagIds attachedObjs htags hatt
    a ha obj ho hds url hurl
  have hne : m.length ≠ 0 := by
    intro h0
    have : m = [] := List.length_eq_zero.mp h0
    subst this
    simp [mapGet] at hin
  unfold RefreshPreferentialDatastores
  simp only [hcfg, hvcs, hscan, hne, ne_eq, not_false_eq_true, if_true]
  exact ⟨trivial, hin⟩

/-! ## Repetition of alternatives and independence from the cache -/

theorem dedupByUrlAux_append (seen : List String) (a b : List DatastoreInfo) :
    dedupByUrlAux seen (a ++ b)
      = dedupByUrlAux seen a
        ++ dedupByUrlAux (seen ++ (dedupByUrlAux seen a).map (fun d => d.Url)) b := by
  induction a generalizing seen with
  | nil => simp [dedupByUrlAux]
  | cons x rest ih =>
    have hc : (x :: rest) ++ b = x :: (rest ++ b) := rfl
    rw [hc]
    by_cases hx : x.Url ∈ seen
    · simp only [dedupByUrlAux, hx, if_true]
      exact ih seen
    · simp only [dedupByUrlAux, hx, if_false, List.map_cons]
      rw [ih (seen ++ [x.Url])]
      simp

theorem dedupByUrlAux_all_seen (seen : List String) (b : List DatastoreInfo)
    (h : ∀ d ∈ b, d.Url ∈ seen) : dedupByUrlAux seen b = [] := by
  induction b with
  | nil => rfl
  | cons x rest ih =>
    have hx := h x (List.mem_cons_self _ _)
    simp only [dedupByUrlAux, hx, if_true]
    exact ih (fun d hd => h d (List.mem_cons_of_mem _ hd))

theorem dedupByUrlAux_covers (seen : List String) (a : List DatastoreInfo) :
    ∀ d ∈ a, d.Url ∈ seen ++ (dedupByUrlAux seen a).map (fun d => d.Url) := by
  induction a generalizing seen with
  | nil => simp
  | cons x rest ih =>
    intro d hd
    by_cases hx : x.Url ∈ seen
    · simp only [dedupByUrlAux, hx, if_true]
      rcases List.mem_cons.mp hd with e | hd'
      · rw [e]; exact List.mem_append_left _ hx
      · exact ih seen d hd'
    · simp only [dedupByUrlAux, hx, if_false, List.map_cons]
      rcases List.mem_cons.mp hd with e | hd'
      · rw [e]; simp
      · have := ih (seen ++ [x.Url]) d hd'
        simpa [List.append_assoc] using this

theorem dedupByUrl_append_self (a : List DatastoreInfo) :
    dedupByUrl (a ++ a) = dedupByUrl a := by
  unfold dedupByUrl
  rw [dedupByUrlAux_append, dedupByUrlAux_all_seen _ a (dedupByUrlAux_covers [] a)]
  simp

/-- C27: for every list of segment sets, `GetSharedDatastores` on the list
followed by itself returns the same datastore list, in the same order, and the
same error as on the list (collaborators are functions of their arguments and
the preference cache is the same in both calls). -/
theorem GetSharedDatastores_repeat (co : PlacementCollaborators) (pm : PreferredDatastoresMapT)
    (l : List Segments) (policy : String) (vc : VirtualCenter) (flag pref : Bool) :
    GetSharedDatastores co pm (l ++ l) policy vc flag pref
      = GetSharedDatastores co pm l policy vc flag pref := by
  rw [GetSharedDatastores_eq, GetSharedDatastores_eq, allCandidates_append]
  cases allCandidates co pm policy vc flag pref l with
  | error e => rfl
  | ok cands => simp [dedupByUrl_append_self]

theorem candidatesOf_pref_disabled (co : PlacementCollaborators)
    (pm1 pm2 : PreferredDatastoresMapT) (policy : String) (vc : VirtualCenter) (flag : Bool)
    (s : Segments) :
    candidatesOf co pm1 policy vc flag false s = candidatesOf co pm2 policy vc flag false s := by
  unfold candidatesOf
  simp only [preferenceStep_disabled]

theorem allCandidates_pref_disabled (co : PlacementCollaborators)
    (pm1 pm2 : PreferredDatastoresMapT) (policy : String) (vc : VirtualCenter) (flag : Bool)
    (l : List Segments) :
    allCandidates co pm1 policy vc flag false l = allCandidates co pm2 policy vc flag false l := by
  induction l with
  | nil => rfl
  | cons s rest ih =>
    simp only [allCandidates, ih, candidatesOf_pref_disabled co pm1 pm2 policy vc flag s]

theorem policyStep_subset (vc : VirtualCenter) (policy : String)
    (accessible compatible : List DatastoreInfo)
    (h : policyStep vc policy accessible = .ok compatible) : compatible ⊆ accessible := by
  unfold policyStep at h
  split at h
  · cases hp : vc.PbmCheckCompatibility (accessible.map (fun ds => ds.Reference)) policy with
    | error c => simp [hp] at h
    | ok compat =>
      simp only [hp] at h
      split at h
      · simp at h
      · simp only [Except.ok.injEq] at h
        rw [← h]
        exact (List.filter_sublist _).subset
  · simp only [Except.ok.injEq] at h
    rw [← h]
    exact fun _ hd => hd

theorem preferenceStep_subset (pref : Bool) (pm : PreferredDatastoresMapT)
    (complete : List Segments) (dss : List DatastoreInfo) :
    preferenceStep pref pm complete dss ⊆ dss := by
  unfold preferenceStep
  split
  · simp only
    split
    · split
      · exact (List.filter_sublist _).subset
      · exact fun _ hd => hd
    · exact fun _ hd => hd
  · exact fun _ hd => hd

/-- The datastore `d` was returned by the accessible-storage oracle for the
nodes matching the set `s` of topology segments. -/
theorem candidatesOf_accessible (co : PlacementCollaborators) (pm : PreferredDatastoresMapT)
    (policy : String) (vc : VirtualCenter) (flag pref : Bool) (s : Segments)
    (cands : List DatastoreInfo) (h : candidatesOf co pm policy vc flag pref s = .ok cands) :
    ∀ d ∈ cands, ∃ nodes complete accessible,
      getTopologySegmentsWithMatchingNodes co.instances s co.nodeMgr flag
        = (nodes, complete, none) ∧
      co.GetSharedDatastoresForVMs nodes = .ok accessible ∧ d ∈ accessible := by
  unfold candidatesOf at h
  rcases hm : getTopologySegmentsWithMatchingNodes co.instances s co.nodeMgr flag with
    ⟨nodes, complete, err⟩
  rw [hm] at h
  cases err with
  | some e => cases nodes <;> simp at h
  | none =>
    cases nodes with
    | nil =>
      simp only [Except.ok.injEq] at h
      subst h
      simp
    | cons vm vms =>
      simp only at h
      cases ha : co.GetSharedDatastoresForVMs (vm :: vms) with
      | error c => simp [ha] at h
      | ok accessible =>
        simp only [ha] at h
        cases hp : policyStep vc policy accessible with
        | error e => simp [hp] at h
        | ok compatible =>
          simp only [hp, Except.ok.injEq] at h
          intro d hd
          rw [← h] at hd
          exact ⟨vm :: vms, complete, accessible, rfl, ha,
            policyStep_subset vc policy accessible compatible hp
              (preferenceStep_subset pref pm complete compatible hd)⟩

theorem allCandidates_accessible (co : PlacementCollaborators) (pm : PreferredDatastoresMapT)
    (policy : String) (vc : VirtualCenter) (flag pref : Bool) (l : List Segments)
    (cands : List DatastoreInfo) (h : allCandidates co pm policy vc flag pref l = .ok cands) :
    ∀ d ∈ cands, ∃ s ∈ l, ∃ nodes complete accessible,
      getTopologySegmentsWithMatchingNodes co.instances s co.nodeMgr flag
        = (nodes, complete, none) ∧
      co.GetSharedDatastoresForVMs nodes = .ok accessible ∧ d ∈ accessible := by
  induction l generalizing cands with
  | nil =>
    simp only [allCandidates, Except.ok.injEq] at h
    subst h
    simp
  | cons s rest ih =>
    unfold allCandidates at h
    cases hc : candidatesOf co pm policy vc flag pref s with
    | error e => simp [hc] at h
    | ok c1 =>
      simp only [hc] at h
      cases hr : allCandidates co pm policy vc flag pref rest with
      | error e => simp [hr] at h
      | ok c2 =>
        simp only [hr, Except.ok.injEq] at h
        intro d hd
        rw [← h] at hd
        rcases List.mem_append.mp hd with h1 | h2
        · obtain ⟨n, c, a, x1, x2, x3⟩ :=
            candidatesOf_accessible co pm policy vc flag pref s c1 hc d h1
          exact ⟨s, List.mem_cons_self _ _, n, c, a, x1, x2, x3⟩
        · obtain ⟨t, ht, n, c, a, x1, x2, x3⟩ := ih c2 hr d h2
          exact ⟨t, List.mem_cons_of_mem _ ht, n, c, a, x1, x2, x3⟩

/-- C28: with `isTopologyPreferentialDatastoresFSSEnabled` false the result and
the error of `GetSharedDatastores` are the same for any two contents of the
preference cache; and in every mode each returned datastore is one that the
accessible-storage oracle returned for the nodes matching some segment set of
the request. -/
theorem GetSharedDatastores_cache_independent (co : PlacementCollaborators)
    (pm : PreferredDatastoresMapT) (l : List Segments) (policy : String) (vc : VirtualCenter)
    (flag pref : Bool) :
    (∀ pm2 : PreferredDatastoresMapT,
        GetSharedDatastores co pm l policy vc flag false
          = GetSharedDatastores co pm2 l policy vc flag false) ∧
      ∀ d ∈ (GetSharedDatastores co pm l policy vc flag pref).1, ∃ s ∈ l,
        ∃ nodes complete accessible,
          getTopologySegmentsWithMatchingNodes co.instances s co.nodeMgr flag
            = (nodes, complete, none) ∧
          co.GetSharedDatastoresForVMs nodes = .ok accessible ∧ d ∈ accessible := by
  refine ⟨fun pm2 => ?_, ?_⟩
  · rw [GetSharedDatastores_eq, GetSharedDatastores_eq,
      allCandidates_pref_disabled co pm pm2 policy vc flag l]
  · rw [GetSharedDatastores_eq]
    cases hc : allCandidates co pm policy vc flag pref l with
    | error e => simp
    | ok cands =>
      intro d hd
      exact allCandidates_accessible co pm policy vc flag pref l cands hc d
        ((dedupByUrlAux_sublist [] cands).subset hd)

/-- C29: `getVCForTopologySegments` on an empty segment map returns the empty
string and an error for every `TopologyVCMap`, and
`ClubAccessibilityRequirementsByVC` returns a nil map and an error when the
requirement has no preferred topologies (nil list). -/
theorem degenerate_requests_fail (tvm : TopologyVCMapT) :
    getVCForTopologySegments tvm [] = ("", some (.noVCFound [])) ∧
      ClubAccessibilityRequirementsByVC tvm none = (none, some .noPreferredSegments) :=
  ⟨rfl, rfl⟩

/-- Witness of C28: with the flag off, the cache `z1 -> ds:///b` and the empty
cache give the same result. -/
theorem GetSharedDatastores_cache_independent_witness :
    GetSharedDatastores exampleCollaborators [("z1", ["ds:///b"])] [[("zone", "z1")]] ""
        exampleVC true false
      = GetSharedDatastores exampleCollaborators [] [[("zone", "z1")]] "" exampleVC true false :=
  (GetSharedDatastores_cache_independent exampleCollaborators [("z1", ["ds:///b"])]
    [[("zone", "z1")]] "" exampleVC true false).1 []

/-! ## The cache after a refresh and the lookup in it -/

theorem nodup_setInsert (s : List String) (x : String) (h : s.Nodup) : (setInsert s x).Nodup := by
  unfold setInsert
  split
  · exact h
  · rename_i hn
    exact List.Nodup.append h (List.nodup_singleton _) (by simpa using hn)

theorem nodup_foldl_setInsert (l acc : List String) (h : acc.Nodup) :
    (l.foldl setInsert acc).Nodup := by
  induction l generalizing acc with
  | nil => simpa using h
  | cons a rest ih => exact ih _ (nodup_setInsert acc a h)

theorem nodup_GetPreferredDatastoresInSegments (pm : PreferredDatastoresMapT)
    (segs : Segments) : (GetPreferredDatastoresInSegments pm segs).Nodup := by
  unfold GetPreferredDatastoresInSegments
  split
  · simp
  · have key : ∀ acc : List String, acc.Nodup →
        (segs.foldl (fun allPreferredDSURLs p =>
          match mapGet pm p.2 with
          | some preferredDS => preferredDS.foldl setInsert allPreferredDSURLs
          | none => allPreferredDSURLs) acc).Nodup := by
      induction segs with
      | nil => intro acc h; simpa using h
      | cons q rest ih =>
        intro acc h
        rw [List.foldl_cons]
        apply ih
        cases mapGet pm q.2 with
        | none => exact h
        | some urls => exact nodup_foldl_setInsert urls acc h
    exact key [] List.nodup_nil

/-- After a call of `RefreshPreferentialDatastores` whose loop over the
configured vCenters ran to completion and built a non-empty map, the cache is
exactly that map, whatever the cache held before: a tag absent from the built
map is absent from the cache, and the list under every tag is the built one. -/
theorem RefreshPreferentialDatastores_wholesale (co : TagCollaborators)
    (old built : PreferredDatastoresMapT) (hosts : List String)
    (hcfg : co.GetConfig = .ok ()) (hvcs : co.GetVirtualCenterConfigs = .ok hosts)
    (hscan : scanVCs co hosts [] = .completed built) (hne : built ≠ []) :
    RefreshPreferentialDatastores co old = (built, none) ∧
      (∀ tag, mapGet built tag = none →
        mapGet (RefreshPreferentialDatastores co old).1 tag = none) ∧
      (∀ tag, mapGet (RefreshPreferentialDatastores co old).1 tag = mapGet built tag) ∧
      ∀ old2, (RefreshPreferentialDatastores co old2).1 = (RefreshPreferentialDatastores co old).1 := by
  have hlen : built.length ≠ 0 := fun h => hne (List.length_eq_zero.mp h)
  have key : ∀ o, RefreshPreferentialDatastores co o = (built, none) := by
    intro o
    unfold RefreshPreferentialDatastores
    simp only [hcfg, hvcs, hscan, hlen, ne_eq, not_false_eq_true, if_true]
  refine ⟨key old, ?_, ?_, ?_⟩
  · intro tag h
    rw [key old]
    exact h
  · intro tag
    rw [key old]
  · intro old2
    rw [key old, key old2]

/-- An instance of the replacement: the old cache holds `z9 -> ds:///old` and
`z1 -> ds:///b`; the scan of `vc1` builds `z1 -> ds:///a`, which becomes the
cache. -/
theorem RefreshPreferentialDatastores_wholesale_witness :
    RefreshPreferentialDatastores
        { exampleTagCollaborators with GetVirtualCenterConfigs := .ok ["vc1"] }
        [("z9", ["ds:///old"]), ("z1", ["ds:///b"])] = ([("z1", ["ds:///a"])], none) :=
  (RefreshPreferentialDatastores_wholesale
    { exampleTagCollaborators with GetVirtualCenterConfigs := .ok ["vc1"] }
    [("z9", ["ds:///old"]), ("z1", ["ds:///b"])] [("z1", ["ds:///a"])] ["vc1"] rfl rfl
    (by decide) (by decide)).1

/-- C21, the code at the failing input: the old cache holds `z9 -> ds:///old`;
the scan of `vc1` builds the non-empty map `z1 -> ds:///a`; at `vc2`, which has
no tag of the category, the loop is left with a `return` of nil, and the call
leaves the old cache, with its tag `z9` and without the tag `z1`, in place of
the map the scan built. -/
theorem RefreshPreferentialDatastores_built_map_not_written :
    scanVCs exampleTagCollaborators ["vc1"] [] = .completed [("z1", ["ds:///a"])] ∧
      scanVCs exampleTagCollaborators ["vc1", "vc2"] [] = .returned none ∧
      exampleTagCollaborators.GetVirtualCenterConfigs = .ok ["vc1", "vc2"] ∧
      RefreshPreferentialDatastores exampleTagCollaborators [("z9", ["ds:///old"])]
        = ([("z9", ["ds:///old"])], none) ∧
      mapGet (RefreshPreferentialDatastores exampleTagCollaborators
        [("z9", ["ds:///old"])]).1 "z1" = none := by
  refine ⟨by decide, by decide, rfl, by decide, by decide⟩

/-- C22: for every cache content and every segment map,
`GetPreferredDatastoresInSegments` returns a set (no URL twice) whose members
are exactly the URLs cached under some label value of the segment map; label
values that are not cached contribute nothing, so the result is empty when no
label value is cached. The function reads the cache and has no assignment to
it: it is a function of the cache content. -/
theorem GetPreferredDatastoresInSegments_union (pm : PreferredDatastoresMapT)
    (segs : Segments) :
    (∀ url, url ∈ GetPreferredDatastoresInSegments pm segs ↔
        ∃ p ∈ segs, ∃ urls, mapGet pm p.2 = some urls ∧ url ∈ urls) ∧
      (GetPreferredDatastoresInSegments pm segs).Nodup ∧
      ((∀ p ∈ segs, mapGet pm p.2 = none) → GetPreferredDatastoresInSegments pm segs = []) := by
  have hmem : ∀ url, url ∈ GetPreferredDatastoresInSegments pm segs ↔
      ∃ p ∈ segs, ∃ urls, mapGet pm p.2 = some urls ∧ url ∈ urls := by
    intro url
    rw [mem_GetPreferredDatastoresInSegments]
    constructor
    · rintro ⟨p, hp, hu⟩
      cases hg : mapGet pm p.2 with
      | none => simp [hg] at hu
      | some urls => exact ⟨p, hp, urls, hg, by simpa [hg] using hu⟩
    · rintro ⟨p, hp, urls, hg, hu⟩
      exact ⟨p, hp, by simpa [hg] using hu⟩
  refine ⟨hmem, nodup_GetPreferredDatastoresInSegments pm segs, ?_⟩
  intro hnone
  rw [List.eq_nil_iff_forall_not_mem]
  intro url hurl
  obtain ⟨p, hp, urls, hg, _⟩ := (hmem url).mp hurl
  rw [hnone p hp] at hg
  exact Option.noConfusion hg

/-- Witness of C22: the cache holds `z1 -> ds:///a, ds:///b` and
`r1 -> ds:///b`; the segments `zone = z1`, `region = r1`, `rack = k1` give the
two URLs once each. -/
theorem GetPreferredDatastoresInSegments_union_witness :
    GetPreferredDatastoresInSegments [("z1", ["ds:///a", "ds:///b"]), ("r1", ["ds:///b"])]
        [("zone", "z1"), ("region", "r1"), ("rack", "k1")] = ["ds:///a", "ds:///b"] ∧
      GetPreferredDatastoresInSegments [("z1", ["ds:///a", "ds:///b"])] [("rack", "k1")] = [] :=
  ⟨by decide,
    (GetPreferredDatastoresInSegments_union [("z1", ["ds:///a", "ds:///b"])]
      [("rack", "k1")]).2.2 (by decide)⟩

/-! ## Lemmas on the discovery of existing topology labels -/

theorem markTopologyKey_GA (lm : LabelMap) (k : String) :
    (markTopologyKey lm k).GA = true ↔
      lm.GA = true ∨ k = LabelTopologyZone ∨ k = LabelTopologyRegion := by
  unfold markTopologyKey
  by_cases h1 : k = LabelTopologyZone ∨ k = LabelTopologyRegion
  · by_cases h2 : k = LabelFailureDomainBetaZone ∨ k = LabelFailureDomainBetaRegion
    · simp [h1, h2]
    · simp [h1, h2]
  · by_cases h2 : k = LabelFailureDomainBetaZone ∨ k = LabelFailureDomainBetaRegion
    · simp [h1, h2]
    · simp [h1, h2]

theorem markTopologyKey_beta (lm : LabelMap) (k : String) :
    (markTopologyKey lm k).beta = true ↔
      lm.beta = true ∨ k = LabelFailureDomainBetaZone ∨ k = LabelFailureDomainBetaRegion := by
  unfold markTopologyKey
  by_cases h1 : k = LabelTopologyZone ∨ k = LabelTopologyRegion
  · by_cases h2 : k = LabelFailureDomainBetaZone ∨ k = LabelFailureDomainBetaRegion
    · simp [h1, h2]
    · simp [h1, h2]
  · by_cases h2 : k = LabelFailureDomainBetaZone ∨ k = LabelFailureDomainBetaRegion
    · simp [h1, h2]
    · simp [h1, h2]

theorem scanTopologyKeys_GA (lm : LabelMap) (keys : List String) :
    (scanTopologyKeys lm keys).GA = true ↔ lm.GA = true ∨ HasGAKey keys := by
  unfold scanTopologyKeys HasGAKey
  induction keys generalizing lm with
  | nil => simp
  | cons k rest ih =>
    rw [List.foldl_cons, ih, markTopologyKey_GA]
    simp only [List.mem_cons]
    constructor
    · rintro ((h | h | h) | h | h)
      · exact Or.inl h
      · exact Or.inr (Or.inl (Or.inl h.symm))
      · exact Or.inr (Or.inr (Or.inl h.symm))
      · exact Or.inr (Or.inl (Or.inr h))
      · exact Or.inr (Or.inr (Or.inr h))
    · rintro (h | (h | h) | (h | h))
      · exact Or.inl (Or.inl h)
      · exact Or.inl (Or.inr (Or.inl h.symm))
      · exact Or.inr (Or.inl h)
      · exact Or.inl (Or.inr (Or.inr h.symm))
      · exact Or.inr (Or.inr h)

theorem scanTopologyKeys_beta (lm : LabelMap) (keys : List String) :
    (scanTopologyKeys lm keys).beta = true ↔ lm.beta = true ∨ HasBetaKey keys := by
  unfold scanTopologyKeys HasBetaKey
  induction keys generalizing lm with
  | nil => simp
  | cons k rest ih =>
    rw [List.foldl_cons, ih, markTopologyKey_beta]
    simp only [List.mem_cons]
    constructor
    · rintro ((h | h | h) | h | h)
      · exact Or.inl h
      · exact Or.inr (Or.inl (Or.inl h.symm))
      · exact Or.inr (Or.inr (Or.inl h.symm))
      · exact Or.inr (Or.inl (Or.inr h))
      · exact Or.inr (Or.inr (Or.inr h))
    · rintro (h | (h | h) | (h | h))
      · exact Or.inl (Or.inl h)
      · exact Or.inl (Or.inr (Or.inl h.symm))
      · exact Or.inr (Or.inl h)
      · exact Or.inl (Or.inr (Or.inr h.symm))
      · exact Or.inr (Or.inr h)

theorem scanDrivers_eq (lm : LabelMap) (csiNode : CSINode) :
    scanDrivers lm csiNode.Drivers = scanTopologyKeys lm (driverTopologyKeys csiNode) := by
  unfold driverTopologyKeys
  induction csiNode.Drivers with
  | nil => simp [scanDrivers, scanTopologyKeys]
  | cons d rest ih =>
    by_cases hd : d.Name = csitypesName
    · simp [scanDrivers, List.find?_cons, hd]
    · have hb : (d.Name == csitypesName) = false := by simp [hd]
      simp only [scanDrivers, hd, if_false, List.find?_cons, hb]
      exact ih

theorem hasGAKey_append (a b : List String) :
    HasGAKey (a ++ b) ↔ HasGAKey a ∨ HasGAKey b := by
  unfold HasGAKey
  simp only [List.mem_append]
  tauto

theorem hasBetaKey_append (a b : List String) :
    HasBetaKey (a ++ b) ↔ HasBetaKey a ∨ HasBetaKey b := by
  unfold HasBetaKey
  simp only [List.mem_append]
  tauto

theorem scanCSINodes_eq (lm : LabelMap) (l : List CSINode)
    (hlm : ¬ (lm.GA = true ∧ lm.beta = true)) :
    (((lm.GA = true ∨ HasGAKey (allTopologyKeys l)) ∧
        (lm.beta = true ∨ HasBetaKey (allTopologyKeys l))) →
      scanCSINodes lm l = .error .mixedTopologyKeys) ∧
    (¬ ((lm.GA = true ∨ HasGAKey (allTopologyKeys l)) ∧
        (lm.beta = true ∨ HasBetaKey (allTopologyKeys l))) →
      ∃ lm1, scanCSINodes lm l = .ok lm1 ∧
        (lm1.GA = true ↔ lm.GA = true ∨ HasGAKey (allTopologyKeys l)) ∧
        (lm1.beta = true ↔ lm.beta = true ∨ HasBetaKey (allTopologyKeys l))) := by
  induction l generalizing lm with
  | nil =>
    simp only [allTopologyKeys, List.map_nil, List.flatten_nil, HasGAKey, HasBetaKey,
      List.not_mem_nil, or_self, or_false]
    exact ⟨fun h => absurd h hlm, fun _ => ⟨lm, rfl, Iff.rfl, Iff.rfl⟩⟩
  | cons n rest ih =>
    have hkeys : allTopologyKeys (n :: rest) = driverTopologyKeys n ++ allTopologyKeys rest := by
      simp [allTopologyKeys]
    have hg := scanTopologyKeys_GA lm (driverTopologyKeys n)
    have hb := scanTopologyKeys_beta lm (driverTopologyKeys n)
    have eG : ((scanTopologyKeys lm (driverTopologyKeys n)).GA = true ∨
        HasGAKey (allTopologyKeys rest)) ↔
        (lm.GA = true ∨ HasGAKey (allTopologyKeys (n :: rest))) := by
      rw [hkeys, hasGAKey_append, hg, or_assoc]
    have eB : ((scanTopologyKeys lm (driverTopologyKeys n)).beta = true ∨
        HasBetaKey (allTopologyKeys rest)) ↔
        (lm.beta = true ∨ HasBetaKey (allTopologyKeys (n :: rest))) := by
      rw [hkeys, hasBetaKey_append, hb, or_assoc]
    have hstep : scanCSINodes lm (n :: rest)
        = if (scanTopologyKeys lm (driverTopologyKeys n)).GA = true ∧
            (scanTopologyKeys lm (driverTopologyKeys n)).beta = true then
            .error .mixedTopologyKeys
          else scanCSINodes (scanTopologyKeys lm (driverTopologyKeys n)) rest := by
      simp only [scanCSINodes, scanDrivers_eq]
    rw [hstep]
    by_cases hboth : (scanTopologyKeys lm (driverTopologyKeys n)).GA = true ∧
        (scanTopologyKeys lm (driverTopologyKeys n)).beta = true
    · rw [if_pos hboth]
      refine ⟨fun _ => rfl, fun hn => ?_⟩
      exact absurd ⟨eG.mp (Or.inl hboth.1), eB.mp (Or.inl hboth.2)⟩ hn
    · rw [if_neg hboth]
      obtain ⟨i1, i2⟩ := ih (scanTopologyKeys lm (driverTopologyKeys n)) hboth
      rw [eG, eB] at i1 i2
      exact ⟨i1, i2⟩

/-- C26: `findExistingTopologyLabels` returns an error exactly when a standard GA
key and a standard beta key both occur among the topology keys of the vSphere
CSI driver entries of the CSINodes (on one node or across nodes), with two empty
strings; otherwise it returns the GA zone and region labels if a GA key occurs,
the beta zone and region labels if a beta key occurs, and two empty strings if
neither occurs. -/
theorem findExistingTopologyLabels_spec (csiNodeList : List CSINode) :
    ((findExistingTopologyLabels csiNodeList).2.2 ≠ none ↔
        HasGAKey (allTopologyKeys csiNodeList) ∧ HasBetaKey (allTopologyKeys csiNodeList)) ∧
      (HasGAKey (allTopologyKeys csiNodeList) ∧ HasBetaKey (allTopologyKeys csiNodeList) →
        findExistingTopologyLabels csiNodeList = ("", "", some .mixedTopologyKeys)) ∧
      (HasGAKey (allTopologyKeys csiNodeList) ∧ ¬ HasBetaKey (allTopologyKeys csiNodeList) →
        findExistingTopologyLabels csiNodeList
          = (LabelTopologyZone, LabelTopologyRegion, none)) ∧
      (¬ HasGAKey (allTopologyKeys csiNodeList) ∧ HasBetaKey (allTopologyKeys csiNodeList) →
        findExistingTopologyLabels csiNodeList
          = (LabelFailureDomainBetaZone, LabelFailureDomainBetaRegion, none)) ∧
      (¬ HasGAKey (allTopologyKeys csiNodeList) ∧ ¬ HasBetaKey (allTopologyKeys csiNodeList) →
        findExistingTopologyLabels csiNodeList = ("", "", none)) := by
  obtain ⟨herr, hok⟩ := scanCSINodes_eq { beta := false, GA := false } csiNodeList (by simp)
  simp only [Bool.false_eq_true, false_or] at herr hok
  have hmixed : HasGAKey (allTopologyKeys csiNodeList) ∧
      HasBetaKey (allTopologyKeys csiNodeList) →
      findExistingTopologyLabels csiNodeList = ("", "", some .mixedTopologyKeys) := by
    intro h
    simp only [findExistingTopologyLabels, herr h]
  have hrest : ¬ (HasGAKey (allTopologyKeys csiNodeList) ∧
      HasBetaKey (allTopologyKeys csiNodeList)) →
      ∃ lm1 : LabelMap, findExistingTopologyLabels csiNodeList
          = (if lm1.GA = true then (LabelTopologyZone, LabelTopologyRegion, none)
            else if lm1.beta = true then
              (LabelFailureDomainBetaZone, LabelFailureDomainBetaRegion, none)
            else ("", "", none)) ∧
        (lm1.GA = true ↔ HasGAKey (allTopologyKeys csiNodeList)) ∧
        (lm1.beta = true ↔ HasBetaKey (allTopologyKeys csiNodeList)) := by
    intro h
    obtain ⟨lm1, h1, h2, h3⟩ := hok h
    exact ⟨lm1, by simp only [findExistingTopologyLabels, h1], h2, h3⟩
  refine ⟨?_, hmixed, ?_, ?_, ?_⟩
  · constructor
    · intro hne
      by_contra hn
      obtain ⟨lm1, h1, _, _⟩ := hrest hn
      rw [h1] at hne
      split at hne
      · exact hne rfl
      · split at hne <;> exact hne rfl
    · intro h
      rw [hmixed h]
      simp
  · rintro ⟨hga, hnb⟩
    obtain ⟨lm1, h1, h2, _⟩ := hrest (fun hc => hnb hc.2)
    rw [h1, if_pos (h2.mpr hga)]
  · rintro ⟨hng, hb⟩
    obtain ⟨lm1, h1, h2, h3⟩ := hrest (fun hc => hng hc.1)
    rw [h1, if_neg (fun hc => hng (h2.mp hc)), if_pos (h3.mpr hb)]
  · rintro ⟨hng, hnb⟩
    obtain ⟨lm1, h1, h2, h3⟩ := hrest (fun hc => hng hc.1)
    rw [h1, if_neg (fun hc => hng (h2.mp hc)), if_neg (fun hc => hnb (h3.mp hc))]

/-- Witness of C26, the third example of the source comment: one CSINode with a
beta key and one with a GA key. -/
theorem findExistingTopologyLabels_spec_witness :
    findExistingTopologyLabels
        [{ Drivers := [{ Name := "csi.vsphere.vmware.com",
                         TopologyKeys := ["failure-domain.beta.kubernetes.io/zone"] }] },
          { Drivers := [{ Name := "csi.vsphere.vmware.com",
                          TopologyKeys := ["topology.kubernetes.io/zone"] }] }]
      = ("", "", some .mixedTopologyKeys) :=
  (findExistingTopologyLabels_spec
    [{ Drivers := [{ Name := "csi.vsphere.vmware.com",
                     TopologyKeys := ["failure-domain.beta.kubernetes.io/zone"] }] },
      { Drivers := [{ Name := "csi.vsphere.vmware.com",
                      TopologyKeys := ["topology.kubernetes.io/zone"] }] }]).2.1 (by decide)

/-! ## Lemmas on the reconciler -/

theorem mapGet_initBackOff (b : BackOffDurationT) (name : String) :
    mapGet (initBackOff b name) name = some ((mapGet b name).getD timeSecond) := by
  unfold initBackOff
  cases h : mapGet b name with
  | none => simp [mapGet_mapSet]
  | some d => simp [h]

theorem mapGet_mapDelete {β : Type} (m : List (String × β)) (k k1 : String) :
    mapGet (mapDelete m k) k1 = if k = k1 then none else mapGet m k1 := by
  induction m with
  | nil => simp [mapDelete, mapGet]
  | cons p rest ih =>
    obtain ⟨a, v⟩ := p
    by_cases ha : a = k
    · subst ha
      by_cases hk : a = k1
      · subst hk
        simpa [mapDelete] using ih
      · simp [mapDelete, mapGet, hk, ih]
    · by_cases hk : a = k1
      · subst hk
        simp [mapDelete, mapGet, ha, Ne.symm ha]
      · simp only [mapDelete, ha, if_false, mapGet, hk, ih]

theorem recordErrorAndRequeue_eq (co : ReconcileCollaborators) (b : BackOffDurationT)
    (inst : CSINodeTopology) (timeout : Int) (msg : String) :
    recordErrorAndRequeue co b inst timeout msg
      = ({ RequeueAfter := timeout, err := none,
           updated := some { inst with Status := CSINodeTopologyError, ErrorMessage := msg } },
         mapSet b inst.Name (wrapInt64 ((mapGet b inst.Name).getD 0 * 2))) := by
  have hne : ¬ CSINodeTopologyError = CSINodeTopologySuccess := by decide
  simp [recordErrorAndRequeue, updateCRStatus, hne]

theorem recordSuccess_updated (co : ReconcileCollaborators) (b : BackOffDurationT)
    (inst : CSINodeTopology) (timeout : Int) (msg : String) :
    (recordSuccess co b inst timeout msg).1.updated
      = some { inst with Status := CSINodeTopologySuccess, ErrorMessage := "" } := by
  unfold recordSuccess updateCRStatus
  simp only [if_true]
  cases co.clientUpdate { inst with Status := CSINodeTopologySuccess, ErrorMessage := "" } <;> rfl

theorem recordSuccess_written (co : ReconcileCollaborators) (b : BackOffDurationT)
    (inst : CSINodeTopology) (timeout : Int) (msg : String)
    (h : co.clientUpdate { inst with Status := CSINodeTopologySuccess, ErrorMessage := "" }
      = none) :
    recordSuccess co b inst timeout msg
      = ({ RequeueAfter := 0, err := none,
           updated := some { inst with Status := CSINodeTopologySuccess, ErrorMessage := "" } },
         mapDelete b inst.Name) := by
  unfold recordSuccess updateCRStatus
  simp only [if_true, h]

theorem recordSuccess_not_written (co : ReconcileCollaborators) (b : BackOffDurationT)
    (inst : CSINodeTopology) (timeout : Int) (msg cause : String)
    (h : co.clientUpdate { inst with Status := CSINodeTopologySuccess, ErrorMessage := "" }
      = some cause) :
    recordSuccess co b inst timeout msg
      = ({ RequeueAfter := timeout, err := none,
           updated := some { inst with Status := CSINodeTopologySuccess, ErrorMessage := "" } },
         b) := by
  unfold recordSuccess updateCRStatus
  simp only [if_true, h]

/-- The ways a call of `Reconcile` ends: without an instance; with the
node-not-registered error; by recording the Error status; by recording the
Success status. -/
theorem Reconcile_cases (co : ReconcileCollaborators) (flag : Bool) (b : BackOffDurationT) :
    ((Reconcile co flag b).1.updated = none ∧ (Reconcile co flag b).2 = b) ∨
    (∃ inst, co.clientGet = .found inst ∧
      Reconcile co flag b
        = ({ RequeueAfter := 0, err := some ErrNodeNotFound, updated := none },
           initBackOff b inst.Name)) ∨
    (∃ inst msg, co.clientGet = .found inst ∧
      Reconcile co flag b
        = recordErrorAndRequeue co (initBackOff b inst.Name) inst
            ((mapGet (initBackOff b inst.Name) inst.Name).getD 0) msg) ∨
    (∃ inst labels msg, co.clientGet = .found inst ∧
      Reconcile co flag b
        = recordSuccess co (initBackOff b inst.Name) { inst with TopologyLabels := labels }
            ((mapGet (initBackOff b inst.Name) inst.Name).getD 0) msg) := by
  unfold Reconcile
  cases hg : co.clientGet with
  | notFound => exact Or.inl ⟨rfl, rfl⟩
  | failed c => exact Or.inl ⟨rfl, rfl⟩
  | found inst =>
    simp only
    cases hl : (if flag = true then co.nodeMgr.GetNode inst.NodeID
        else co.nodeMgr.GetNodeByName inst.NodeID) with
    | error cause =>
      simp only
      by_cases hc : cause = ErrNodeNotFound
      · subst hc
        simp only [if_true]
        exact Or.inr (Or.inl ⟨inst, rfl, rfl⟩)
      · simp only [hc, if_false]
        exact Or.inr (Or.inr (Or.inl ⟨inst, _, rfl, rfl⟩))
    | ok vm =>
      simp only
      split
      · exact Or.inr (Or.inr (Or.inr ⟨inst, [], _, rfl, rfl⟩))
      · split
        · cases ht : co.getNodeTopologyInfo vm with
          | error cause => exact Or.inr (Or.inr (Or.inl ⟨inst, _, rfl, rfl⟩))
          | ok labels => exact Or.inr (Or.inr (Or.inr ⟨inst, labels, _, rfl, rfl⟩))
        · exact Or.inr (Or.inr (Or.inl ⟨inst, _, rfl, rfl⟩))

theorem wrapInt64_of_fits (x : Int) (h0 : -(2 ^ 63) ≤ x) (h1 : x < 2 ^ 63) : wrapInt64 x = x := by
  unfold wrapInt64
  rw [Int.emod_eq_of_lt (by omega) (by omega)]
  omega

theorem doubledBackOff_exact (k : Nat) (d : Int) (h0 : 0 ≤ d) (h1 : 2 ^ k * d < 2 ^ 63) :
    doubledBackOff d k = 2 ^ k * d := by
  induction k generalizing d with
  | zero => simp [doubledBackOff]
  | succ n ih =>
    have hpos : (0 : Int) < 2 ^ n := by positivity
    have hmul : (2 : Int) ^ (n + 1) * d = 2 ^ n * (d * 2) := by ring
    have hle : d * 2 ≤ 2 ^ n * (d * 2) := by
      have : (1 : Int) ≤ 2 ^ n := by omega
      nlinarith
    have hfit : wrapInt64 (d * 2) = d * 2 :=
      wrapInt64_of_fits (d * 2) (by omega) (by rw [hmul] at h1; omega)
    simp only [doubledBackOff, hfit]
    rw [ih (d * 2) (by omega) (by rw [hmul] at h1; exact h1), hmul]

theorem doubledBackOff_second (k : Nat) (hk : k ≤ 33) :
    doubledBackOff timeSecond k = 2 ^ k * timeSecond := by
  apply doubledBackOff_exact k timeSecond (by decide)
  have h33 : (2 : Int) ^ k ≤ 2 ^ 33 := pow_le_pow_right₀ (by norm_num) hk
  have : (2 : Int) ^ 33 * timeSecond < 2 ^ 63 := by decide
  have hs : (0 : Int) ≤ timeSecond := by decide
  nlinarith

/-- A reconcile that records the Error status on the instance `name` requeues
after the stored backoff (one second if none is stored) and stores its double. -/
theorem Reconcile_of_recordsError (co : ReconcileCollaborators) (flag : Bool)
    (b : BackOffDurationT) (name : String)
    (h : RecordsError (Reconcile co flag b).1 name) :
    (Reconcile co flag b).1.RequeueAfter = (mapGet b name).getD timeSecond ∧
      mapGet (Reconcile co flag b).2 name
        = some (wrapInt64 ((mapGet b name).getD timeSecond * 2)) := by
  obtain ⟨u, hu, hname, hstatus⟩ := h
  rcases Reconcile_cases co flag b with ⟨h1, _⟩ | ⟨inst, _, h1⟩ | ⟨inst, msg, _, h1⟩ |
    ⟨inst, labels, msg, _, h1⟩
  · rw [h1] at hu
    exact Option.noConfusion hu
  · rw [h1] at hu
    exact Option.noConfusion hu
  · rw [h1, recordErrorAndRequeue_eq] at hu ⊢
    simp only [Option.some.injEq] at hu
    have hn : inst.Name = name := by rw [← hname, ← hu]
    subst hn
    simp only [mapGet_initBackOff, Option.getD_some, mapGet_mapSet, if_true, and_self]
  · have h2 := recordSuccess_updated co (initBackOff b inst.Name)
      { inst with TopologyLabels := labels }
      ((mapGet (initBackOff b inst.Name) inst.Name).getD 0) msg
    rw [← h1, hu] at h2
    simp only [Option.some.injEq] at h2
    rw [h2] at hstatus
    have hne : ¬ CSINodeTopologySuccess = CSINodeTopologyError := by decide
    exact absurd hstatus hne

theorem reconcileRun_errors (flag : Bool) (name : String) (cos : List ReconcileCollaborators)
    (b : BackOffDurationT)
    (hall : ∀ r ∈ (reconcileRun flag cos b).1, RecordsError r name) :
    (reconcileRun flag cos b).1.map (fun r => r.RequeueAfter)
        = (List.range cos.length).map
            (fun i => doubledBackOff ((mapGet b name).getD timeSecond) i) ∧
      (cos ≠ [] → mapGet (reconcileRun flag cos b).2 name
        = some (doubledBackOff ((mapGet b name).getD timeSecond) cos.length)) := by
  induction cos generalizing b with
  | nil => simp [reconcileRun]
  | cons co rest ih =>
    simp only [reconcileRun, List.mem_cons, forall_eq_or_imp] at hall
    obtain ⟨h0, hrest⟩ := hall
    obtain ⟨hq, hs⟩ := Reconcile_of_recordsError co flag b name h0
    obtain ⟨i1, i2⟩ := ih (Reconcile co flag b).2 hrest
    rw [hs, Option.getD_some] at i1 i2
    refine ⟨?_, fun _ => ?_⟩
    · simp only [reconcileRun, List.map_cons, List.length_cons, List.range_succ_eq_map,
        List.map_map, hq, i1]
      rfl
    · simp only [reconcileRun, List.length_cons]
      cases rest with
      | nil => simpa [reconcileRun, doubledBackOff] using hs
      | cons c cs => exact i2 (by simp)

theorem reconcileRun_take (flag : Bool) (cos : List ReconcileCollaborators)
    (b : BackOffDurationT) (k : Nat) :
    (reconcileRun flag (cos.take k) b).1 = (reconcileRun flag cos b).1.take k := by
  induction cos generalizing b k with
  | nil => simp [reconcileRun]
  | cons co rest ih =>
    cases k with
    | zero => simp [reconcileRun]
    | succ n => simp [reconcileRun, ih]

/-! ## Theorems on the backoff of `Reconcile` -/

set_option maxRecDepth 100000 in
/-- Counterexample to C24 as stated: in a run of 34 consecutive reconciles of
`node-1` that each record the Error status, starting with no stored backoff,
the backoff stored after the 34th is not 2^34 seconds: the `int64` count of
nanoseconds has wrapped around to a negative value. -/
theorem Reconcile_backoff_wraps_around :
    (∀ r ∈ (reconcileRun false (List.replicate 34 exampleReconcileFailing) []).1,
        RecordsError r "node-1") ∧
      mapGet (reconcileRun false (List.replicate 34 exampleReconcileFailing) []).2 "node-1"
        = some (-1266874889709551616) ∧
      (-1266874889709551616 : Int) ≠ 2 ^ 34 * timeSecond := by
  decide

/-- C24, amended: for an instance with no stored backoff, in a run of at most 34
consecutive reconciles that each end by recording the Error status, the k-th
reconcile returns `RequeueAfter` equal to 2^(k-1) seconds, and for every k up to
33 the backoff stored after the k-th reconcile is 2^k seconds. -/
theorem Reconcile_backoff_doubles (flag : Bool) (name : String)
    (cos : List ReconcileCollaborators) (b : BackOffDurationT)
    (hb : mapGet b name = none)
    (hall : ∀ r ∈ (reconcileRun flag cos b).1, RecordsError r name)
    (hlen : cos.length ≤ 34) :
    (reconcileRun flag cos b).1.map (fun r => r.RequeueAfter)
        = (List.range cos.length).map (fun i => 2 ^ i * timeSecond) ∧
      ∀ k, 1 ≤ k → k ≤ cos.length → k ≤ 33 →
        mapGet (reconcileRun flag (cos.take k) b).2 name = some (2 ^ k * timeSecond) := by
  refine ⟨?_, ?_⟩
  · rw [(reconcileRun_errors flag name cos b hall).1, hb]
    apply List.map_congr_left
    intro i hi
    rw [List.mem_range] at hi
    exact doubledBackOff_second i (by omega)
  · intro k hk1 hk2 hk3
    have hall2 : ∀ r ∈ (reconcileRun flag (cos.take k) b).1, RecordsError r name := by
      intro r hr
      rw [reconcileRun_take] at hr
      exact hall r (List.mem_of_mem_take hr)
    have hlen2 : (cos.take k).length = k := by
      rw [List.length_take]
      omega
    have hne : cos.take k ≠ [] := by
      intro h0
      rw [h0] at hlen2
      simp only [List.length_nil] at hlen2
      omega
    rw [(reconcileRun_errors flag name (cos.take k) b hall2).2 hne, hb, hlen2]
    exact congrArg some (doubledBackOff_second k hk3)

/-- Witness of C24, amended: three failing reconciles of `node-1` requeue after
1, 2 and 4 seconds, and 8 seconds are stored after the third. -/
theorem Reconcile_backoff_doubles_witness :
    (reconcileRun false (List.replicate 3 exampleReconcileFailing) []).1.map
        (fun r => r.RequeueAfter)
        = (List.range 3).map (fun i => 2 ^ i * timeSecond) ∧
      mapGet (reconcileRun false
        ((List.replicate 3 exampleReconcileFailing).take 3) []).2 "node-1"
        = some (2 ^ 3 * timeSecond) :=
  ⟨(Reconcile_backoff_doubles false "node-1" (List.replicate 3 exampleReconcileFailing) []
      (by decide) (by decide) (by decide)).1,
    (Reconcile_backoff_doubles false "node-1" (List.replicate 3 exampleReconcileFailing) []
      (by decide) (by decide) (by decide)).2 3 (by decide) (by decide) (by decide)⟩

/-- Counterexample to C25 as stated: a reconcile of `node-1` while the node is
not yet registered in the node manager returns the `ErrNodeNotFound` error, so
it does not end successfully, and leaves the stored backoff of one second as it
was, not strictly larger. -/
theorem Reconcile_unregistered_keeps_backoff :
    (Reconcile exampleReconcileUnregistered false [("node-1", 1000000000)]).1.err
        = some ErrNodeNotFound ∧
      mapGet [("node-1", (1000000000 : Int))] "node-1" = some 1000000000 ∧
      mapGet (Reconcile exampleReconcileUnregistered false [("node-1", 1000000000)]).2 "node-1"
        = some 1000000000 := by
  decide

/-- C25, amended: a reconcile that ends successfully removes the stored backoff
of the instance, so the next reconcile of the instance that records the Error
status requeues after the initial second; a reconcile that ends by recording
the Error status stores the double, in `int64` arithmetic, of the backoff it
started from (the stored one, or one second if none was stored), which is
strictly larger when that backoff is positive and below 2^62 nanoseconds; and a
reconcile that returns the node-not-registered error, and one whose write of the
Success status fails, leave the backoff they started from stored, unchanged, the
latter requeueing after it. -/
theorem Reconcile_backoff_reset_and_growth (co : ReconcileCollaborators) (flag : Bool)
    (b : BackOffDurationT) (name : String) :
    (EndsSuccessfully co (Reconcile co flag b).1 name →
        mapGet (Reconcile co flag b).2 name = none ∧
        ∀ co2, RecordsError (Reconcile co2 flag (Reconcile co flag b).2).1 name →
          (Reconcile co2 flag (Reconcile co flag b).2).1.RequeueAfter = timeSecond) ∧
      (RecordsError (Reconcile co flag b).1 name →
        mapGet (Reconcile co flag b).2 name
            = some (wrapInt64 ((mapGet b name).getD timeSecond * 2)) ∧
          (0 < (mapGet b name).getD timeSecond → (mapGet b name).getD timeSecond < 2 ^ 62 →
            mapGet (Reconcile co flag b).2 name = some ((mapGet b name).getD timeSecond * 2) ∧
              (mapGet b name).getD timeSecond < (mapGet b name).getD timeSecond * 2)) ∧
      (∀ inst, co.clientGet = .found inst → inst.Name = name →
        (Reconcile co flag b).1.err = some ErrNodeNotFound →
        mapGet (Reconcile co flag b).2 name = some ((mapGet b name).getD timeSecond)) ∧
      (∀ inst cause, (Reconcile co flag b).1.updated = some inst → inst.Name = name →
        inst.Status = CSINodeTopologySuccess → co.clientUpdate inst = some cause →
        (Reconcile co flag b).1.RequeueAfter = (mapGet b name).getD timeSecond ∧
          mapGet (Reconcile co flag b).2 name = some ((mapGet b name).getD timeSecond)) := by
  refine ⟨?_, ?_, ?_, ?_⟩
  · rintro ⟨u, hu, hname, hstatus, hwritten⟩
    have hgone : mapGet (Reconcile co flag b).2 name = none := by
      rcases Reconcile_cases co flag b with ⟨h1, _⟩ | ⟨inst, _, h1⟩ | ⟨inst, msg, _, h1⟩ |
        ⟨inst, labels, msg, _, h1⟩
      · rw [h1] at hu
        exact Option.noConfusion hu
      · rw [h1] at hu
        exact Option.noConfusion hu
      · rw [h1, recordErrorAndRequeue_eq] at hu
        simp only [Option.some.injEq] at hu
        rw [← hu] at hstatus
        have hne : ¬ CSINodeTopologyError = CSINodeTopologySuccess := by decide
        exact absurd hstatus hne
      · have h2 := recordSuccess_updated co (initBackOff b inst.Name)
          { inst with TopologyLabels := labels }
          ((mapGet (initBackOff b inst.Name) inst.Name).getD 0) msg
        rw [← h1, hu] at h2
        simp only [Option.some.injEq] at h2
        rw [h2] at hwritten hname
        rw [h1, recordSuccess_written co _ _ _ _ hwritten]
        simp only at hname
        simp only [mapGet_mapDelete, hname, if_true]
    refine ⟨hgone, fun co2 h2 => ?_⟩
    rw [(Reconcile_of_recordsError co2 flag _ name h2).1, hgone]
    rfl
  · intro h
    have hs := (Reconcile_of_recordsError co flag b name h).2
    refine ⟨hs, fun hpos hlt => ?_⟩
    rw [hs, wrapInt64_of_fits _ (by omega) (by omega)]
    exact ⟨rfl, by omega⟩
  · intro inst hget hname herr
    have hn : ∀ (i : CSINodeTopology) (t : Int) (m : String) (bb : BackOffDurationT),
        (recordSuccess co bb i t m).1.err = none := by
      intro i t m bb
      unfold recordSuccess updateCRStatus
      simp only [if_true]
      cases co.clientUpdate { i with Status := CSINodeTopologySuccess, ErrorMessage := "" } <;> rfl
    unfold Reconcile at herr ⊢
    rw [hget] at herr ⊢
    simp only at herr ⊢
    cases hl : (if flag = true then co.nodeMgr.GetNode inst.NodeID
        else co.nodeMgr.GetNodeByName inst.NodeID) with
    | error cause =>
      rw [hl] at herr
      simp only [hl]
      by_cases hc : cause = ErrNodeNotFound
      · simp only [hc, if_true, hname, mapGet_initBackOff]
      · simp only [hc, if_false, recordErrorAndRequeue_eq] at herr
        exact Option.noConfusion herr
    | ok vm =>
      exfalso
      rw [hl] at herr
      simp only at herr
      split at herr
      · rw [hn] at herr
        exact Option.noConfusion herr
      · split at herr
        · cases ht : co.getNodeTopologyInfo vm with
          | error cause =>
            rw [ht] at herr
            simp only [recordErrorAndRequeue_eq] at herr
            exact Option.noConfusion herr
          | ok labels =>
            rw [ht] at herr
            simp only [hn] at herr
            exact Option.noConfusion herr
        · simp only [recordErrorAndRequeue_eq] at herr
          exact Option.noConfusion herr
  · intro u cause hu hname hstatus hfailed
    rcases Reconcile_cases co flag b with ⟨h1, _⟩ | ⟨inst, _, h1⟩ | ⟨inst, msg, _, h1⟩ |
      ⟨inst, labels, msg, _, h1⟩
    · rw [h1] at hu
      exact Option.noConfusion hu
    · rw [h1] at hu
      exact Option.noConfusion hu
    · rw [h1, recordErrorAndRequeue_eq] at hu
      simp only [Option.some.injEq] at hu
      rw [← hu] at hstatus
      have hne : ¬ CSINodeTopologyError = CSINodeTopologySuccess := by decide
      exact absurd hstatus hne
    · have h2 := recordSuccess_updated co (initBackOff b inst.Name)
        { inst with TopologyLabels := labels }
        ((mapGet (initBackOff b inst.Name) inst.Name).getD 0) msg
      rw [← h1, hu] at h2
      simp only [Option.some.injEq] at h2
      rw [h2] at hfailed hname
      rw [h1, recordSuccess_not_written co _ _ _ _ cause hfailed]
      simp only at hname
      simp only [hname, mapGet_initBackOff, Option.getD_some, and_self]

/-- Witness of C25, amended: with 4 seconds stored for `node-1`, a successful
reconcile removes the entry and the failing reconcile after it requeues after
one second; a failing reconcile stores 8 seconds; a reconcile while the node is
not registered, and one whose write of the Success status fails, leave the 4
seconds. -/
theorem Reconcile_backoff_reset_and_growth_witness :
    (EndsSuccessfully exampleReconcileOk
        (Reconcile exampleReconcileOk false [("node-1", 4000000000)]).1 "node-1" ∧
      mapGet (Reconcile exampleReconcileOk false [("node-1", 4000000000)]).2 "node-1" = none ∧
      (Reconcile exampleReconcileFailing false
        (Reconcile exampleReconcileOk false [("node-1", 4000000000)]).2).1.RequeueAfter
        = timeSecond) ∧
    (RecordsError (Reconcile exampleReconcileFailing false [("node-1", 4000000000)]).1 "node-1" ∧
      mapGet (Reconcile exampleReconcileFailing false [("node-1", 4000000000)]).2 "node-1"
        = some 8000000000) ∧
    ((Reconcile exampleReconcileUnregistered false [("node-1", 4000000000)]).1.err
        = some ErrNodeNotFound ∧
      mapGet (Reconcile exampleReconcileUnregistered false [("node-1", 4000000000)]).2 "node-1"
        = some 4000000000) ∧
    ((Reconcile exampleReconcileWriteFails false [("node-1", 4000000000)]).1.RequeueAfter
        = 4000000000 ∧
      mapGet (Reconcile exampleReconcileWriteFails false [("node-1", 4000000000)]).2 "node-1"
        = some 4000000000) :=
  ⟨⟨⟨_, rfl, rfl, rfl, rfl⟩,
      ((Reconcile_backoff_reset_and_growth exampleReconcileOk false [("node-1", 4000000000)]
        "node-1").1 ⟨_, rfl, rfl, rfl, rfl⟩).1,
      ((Reconcile_backoff_reset_and_growth exampleReconcileOk false [("node-1", 4000000000)]
        "node-1").1 ⟨_, rfl, rfl, rfl, rfl⟩).2 exampleReconcileFailing (by decide)⟩,
    ⟨by decide,
      (((Reconcile_backoff_reset_and_growth exampleReconcileFailing false
        [("node-1", 4000000000)] "node-1").2.1 (by decide)).2 (by decide) (by decide)).1⟩,
    ⟨by decide,
      (Reconcile_backoff_reset_and_growth exampleReconcileUnregistered false
        [("node-1", 4000000000)] "node-1").2.2.1 recordNode1 rfl rfl (by decide)⟩,
    (Reconcile_backoff_reset_and_growth exampleReconcileWriteFails false
      [("node-1", 4000000000)] "node-1").2.2.2 _ "conflict" rfl rfl rfl rfl⟩

/-! ## Lemmas on the interleavings of cache accesses -/

theorem modeOf_out_iff (s : CacheState) (i : Nat) : modeOf s i = .out ↔ s.holder ≠ some i := by
  unfold modeOf
  by_cases h : s.holder = some i
  · by_cases ho : sectionObserved s <;> simp [h, ho]
  · simp [h]

theorem modeOf_fresh_iff (s : CacheState) (i : Nat) :
    modeOf s i = .fresh ↔ s.holder = some i ∧ ¬ sectionObserved s := by
  unfold modeOf
  by_cases h : s.holder = some i
  · by_cases ho : sectionObserved s <;> simp [h, ho]
  · simp [h]

theorem modeOf_observed_iff (s : CacheState) (i : Nat) :
    modeOf s i = .observed ↔ s.holder = some i ∧ sectionObserved s := by
  unfold modeOf
  by_cases h : s.holder = some i
  · by_cases ho : sectionObserved s <;> simp [h, ho]
  · simp [h]

/-- The mode of a goroutine depends on the holder of the lock and on whether the
current critical section has a read. -/
theorem modeOf_congr (s t : CacheState) (i : Nat) (hh : t.holder = s.holder)
    (ho : sectionObserved t ↔ sectionObserved s) : modeOf t i = modeOf s i := by
  unfold modeOf
  rw [hh]
  by_cases h1 : sectionObserved s
  · simp [h1, ho.2 h1]
  · have h2 : ¬ sectionObserved t := fun h => h1 (ho.1 h)
    simp [h1, h2]

theorem some_ne_some_of_ne {i j : Nat} (h : j ≠ i) : (some i : Option Nat) ≠ some j := by
  intro h2
  exact h (Option.some.inj h2).symm

/-- A successful `Lock` of a disciplined goroutine keeps the invariant. -/
theorem inv_of_lock (old new : PreferredDatastoresMapT) (s t : CacheState) (i : Nat)
    (k : CacheProg) (hinv : CacheInv old new s) (hp : s.threads i = .lock k)
    (hfree : s.holder = none)
    (hc : t.cache = s.cache) (hh : t.holder = some i) (hr : t.readers = s.readers)
    (ha : t.acquisitions = s.acquisitions + 1)
    (hth : t.threads = Function.update s.threads i k) (hl : t.log = s.log) :
    CacheInv old new t := by
  have hm0 : ∀ j, modeOf s j = .out := fun j =>
    (modeOf_out_iff s j).2 (by rw [hfree]; exact fun h => Option.noConfusion h)
  have hd := hinv.progs i
  rw [hm0 i, hp] at hd
  have hnone : ¬ sectionObserved t := by
    rintro ⟨o, ho, _, hacq⟩
    rw [hl] at ho
    have := hinv.bound o ho
    omega
  cases hd with
  | lock hk =>
    refine ⟨by rw [hc]; exact hinv.cache, by rw [hr]; exact hinv.readers,
      by rw [hl]; exact hinv.values, ?_, ?_, by rw [hl]; exact hinv.agree,
      by rw [hl]; exact hinv.sites, ?_⟩
    · intro o ho
      rw [hl] at ho
      have := hinv.bound o ho
      omega
    · intro _ o ho hu hacq
      exact absurd ⟨o, ho, hu, hacq⟩ hnone
    · intro j
      rw [hth]
      by_cases hj : j = i
      · subst hj
        rw [(modeOf_fresh_iff t j).2 ⟨hh, hnone⟩, Function.update_same]
        exact hk
      · rw [(modeOf_out_iff t j).2 (by rw [hh]; exact some_ne_some_of_ne hj),
          Function.update_noteq hj]
        have := hinv.progs j
        rw [hm0 j] at this
        exact this

/-- An `Unlock` of a disciplined goroutine keeps the invariant. -/
theorem inv_of_unlock (old new : PreferredDatastoresMapT) (s t : CacheState) (i : Nat)
    (k : CacheProg) (hinv : CacheInv old new s) (hp : s.threads i = .unlock k)
    (hheld : s.holder = some i)
    (hc : t.cache = s.cache) (hh : t.holder = none) (hr : t.readers = s.readers)
    (ha : t.acquisitions = s.acquisitions)
    (hth : t.threads = Function.update s.threads i k) (hl : t.log = s.log) :
    CacheInv old new t := by
  have hd := hinv.progs i
  rw [hp] at hd
  have hk : Disciplined new .out k := by
    generalize modeOf s i = md at hd
    cases hd with
    | unlockFresh h => exact h
    | unlockObserved h => exact h
  refine ⟨by rw [hc]; exact hinv.cache, by rw [hr]; exact hinv.readers,
    by rw [hl]; exact hinv.values, by rw [hl, ha]; exact hinv.bound, ?_,
    by rw [hl]; exact hinv.agree, by rw [hl]; exact hinv.sites, ?_⟩
  · intro h
    rw [hh] at h
    exact Bool.noConfusion h
  · intro j
    rw [(modeOf_out_iff t j).2 (by rw [hh]; exact fun h => Option.noConfusion h), hth]
    by_cases hj : j = i
    · subst hj
      rw [Function.update_same]
      exact hk
    · rw [Function.update_noteq hj]
      have := hinv.progs j
      rw [(modeOf_out_iff s j).2 (by rw [hheld]; exact some_ne_some_of_ne hj)] at this
      exact this

/-- An assignment by a disciplined goroutine keeps the invariant. -/
theorem inv_of_write (old new : PreferredDatastoresMapT) (s t : CacheState) (i : Nat)
    (m : PreferredDatastoresMapT) (k : CacheProg) (hinv : CacheInv old new s)
    (hp : s.threads i = .write m k)
    (hc : t.cache = m) (hh : t.holder = s.holder) (hr : t.readers = s.readers)
    (ha : t.acquisitions = s.acquisitions)
    (hth : t.threads = Function.update s.threads i k) (hl : t.log = s.log) :
    CacheInv old new t := by
  have hd := hinv.progs i
  rw [hp] at hd
  generalize hmd : modeOf s i = md at hd
  have hobs : sectionObserved t ↔ sectionObserved s := by
    unfold sectionObserved
    rw [hl, ha]
  cases hd with
  | write hk =>
    obtain ⟨hheld, hfresh⟩ := (modeOf_fresh_iff _ _).1 hmd
    refine ⟨by rw [hc]; exact Or.inr rfl, by rw [hr]; exact hinv.readers,
      by rw [hl]; exact hinv.values, by rw [hl, ha]; exact hinv.bound, ?_,
      by rw [hl]; exact hinv.agree, by rw [hl]; exact hinv.sites, ?_⟩
    · intro _ o ho hu hacq
      rw [hl] at ho
      rw [ha] at hacq
      exact absurd ⟨o, ho, hu, hacq⟩ hfresh
    · intro j
      rw [modeOf_congr s t j hh hobs, hth]
      by_cases hj : j = i
      · subst hj
        rw [Function.update_same, hmd]
        exact hk
      · rw [Function.update_noteq hj]
        exact hinv.progs j

/-- A read by a disciplined goroutine keeps the invariant. -/
theorem inv_of_read (old new : PreferredDatastoresMapT) (s t : CacheState) (i : Nat)
    (site : ReadSite) (k : PreferredDatastoresMapT → CacheProg) (hinv : CacheInv old new s)
    (hp : s.threads i = .read site k)
    (hc : t.cache = s.cache) (hh : t.holder = s.holder) (hr : t.readers = s.readers)
    (ha : t.acquisitions = s.acquisitions)
    (hth : t.threads = Function.update s.threads i (k s.cache))
    (hl : t.log = s.log ++ [observe s i site]) :
    CacheInv old new t := by
  have hd := hinv.progs i
  rw [hp] at hd
  generalize hmd : modeOf s i = md at hd
  have hul : (observe s i site).underLock = decide (s.holder = some i) := by
    simp [observe, hinv.readers]
  have hvalues : ∀ o ∈ t.log, o.value = old ∨ o.value = new := by
    intro o ho
    rw [hl] at ho
    rcases List.mem_append.1 ho with h | h
    · exact hinv.values o h
    · rw [List.mem_singleton.1 h]
      exact hinv.cache
  have hbound : ∀ o ∈ t.log, o.acquisition ≤ t.acquisitions := by
    intro o ho
    rw [hl] at ho
    rw [ha]
    rcases List.mem_append.1 ho with h | h
    · exact hinv.bound o h
    · rw [List.mem_singleton.1 h]
      exact Nat.le_refl _
  by_cases hheld : s.holder = some i
  · have hk : ∀ m, Disciplined new .observed (k m) := by
      cases hd with
      | readOut h => exact absurd hheld ((modeOf_out_iff _ _).1 hmd)
      | readFresh h => exact h
      | readObserved h => exact h
    have hsome : s.holder.isSome = true := by rw [hheld]; rfl
    have htrue : (observe s i site).underLock = true := by
      rw [hul]
      exact decide_eq_true hheld
    refine ⟨by rw [hc]; exact hinv.cache, by rw [hr]; exact hinv.readers, hvalues, hbound,
      ?_, ?_, ?_, ?_⟩
    · intro _ o ho hu hacq
      rw [hl] at ho
      rw [ha] at hacq
      rw [hc]
      rcases List.mem_append.1 ho with h | h
      · exact hinv.current hsome o h hu hacq
      · rw [List.mem_singleton.1 h]
        rfl
    · intro o ho o2 ho2 hu hu2 hacq
      rw [hl] at ho ho2
      rcases List.mem_append.1 ho with h | h <;> rcases List.mem_append.1 ho2 with h2 | h2
      · exact hinv.agree o h o2 h2 hu hu2 hacq
      · rw [List.mem_singleton.1 h2] at hacq ⊢
        exact hinv.current hsome o h hu hacq
      · rw [List.mem_singleton.1 h] at hacq ⊢
        exact (hinv.current hsome o2 h2 hu2 hacq.symm).symm
      · rw [List.mem_singleton.1 h, List.mem_singleton.1 h2]
    · intro o ho hsite
      rw [hl] at ho
      rcases List.mem_append.1 ho with h | h
      · exact hinv.sites o h hsite
      · rw [List.mem_singleton.1 h]
        exact htrue
    · intro j
      rw [hth]
      by_cases hj : j = i
      · subst hj
        have hobs : sectionObserved t :=
          ⟨observe s j site,
            by rw [hl]; exact List.mem_append_right _ (List.mem_singleton.2 rfl), htrue,
            ha.symm⟩
        rw [(modeOf_observed_iff t j).2 ⟨by rw [hh]; exact hheld, hobs⟩, Function.update_same]
        exact hk s.cache
      · have hne : s.holder ≠ some j := by rw [hheld]; exact some_ne_some_of_ne hj
        rw [(modeOf_out_iff t j).2 (by rw [hh]; exact hne), Function.update_noteq hj]
        have := hinv.progs j
        rw [(modeOf_out_iff s j).2 hne] at this
        exact this
  · have hmd2 : md = .out := by rw [← hmd]; exact (modeOf_out_iff _ _).2 hheld
    subst hmd2
    have hfalse : (observe s i site).underLock = false := by
      rw [hul]
      exact decide_eq_false hheld
    have hnot : ¬ (observe s i site).underLock = true := by
      rw [hfalse]
      exact Bool.false_ne_true
    have hk : ∀ m, Disciplined new .out (k m) := by
      cases hd with
      | readOut h => exact h
    have hsite : site = .sharedLen := by
      cases hd with
      | readOut h => rfl
    have hobs : sectionObserved t ↔ sectionObserved s := by
      unfold sectionObserved
      rw [hl, ha]
      constructor
      · rintro ⟨o, ho, hu, hacq⟩
        rcases List.mem_append.1 ho with h | h
        · exact ⟨o, h, hu, hacq⟩
        · rw [List.mem_singleton.1 h] at hu
          exact absurd hu hnot
      · rintro ⟨o, ho, hu, hacq⟩
        exact ⟨o, List.mem_append_left _ ho, hu, hacq⟩
    refine ⟨by rw [hc]; exact hinv.cache, by rw [hr]; exact hinv.readers, hvalues, hbound,
      ?_, ?_, ?_, ?_⟩
    · intro hs o ho hu hacq
      rw [hl] at ho
      rw [ha] at hacq
      rw [hh] at hs
      rw [hc]
      rcases List.mem_append.1 ho with h | h
      · exact hinv.current hs o h hu hacq
      · rw [List.mem_singleton.1 h] at hu
        exact absurd hu hnot
    · intro o ho o2 ho2 hu hu2 hacq
      rw [hl] at ho ho2
      rcases List.mem_append.1 ho with h | h <;> rcases List.mem_append.1 ho2 with h2 | h2
      · exact hinv.agree o h o2 h2 hu hu2 hacq
      · rw [List.mem_singleton.1 h2] at hu2
        exact absurd hu2 hnot
      · rw [List.mem_singleton.1 h] at hu
        exact absurd hu hnot
      · rw [List.mem_singleton.1 h, List.mem_singleton.1 h2]
    · intro o ho hs
      rw [hl] at ho
      rcases List.mem_append.1 ho with h | h
      · exact hinv.sites o h hs
      · rw [List.mem_singleton.1 h] at hs
        exact absurd hsite hs
    · intro j
      rw [modeOf_congr s t j hh hobs, hth]
      by_cases hj : j = i
      · subst hj
        rw [Function.update_same, hmd]
        exact hk s.cache
      · rw [Function.update_noteq hj]
        exact hinv.progs j

/-- A step of a disciplined goroutine keeps the invariant. -/
theorem cacheStep_inv (old new : PreferredDatastoresMapT) (s t : CacheState) (i : Nat)
    (hinv : CacheInv old new s) (hstep : cacheStep s i = some t) : CacheInv old new t := by
  have hd := hinv.progs i
  unfold cacheStep at hstep
  generalize modeOf s i = md at hd
  cases hp : s.threads i with
  | done =>
    rw [hp] at hstep
    exact Option.noConfusion hstep
  | rlock k =>
    rw [hp] at hd
    cases hd
  | runlock k =>
    rw [hp] at hd
    cases hd
  | lock k =>
    rw [hp] at hstep
    simp only at hstep
    split at hstep
    · rename_i hfree
      simp only [Option.some.injEq] at hstep
      subst hstep
      exact inv_of_lock old new s _ i k hinv hp hfree.1 rfl rfl rfl rfl rfl rfl
    · exact Option.noConfusion hstep
  | unlock k =>
    rw [hp] at hstep
    simp only at hstep
    split at hstep
    · rename_i hheld
      simp only [Option.some.injEq] at hstep
      subst hstep
      exact inv_of_unlock old new s _ i k hinv hp hheld rfl rfl rfl rfl rfl rfl
    · exact Option.noConfusion hstep
  | write m k =>
    rw [hp] at hstep
    simp only [Option.some.injEq] at hstep
    subst hstep
    exact inv_of_write old new s _ i m k hinv hp rfl rfl rfl rfl rfl rfl
  | read site k =>
    rw [hp] at hstep
    simp only [Option.some.injEq] at hstep
    subst hstep
    exact inv_of_read old new s _ i site k hinv hp rfl rfl rfl rfl rfl rfl

/-- Every state of an interleaving of disciplined goroutines has the invariant. -/
theorem runSchedule_inv (old new : PreferredDatastoresMapT) (sched : List Nat) (s : CacheState)
    (hinv : CacheInv old new s) : CacheInv old new (runSchedule sched s) := by
  induction sched generalizing s with
  | nil => exact hinv
  | cons i rest ih =>
    simp only [runSchedule]
    apply ih
    cases hstep : cacheStep s i with
    | none => exact hinv
    | some t => exact cacheStep_inv old new s t i hinv hstep

theorem initialCacheState_inv (old new : PreferredDatastoresMapT) (threads : Nat → CacheProg)
    (h : ∀ i, Disciplined new .out (threads i)) :
    CacheInv old new (initialCacheState old threads) := by
  refine ⟨Or.inl rfl, rfl, ?_, ?_, ?_, ?_, ?_, ?_⟩
  · intro o ho
    exact absurd ho (List.not_mem_nil _)
  · intro o ho
    exact absurd ho (List.not_mem_nil _)
  · intro h
    exact Bool.noConfusion h
  · intro o ho
    exact absurd ho (List.not_mem_nil _)
  · intro o ho
    exact absurd ho (List.not_mem_nil _)
  · intro i
    have hm : modeOf (initialCacheState old threads) i = .out :=
      (modeOf_out_iff _ _).2 (fun h => Option.noConfusion h)
    rw [hm]
    exact h i

theorem disciplined_lookup_reads (new : PreferredDatastoresMapT) (segments : Segments)
    (k : CacheProg) (hk : Disciplined new .out k) :
    Disciplined new .observed
      (segments.foldr (fun _ rest => CacheProg.read .lookupIndex (fun _ => rest)) (.unlock k)) := by
  induction segments with
  | nil => exact .unlockObserved hk
  | cons p rest ih => exact .readObserved (fun _ => ih)

/-- The accesses of `GetPreferredDatastoresInSegments` follow the discipline. -/
theorem disciplined_lookup (new : PreferredDatastoresMapT) (segments : Segments)
    (k : CacheProg) (hk : Disciplined new .out k) :
    Disciplined new .out (GetPreferredDatastoresInSegmentsAccesses segments k) := by
  unfold GetPreferredDatastoresInSegmentsAccesses
  refine .lock (.readFresh (fun m => ?_))
  by_cases hm : m.length = 0
  · rw [if_pos hm]
    exact .unlockObserved hk
  · rw [if_neg hm]
    exact disciplined_lookup_reads new segments k hk

theorem disciplined_lookups (new : PreferredDatastoresMapT)
    (completeTopologySegments : List Segments) (k : CacheProg) (hk : Disciplined new .out k) :
    Disciplined new .out
      (completeTopologySegments.foldr
        (fun topoSegs rest => GetPreferredDatastoresInSegmentsAccesses topoSegs rest) k) := by
  induction completeTopologySegments with
  | nil => exact hk
  | cons topoSegs rest ih => exact disciplined_lookup new topoSegs _ ih

theorem disciplined_preference (new : PreferredDatastoresMapT) (flag : Bool)
    (completeTopologySegments : List Segments) (k : CacheProg) (hk : Disciplined new .out k) :
    Disciplined new .out (preferenceAccesses flag completeTopologySegments k) := by
  unfold preferenceAccesses
  cases flag with
  | false => exact hk
  | true =>
    rw [if_pos rfl]
    refine .readOut (fun m => ?_)
    by_cases hm : m.length ≠ 0
    · rw [if_pos hm]
      exact disciplined_lookups new completeTopologySegments k hk
    · rw [if_neg hm]
      exact hk

/-- The accesses of `GetSharedDatastores` follow the discipline. -/
theorem disciplined_shared (new : PreferredDatastoresMapT) (co : PlacementCollaborators)
    (storagePolicyID : String) (vcenter : VirtualCenter) (f1 f2 : Bool)
    (topologySegmentsList : List Segments) :
    Disciplined new .out
      (GetSharedDatastoresAccesses co storagePolicyID vcenter f1 f2 topologySegmentsList) := by
  induction topologySegmentsList with
  | nil => exact .done
  | cons segments rest ih =>
    unfold GetSharedDatastoresAccesses
    split
    · exact .done
    · split
      · exact ih
      · split
        · exact .done
        · split
          · exact .done
          · exact disciplined_preference new f2 _ _ ih

/-- The accesses of `RefreshPreferentialDatastores` follow the discipline, with
the cache the call leaves as the map it may assign. -/
theorem disciplined_refresh (co : TagCollaborators) (old : PreferredDatastoresMapT) :
    Disciplined (RefreshPreferentialDatastores co old).1 .out
      (RefreshPreferentialDatastoresAccesses co) := by
  unfold RefreshPreferentialDatastoresAccesses RefreshPreferentialDatastores
  cases co.GetConfig with
  | error cause => exact Disciplined.done
  | ok u =>
    dsimp only
    cases co.GetVirtualCenterConfigs with
    | error cause => exact Disciplined.done
    | ok hosts =>
      dsimp only
      cases scanVCs co hosts [] with
      | returned err => exact Disciplined.done
      | completed built =>
        by_cases hb : built.length ≠ 0
        · simp only [if_pos hb]
          exact Disciplined.lock (Disciplined.write (Disciplined.unlockFresh Disciplined.done))
        · simp only [if_neg hb]
          exact Disciplined.done

theorem disciplined_refreshWithCalls (co : TagCollaborators) (old : PreferredDatastoresMapT)
    (calls : List CacheCall) (i : Nat) :
    Disciplined (RefreshPreferentialDatastores co old).1 .out (refreshWithCalls co calls i) := by
  cases i with
  | zero => exact disciplined_refresh co old
  | succ n =>
    show Disciplined _ _ (((calls.get? n).map CacheCall.accesses).getD .done)
    cases calls.get? n with
    | none => exact Disciplined.done
    | some call =>
      cases call with
      | lookup segments => exact disciplined_lookup _ segments .done Disciplined.done
      | shared pco lst pol vc f1 f2 => exact disciplined_shared _ pco pol vc f1 f2 lst

/-! ## Theorems on the interleavings of cache accesses -/

/-- Counterexample to C23 as stated: lookups take the lock in exclusive mode.
With two calls of `GetPreferredDatastoresInSegments` next to a refresh, once the
first call has taken the lock it holds it after `Lock`, nobody holds it after
`RLock`, and the second call cannot take its step; two lookups under a shared
lock, as the specification words them, are both inside at that point. -/
theorem lookups_exclude_each_other :
    (runSchedule [1] (initialCacheState exampleCache exampleTwoLookups)).holder = some 1 ∧
      (runSchedule [1] (initialCacheState exampleCache exampleTwoLookups)).readers = [] ∧
      (cacheStep (runSchedule [1] (initialCacheState exampleCache exampleTwoLookups)) 2).isNone
        = true ∧
      (runSchedule [1, 2] (initialCacheState exampleCache exampleTwoSharedModeLookups)).readers
        = [2, 1] := by
  decide

/-- The read that `GetSharedDatastores` makes of the cache before it calls
`GetPreferredDatastoresInSegments` is made without the lock: here it happens
while the refresh holds the lock. -/
theorem GetSharedDatastores_reads_without_lock :
    (runSchedule [0, 1] (initialCacheState exampleCache exampleRefreshAndShared)).holder
        = some 0 ∧
      (runSchedule [0, 1] (initialCacheState exampleCache exampleRefreshAndShared)).log
        = [⟨1, .sharedLen, false, 1, exampleCache⟩] := by
  decide

/-- One call of `GetSharedDatastores` takes the lock once per complete segment
map: here the refresh runs between its two lookups, the first of which reads
the old map and the second the new one. -/
theorem GetSharedDatastores_lookups_straddle_refresh :
    (runSchedule [1, 1, 1, 1, 1, 0, 0, 0, 1, 1, 1, 1, 1]
        (initialCacheState exampleCache exampleRefreshAndShared)).log
      = [⟨1, .sharedLen, false, 0, exampleCache⟩,
         ⟨1, .lookupLen, true, 1, exampleCache⟩,
         ⟨1, .lookupIndex, true, 1, exampleCache⟩,
         ⟨1, .lookupLen, true, 3, [("z1", ["ds:///a"])]⟩,
         ⟨1, .lookupIndex, true, 3, [("z1", ["ds:///a"])]⟩,
         ⟨1, .lookupIndex, true, 3, [("z1", ["ds:///a"])]⟩] := by
  decide

/-- C23, amended: under any interleaving of one `RefreshPreferentialDatastores`
with calls of `GetPreferredDatastoresInSegments` and of `GetSharedDatastores`,
started with the map `old` in the cache, nobody ever holds the lock in shared
mode, and every read of the cache made inside
`GetPreferredDatastoresInSegments` happens while the reading goroutine holds the
lock in exclusive mode, sees the complete old map or the complete map the
refresh leaves, and sees the same map as every other read made under the same
acquisition of the lock. -/
theorem cache_reads_under_lock (co : TagCollaborators) (old : PreferredDatastoresMapT)
    (calls : List CacheCall) (sched : List Nat) :
    (runSchedule sched (initialCacheState old (refreshWithCalls co calls))).readers = [] ∧
      ∀ o ∈ (runSchedule sched (initialCacheState old (refreshWithCalls co calls))).log,
        o.site ≠ .sharedLen →
          o.underLock = true ∧
          (o.value = old ∨ o.value = (RefreshPreferentialDatastores co old).1) ∧
          ∀ o2 ∈ (runSchedule sched (initialCacheState old (refreshWithCalls co calls))).log,
            o2.site ≠ .sharedLen → o2.acquisition = o.acquisition → o2.value = o.value := by
  have hinv := runSchedule_inv old (RefreshPreferentialDatastores co old).1 sched _
    (initialCacheState_inv old _ (refreshWithCalls co calls)
      (disciplined_refreshWithCalls co old calls))
  refine ⟨hinv.readers, fun o ho hsite => ⟨hinv.sites o ho hsite, hinv.values o ho, ?_⟩⟩
  intro o2 ho2 hsite2 hacq
  exact hinv.agree o2 ho2 o ho (hinv.sites o2 ho2 hsite2) (hinv.sites o ho hsite) hacq

end PlacementEngine
